import Mathlib

/-!
Verification development for the Lorbeer-Turnierplaner backend
(FastAPI/SQLModel application under `backend/app/`).

The development shallowly embeds the schedule-generation engine
(`app/scheduling.py`), the derived tournament status
(`app/tournament_status.py`), and the mutating endpoints for matches and
tournaments (`app/routers/matches.py`, `app/routers/tournaments.py`).

Conventions of the embedding:
* Python strings stay `String`, Python ints become `Nat` or `Int` as
  appropriate (the quantities involved are never negative unless noted).
* `datetime` values are abstracted to `Nat` clock readings; endpoints take
  the current clock value `now` as a parameter.
* Database rows are nested records (a tournament owns its matches, a match
  owns its sides, a side owns its roster of player ids).  Auto-increment
  primary keys are modelled by a `nextId` counter on the world.
* An endpoint is a function from the stored world (plus request data) to
  `Except (Err × World) (resp × World)`: `.ok` returns the world as
  committed at the end of the handler, `.error` carries the world holding
  exactly the commits that happened before the exception was raised
  (an uncommitted SQLAlchemy session is discarded when the request
  unwinds, so mutations after the last commit do not persist).
-/

set_option maxHeartbeats 1000000

namespace Lorbeer

/-! ## Derived tournament status (`app/tournament_status.py`) -/

/-- Rank of a match state.  Mirrors `_rank_expr` in `app/tournament_status.py`
(and the identical `_state_rank` helpers in the routers):
`finished` ↦ 0, `playing` ↦ 1, `scheduled` ↦ 2, anything else ↦ 99. -/
def state_rank (state : String) : Nat :=
  if state = "finished" then 0
  else if state = "playing" then 1
  else if state = "scheduled" then 2
  else 99

/-- `min` aggregate over a list (SQL `func.min`, `NULL` on the empty set). -/
def listMin? {α : Type} [LinearOrder α] : List α → Option α
  | [] => none
  | x :: xs =>
    match listMin? xs with
    | none => some x
    | some m => some (min x m)

/-- `max` aggregate over a list (SQL `func.max`, `NULL` on the empty set). -/
def listMax? {α : Type} [LinearOrder α] : List α → Option α
  | [] => none
  | x :: xs =>
    match listMax? xs with
    | none => some x
    | some m => some (max x m)

/-- Python `min(...)` over a nonempty iterable; the default is never used at
the call sites below (documented per use). -/
def listMinD {α : Type} [LinearOrder α] (l : List α) (d : α) : α := (listMin? l).getD d

/-- Python `max(...)` over a nonempty iterable; the default is never used at
the call sites below (documented per use). -/
def listMaxD {α : Type} [LinearOrder α] (l : List α) (d : α) : α := (listMax? l).getD d

/-- Mirrors `status_from_minmaxcount` in `app/tournament_status.py`. -/
def status_from_minmaxcount (minRank maxRank : Option Nat) (count : Nat) : String :=
  if count = 0 ∨ minRank = none ∨ maxRank = none then "draft"
  else if minRank = some 2 ∧ maxRank = some 2 then "draft"
  else if minRank = some 0 ∧ maxRank = some 0 then "done"
  else "live"

/-- Mirrors `compute_status_for_tournament` in `app/tournament_status.py`:
the SQL query aggregates `min(rank), max(rank), count(id)` over the
tournament's matches and feeds the row to `status_from_minmaxcount`.
Here the multiset of match states is passed as a list. -/
def compute_status_of_states (states : List String) : String :=
  status_from_minmaxcount (listMin? (states.map state_rank))
    (listMax? (states.map state_rank)) states.length

/-- The status rule exactly as the specification words it (used to compare the
code against the spec): no matches or all `scheduled` gives `draft`, at least
one match and all `finished` gives `done`, every other case gives `live`. -/
def specDerivedStatus (states : List String) : String :=
  if states.isEmpty then "draft"
  else if states.all (fun s => s = "scheduled") then "draft"
  else if states.all (fun s => s = "finished") then "done"
  else "live"

/-! ## Schedule generation (`app/scheduling.py`)

The scheduling module works on label strings and reserves the literal string
`"__BYE__"` as the bye sentinel.  The embedding is generic in the label type
`α` with the bye sentinel as an explicit parameter; the `String` instances
below (with bye `"__BYE__"`) are the source functions.  A Python
`tuple(sorted((a, b)))` pair becomes `mkPair a b` over the linear order of
`α`. -/

/-- Failure values of the scheduling module.  The source raises `ValueError`
with a message; each constructor corresponds to one `raise` site (payload =
the data interpolated into the message). -/
inductive SchedErr : Type
  /-- "2v2 needs at least 4 players" -/
  | tooFewPlayers : SchedErr
  /-- "This scheduler currently supports up to 6 players for 2v2." -/
  | tooManyPlayers : SchedErr
  /-- "Unexpected round size ... for n=...": payload is the round size. -/
  | unexpectedRoundSize (size : Nat) : SchedErr
  /-- "Unexpected match count for n=6: ...": payload is the match count. -/
  | unexpectedMatchCount (count : Nat) : SchedErr
  /-- "Expected 5/6 distribution before adding 9th match, got ...":
  payload is the sorted per-player match-count list. -/
  | badDistribution (counts : List Nat) : SchedErr
deriving Repr, DecidableEq

/-- `_pair(a, b)`: `tuple(sorted((a, b)))`. -/
def mkPair {α : Type} [LinearOrder α] (a b : α) : α × α :=
  if a ≤ b then (a, b) else (b, a)

/-- `itertools.combinations(l, 2)` in iteration order. -/
def comb2 {α : Type} : List α → List (α × α)
  | [] => []
  | x :: xs => (xs.map (fun y => (x, y))) ++ comb2 xs

/-- `schedule_1v1_labels`: all unordered pairs of labels as single-player
teams (a team is the list of its labels, here a singleton). -/
def schedule_1v1_labels (labels : List String) : List (List String × List String) :=
  (comb2 labels).map (fun p => ([p.1], [p.2]))

/-- One rotation step of the circle method:
`arr = [arr[0]] + [arr[-1]] + arr[1:-1]`. -/
def rotateArr {α : Type} (arr : List α) : List α :=
  arr.take 1 ++ arr.drop (arr.length - 1) ++ (arr.drop 1).dropLast

/-- One round of the circle method on the current array: pair position `i`
with position `n-1-i` for `i < n/2`, dropping any pairing that touches the
bye.  Indexing uses `getD` with the bye as the (never relevant: `i < n`)
fallback element. -/
def roundPairs {α : Type} [LinearOrder α] (bye : α) (arr : List α) : List (α × α) :=
  (List.range (arr.length / 2)).filterMap (fun i =>
    let a := arr.getD i bye
    let b := arr.getD (arr.length - 1 - i) bye
    if a = bye ∨ b = bye then none else some (mkPair a b))

/-- The `for _ in range(n - 1)` loop of `_round_robin_pairings`: emit one
round, then rotate. -/
def roundsAux {α : Type} [LinearOrder α] (bye : α) : Nat → List α → List (List (α × α))
  | 0, _ => []
  | k + 1, arr => roundPairs bye arr :: roundsAux bye k (rotateArr arr)

/-- `_round_robin_pairings`, generic in the label type: append the bye when
the label count is odd, then run `n - 1` rounds of pair-and-rotate. -/
def roundRobinPairings {α : Type} [LinearOrder α] (bye : α) (labels : List α) :
    List (List (α × α)) :=
  let players := if labels.length % 2 = 1 then labels ++ [bye] else labels
  roundsAux bye (players.length - 1) players

/-- `_round_robin_pairings` as in the source, on strings with the bye
sentinel `"__BYE__"`. -/
def round_robin_pairings (labels : List String) : List (List (String × String)) :=
  roundRobinPairings "__BYE__" labels

/-- `_disjoint(p, q)`: no element of the pair `p` occurs in the pair `q`. -/
def pairDisjoint {α : Type} [DecidableEq α] (p q : α × α) : Bool :=
  !(p.1 == q.1 || p.1 == q.2) && !(p.2 == q.1 || p.2 == q.2)

/-- A 2v2 match: an ordered pair of partnerships (side A, side B). -/
abbrev Match2v2 (α : Type) := (α × α) × (α × α)

/-- `_players_in_match`. -/
def playersInMatch {α : Type} (m : Match2v2 α) : List α := [m.1.1, m.1.2, m.2.1, m.2.2]

/-- The list of all partnership slots of a match list (each match contributes
its two sides).  `_teammate_counts(ms)[p]` is the count of `p` here. -/
def sidesList {α : Type} : List (Match2v2 α) → List (α × α)
  | [] => []
  | m :: ms => m.1 :: m.2 :: sidesList ms

/-- `_teammate_counts(ms).get(p, 0)`. -/
def teammateCount {α : Type} [DecidableEq α] (ms : List (Match2v2 α)) (p : α × α) : Nat :=
  (sidesList ms).count p

/-- The four opponent pairs of one match, in the source's iteration order. -/
def oppPairsOfMatch {α : Type} [LinearOrder α] (m : Match2v2 α) : List (α × α) :=
  [mkPair m.1.1 m.2.1, mkPair m.1.1 m.2.2, mkPair m.1.2 m.2.1, mkPair m.1.2 m.2.2]

/-- All opponent pairs of a match list.  `_opponent_counts(ms).get(p, 0)` is
the count of `p` here. -/
def oppList {α : Type} [LinearOrder α] : List (Match2v2 α) → List (α × α)
  | [] => []
  | m :: ms => oppPairsOfMatch m ++ oppList ms

/-- `_opponent_counts(ms).get(p, 0)`. -/
def opponentCount {α : Type} [LinearOrder α] (ms : List (Match2v2 α)) (p : α × α) : Nat :=
  (oppList ms).count p

/-- All player slots of a match list; `_match_counts(players, ms)[x]` is the
count of `x` here (for `x ∈ players`). -/
def playerSlots {α : Type} : List (Match2v2 α) → List α
  | [] => []
  | m :: ms => playersInMatch m ++ playerSlots ms

/-- `_match_counts(players, ms)[x]`. -/
def matchCount {α : Type} [DecidableEq α] (ms : List (Match2v2 α)) (x : α) : Nat :=
  (playerSlots ms).count x

/-- `_candidate_splits_of_4`: the three disjoint 2v2 splits of four players.
The source unpacks `a, b, c, d = ps` and is only called with four players;
other lengths fall through to `[]` (unreachable at the call site, which
checks the length first). -/
def candidateSplitsOf4 {α : Type} [LinearOrder α] (ps : List α) : List (Match2v2 α) :=
  match ps with
  | [a, b, c, d] =>
    [(mkPair a b, mkPair c d), (mkPair a c, mkPair b d), (mkPair a d, mkPair b c)]
  | _ => []

/-- `_score_added_match`.  The fourth component embeds
`int(round(sum((v - 2.4) ** 2 for v in opp_vals) * 1000))`: since
`1000 * (v - 12/5)^2 = 1000*v^2 - 4800*v + 5760` is a nonnegative integer
for every integer `v`, the float expression rounds to exactly
`sum over v of (1000*v*v + 5760 - 4800*v)`, which is what is written here
(the accumulated floating error is far below 1/2). -/
def scoreAddedMatch {α : Type} [LinearOrder α] (players : List α)
    (base : List (Match2v2 α)) (add : Match2v2 α) : Nat × Nat × Nat × Nat :=
  let allPairs := (comb2 players).map (fun p => mkPair p.1 p.2)
  let withAdd := base ++ [add]
  let maxTeam := listMaxD (allPairs.map (fun p => teammateCount withAdd p)) 0
  let repeated := (allPairs.filter (fun p => teammateCount withAdd p == 2)).length
  let oppVals := allPairs.map (fun p => opponentCount withAdd p)
  let oppRange := listMaxD oppVals 0 - listMinD oppVals 0
  let oppSse := (oppVals.map (fun v => 1000 * v * v + 5760 - 4800 * v)).sum
  (maxTeam, repeated, oppRange, oppSse)

/-- Strict lexicographic comparison of score tuples (Python tuple `<`). -/
def scoreLt (x y : Nat × Nat × Nat × Nat) : Prop :=
  x.1 < y.1 ∨ (x.1 = y.1 ∧ (x.2.1 < y.2.1 ∨ (x.2.1 = y.2.1 ∧
    (x.2.2.1 < y.2.2.1 ∨ (x.2.2.1 = y.2.2.1 ∧ x.2.2.2 < y.2.2.2)))))

instance : DecidableRel scoreLt := fun x y => by
  unfold scoreLt
  infer_instance

/-- Python `min(candidates, key=score)`: scan left to right, replacing the
current best only on a strictly smaller key (so the first minimum wins). -/
def minByScore {α : Type} [LinearOrder α] (players : List α)
    (base : List (Match2v2 α)) : Match2v2 α → List (Match2v2 α) → Match2v2 α
  | best, [] => best
  | best, c :: rest =>
    if scoreLt (scoreAddedMatch players base c) (scoreAddedMatch players base best) then
      minByScore players base c rest
    else
      minByScore players base best rest

/-- Python `sorted` on a list of naturals. -/
def sortNatList (l : List Nat) : List Nat := l.insertionSort (· ≤ ·)

/-- `add_9th_match_balanced`: check the 5/6 participation distribution, then
add the best-scoring split of the four 5-match players. -/
def add_9th_match_balanced {α : Type} [LinearOrder α] (labels : List α)
    (matches8 : List (Match2v2 α)) : Except SchedErr (List (Match2v2 α)) :=
  let players := labels
  let mcVals := players.map (fun p => matchCount matches8 p)
  let mn := listMinD mcVals 0
  let lows := players.filter (fun p => matchCount matches8 p == mn)
  if lows.length = 4 ∧ sortNatList mcVals = [5, 5, 5, 5, 6, 6] then
    match candidateSplitsOf4 lows with
    | [] => .error (.badDistribution (sortNatList mcVals))
    | c :: cs => .ok (matches8 ++ [minByScore players matches8 c cs])
  else
    .error (.badDistribution (sortNatList mcVals))

/-- The per-round match assembly loop of `schedule_2v2_labels`: for `n ∈
{4,5}` each round must have exactly 2 pairings (one match); for `n = 6`
each round must have exactly 3 (one match and one leftover).  Raises at the
first bad round, like the source. -/
def collectRounds {α : Type} (n : Nat) :
    List (List (α × α)) → Except SchedErr (List (Match2v2 α) × List (α × α))
  | [] => .ok ([], [])
  | r :: rest =>
    if n = 4 ∨ n = 5 then
      match r with
      | [p, q] => (collectRounds n rest).map (fun acc => ((p, q) :: acc.1, acc.2))
      | _ => .error (.unexpectedRoundSize r.length)
    else
      match r with
      | [p, q, l] => (collectRounds n rest).map (fun acc => ((p, q) :: acc.1, l :: acc.2))
      | _ => .error (.unexpectedRoundSize r.length)

/-- The greedy leftover-pairing `while` loop of `schedule_2v2_labels` (n = 6),
with an explicit fuel so the recursion is structural.  The loop removes two
leftovers per match or rotates the queue at most once between removals, so
`2 * pending.length + 2` fuel makes the fuel bound unreachable; the call
site passes that.  Returns (pending, extra) at loop exit: either fewer than
two leftovers remain or the defensive stuck-break fired. -/
def pairLeftovers {α : Type} [DecidableEq α] :
    Nat → List (α × α) → List (Match2v2 α) → List (α × α) × List (Match2v2 α)
  | 0, pending, extra => (pending, extra)
  | fuel + 1, pending, extra =>
    match pending with
    | [] => ([], extra)
    | [p] => ([p], extra)
    | p :: rest =>
      match rest.findIdx? (fun q => pairDisjoint p q) with
      | some j =>
        pairLeftovers fuel (rest.eraseIdx j) (extra ++ [(p, rest.getD j p)])
      | none =>
        let pending2 := rest ++ [p]
        match pending2 with
        | [] => ([], extra)
        | h :: tl =>
          if tl.all (fun q => !(pairDisjoint h q)) then (pending2, extra)
          else pairLeftovers fuel pending2 extra

/-- `schedule_2v2_labels`, generic in the label type with the bye sentinel as
a parameter. -/
def schedule2v2 {α : Type} [LinearOrder α] (bye : α) (labels : List α) :
    Except SchedErr (List (Match2v2 α)) :=
  let n := labels.length
  if n < 4 then .error .tooFewPlayers
  else if 6 < n then .error .tooManyPlayers
  else
    match collectRounds n (roundRobinPairings bye labels) with
    | .error e => .error e
    | .ok (ms, leftovers) =>
      if n = 6 then
        let pe := pairLeftovers (2 * leftovers.length + 2) leftovers []
        let extra2 :=
          match pe.1 with
          | [] => pe.2
          | last :: _ =>
            let remaining := labels.filter (fun x => !(x == last.1 || x == last.2))
            match remaining with
            | r0 :: r1 :: _ => pe.2 ++ [(last, mkPair r0 r1)]
            | _ => pe.2
        let allMatches := ms ++ extra2
        if allMatches.length = 8 then add_9th_match_balanced labels allMatches
        else .error (.unexpectedMatchCount allMatches.length)
      else .ok ms

/-- `schedule_2v2_labels` as in the source, on strings with the bye sentinel
`"__BYE__"`. -/
def schedule_2v2_labels (labels : List String) : Except SchedErr (List (Match2v2 String)) :=
  schedule2v2 "__BYE__" labels

/-! ## Data model (`app/models.py`)

Rows are nested records.  `datetime` columns are abstract `Nat` clock values.
`MatchSide.id` is elided (nothing in the embedded endpoints reads it); the
roster rows (`MatchSidePlayer`) of a side are its `players` list.  Of the
`Tournament` columns, the ones the embedded endpoints read or write are kept:
the cached `status` column, the mode, the `labels` entry of `settings_json`
(as an association list, JSON serialization elided), the player roster
(`(id, display_name)` in relationship order, `display_name` unique), and the
owned matches in storage order. -/

/-- A `MatchSide` row with its `MatchSidePlayer` roster rows. -/
structure SideRec : Type where
  sideLabel : String
  goals : Int
  clubId : Option Nat
  players : List Nat
deriving Repr, DecidableEq

/-- A `Match` row with its sides. -/
structure MatchRec : Type where
  mid : Nat
  leg : Int
  orderIndex : Int
  state : String
  startedAt : Option Nat
  finishedAt : Option Nat
  sides : List SideRec
deriving Repr, DecidableEq

/-- A `Tournament` row with its players and matches (`tmatches`, since
`matches` is a Lean keyword). -/
structure Tourn : Type where
  tid : Nat
  mode : String
  statusCol : String
  players : List (Nat × String)
  settingsLabels : List (String × String)
  tmatches : List MatchRec
deriving Repr, DecidableEq

/-- The stored state: all tournaments, the club id table, and the
auto-increment counter for new `Match` primary keys. -/
structure World : Type where
  tournaments : List Tourn
  clubs : List Nat
  nextId : Nat
deriving Repr, DecidableEq

/-- `ORDER BY order_index` (insertion sort is stable; `order_index` is unique
within a tournament in well-formed stores, so ties do not arise there). -/
def sortByOrder (ms : List MatchRec) : List MatchRec :=
  ms.insertionSort (fun a b => a.orderIndex ≤ b.orderIndex)

/-- The match states of a tournament (the multiset the status aggregate
ranges over). -/
def Tourn.states (t : Tourn) : List String := t.tmatches.map (fun m => m.state)

/-- `compute_status_for_tournament` on one loaded tournament. -/
def computeStatusT (t : Tourn) : String := compute_status_of_states t.states

/-- Primary-key lookup of a tournament. -/
def findTournament (w : World) (tid : Nat) : Option Tourn :=
  w.tournaments.find? (fun t => t.tid == tid)

/-- `find_other_live_tournament_id`: scan `compute_status_map` (tournaments
that have matches, in storage order) for a live tournament other than the
current one. -/
def find_other_live_tournament_id (w : World) (current : Nat) : Option Nat :=
  ((w.tournaments.filter (fun t => !t.tmatches.isEmpty)).find?
    (fun t => t.tid != current && computeStatusT t == "live")).map (fun t => t.tid)

/-- Write back one tournament row (matched by id). -/
def updateTournament (w : World) (t : Tourn) : World :=
  { w with tournaments := w.tournaments.map (fun u => if u.tid = t.tid then t else u) }

/-- Write back one match row inside a tournament (matched by id). -/
def replaceMatch (t : Tourn) (m : MatchRec) : Tourn :=
  { t with tmatches := t.tmatches.map (fun x => if x.mid = m.mid then m else x) }

/-- Error values raised by the embedded endpoints; each constructor is one
`HTTPException` site (`httpCode` below gives its status code). -/
inductive Err : Type
  | matchNotFound : Err
  | tournamentNotFound : Err
  | doneAdminOnly : Err
  | legChangeAdminOnly : Err
  | invalidLeg : Err
  | legChangeStarted : Err
  | invalidState : Err
  | invalidOrder : Err
  | multiplePlaying : Err
  | unknownClub (cid : Nat) : Err
  | otherTournamentLive (tid : Nat) : Err
  | badPlayerCount : Err
  | scheduleValueErr (e : SchedErr) : Err
  | matchIdsEmpty : Err
  | matchIdsMismatch : Err
  | reorderFixedHead : Err
  | secondLegStarted : Err
  | secondLegIncomplete : Err
  | notTwoVTwo : Err
  | noSchedule : Err
  | notAllScheduled : Err
  | touchedTimestamps : Err
  | touchedGoals : Err
  | touchedClubs : Err
deriving Repr, DecidableEq

/-- HTTP status code of each error. -/
def Err.httpCode : Err → Nat
  | .matchNotFound => 404
  | .tournamentNotFound => 404
  | .doneAdminOnly => 403
  | .legChangeAdminOnly => 403
  | .invalidLeg => 400
  | .legChangeStarted => 409
  | .invalidState => 400
  | .invalidOrder => 409
  | .multiplePlaying => 409
  | .unknownClub _ => 400
  | .otherTournamentLive _ => 409
  | .badPlayerCount => 400
  | .scheduleValueErr _ => 400
  | .matchIdsEmpty => 400
  | .matchIdsMismatch => 400
  | .reorderFixedHead => 409
  | .secondLegStarted => 403
  | .secondLegIncomplete => 409
  | .notTwoVTwo => 409
  | .noSchedule => 409
  | .notAllScheduled => 409
  | .touchedTimestamps => 409
  | .touchedGoals => 409
  | .touchedClubs => 409

/-! ## Match patching (`app/routers/matches.py`, `patch_match`) -/

/-- One side of a `MatchPatchBody` (`MatchSidePatchBody`): the outer `Option`
is field presence (`model_fields_set`), the inner one of `clubId` is an
explicit null. -/
structure SidePatchBody : Type where
  clubId : Option (Option Nat) := none
  goals : Option Int := none
deriving Repr, DecidableEq

/-- `MatchPatchBody`.  A side field that is present but null behaves in the
source like a present empty patch (`body.sideA or MatchSidePatchBody()`), so
presence alone is modelled. -/
structure MatchPatchBody : Type where
  leg : Option Int := none
  state : Option String := none
  sideA : Option SidePatchBody := none
  sideB : Option SidePatchBody := none
deriving Repr, DecidableEq

/-- `_match_or_404`: primary-key lookup of a match, with its tournament. -/
def findMatchIn : List Tourn → Nat → Option (Tourn × MatchRec)
  | [], _ => none
  | t :: ts, matchId =>
    match t.tmatches.find? (fun m => m.mid == matchId) with
    | some m => some (t, m)
    | none => findMatchIn ts matchId

/-- `_match_or_404` over the world. -/
def findMatch (w : World) (matchId : Nat) : Option (Tourn × MatchRec) :=
  findMatchIn w.tournaments matchId

/-- The `SELECT id ... ORDER BY order_index DESC, id DESC LIMIT 1` lookup of
the last match of a tournament. -/
def lastMatchId (t : Tourn) : Option Nat :=
  match t.tmatches with
  | [] => none
  | m :: ms =>
    some ((ms.foldl (fun best x =>
      if best.orderIndex < x.orderIndex ∨
          (best.orderIndex = x.orderIndex ∧ best.mid < x.mid) then x else best) m).mid)

/-- The done-tournament guard at the top of `patch_match`: a non-admin may
only patch the last match of a done tournament, and never its leg. -/
def checkDoneGuard (t : Tourn) (m : MatchRec) (body : MatchPatchBody) (role : String) :
    Option Err :=
  if computeStatusT t = "done" ∧ role ≠ "admin" then
    if lastMatchId t ≠ some m.mid then some .doneAdminOnly
    else if body.leg.isSome then some .legChangeAdminOnly
    else none
  else none

/-- The leg-reassignment block of `patch_match` (admin only, scheduled only,
leg must be 1 or 2). -/
def applyLegPatch (m : MatchRec) (body : MatchPatchBody) (role : String) :
    Except Err MatchRec :=
  match body.leg with
  | none => .ok m
  | some lg =>
    if role ≠ "admin" then .error .legChangeAdminOnly
    else if ¬(lg = 1 ∨ lg = 2) then .error .invalidLeg
    else if m.state ≠ "scheduled" then .error .legChangeStarted
    else .ok { m with leg := lg }

/-- The timestamp bookkeeping of a state transition in `patch_match`: the
three `if new_state == ...` blocks, then `m.state = new_state`. -/
def applyStateTimestamps (m : MatchRec) (newState : String) (now : Nat) : MatchRec :=
  let m1 :=
    if newState = "scheduled" then { m with startedAt := none, finishedAt := none } else m
  let m2 :=
    if newState = "playing" then
      { m1 with finishedAt := none,
                startedAt := if m1.startedAt = none then some now else m1.startedAt }
    else m1
  let m3 :=
    if newState = "finished" then
      { m2 with startedAt := if m2.startedAt = none then some now else m2.startedAt,
                finishedAt := if m2.finishedAt = none then some now else m2.finishedAt }
    else m2
  { m3 with state := newState }

/-- The state block of `patch_match`: reject unknown state names, otherwise
apply the transition. -/
def applyStatePatch (m : MatchRec) (body : MatchPatchBody) (now : Nat) :
    Except Err MatchRec :=
  match body.state with
  | none => .ok m
  | some ns =>
    if ¬(ns = "scheduled" ∨ ns = "playing" ∨ ns = "finished") then .error .invalidState
    else .ok (applyStateTimestamps m ns now)

/-- `_validate_tournament_state_order`: over the matches sorted by order
index, state ranks must be non-decreasing and at most one match `playing`.
Returns the error to raise, if any. -/
def validateStateOrder (t : Tourn) : Option Err :=
  let ranks := (sortByOrder t.tmatches).map (fun m => state_rank m.state)
  if (List.range (ranks.length - 1)).any
      (fun i => decide (ranks.getD (i + 1) 0 < ranks.getD i 0)) then
    some .invalidOrder
  else if 1 < (t.tmatches.filter (fun m => m.state == "playing")).length then
    some .multiplePlaying
  else none

/-- Replace the first element satisfying `p` (used through a reversed list to
model updating the side selected by the `{side.side: side}` dict, where the
last side with a label wins). -/
def updateFirstBy {α : Type} (p : α → Bool) (f : α → α) : List α → List α
  | [] => []
  | x :: xs => if p x then f x :: xs else x :: updateFirstBy p f xs

/-- Write back the side selected for `lab` (the last one carrying that label,
per Python dict construction), keeping list order. -/
def setLastSide (sides : List SideRec) (lab : String) (v : SideRec) : List SideRec :=
  (updateFirstBy (fun s => s.sideLabel == lab) (fun _ => v) sides.reverse).reverse

/-- The `sideA`/`sideB` blocks of `patch_match`: optional club change (with
`_club_exists` check), then optional goal change, applied to the side the
`{side.side: side}` dict selects; silently skipped when the match has no such
side. -/
def patchSide (w : World) (m : MatchRec) (lab : String) (p? : Option SidePatchBody) :
    Except Err MatchRec :=
  match p? with
  | none => .ok m
  | some p =>
    match (m.sides.reverse).find? (fun s => s.sideLabel == lab) with
    | none => .ok m
    | some s =>
      let afterClub : Except Err SideRec :=
        match p.clubId with
        | none => .ok s
        | some none => .ok { s with clubId := none }
        | some (some cid) =>
          if cid ∈ w.clubs then .ok { s with clubId := some cid }
          else .error (.unknownClub cid)
      match afterClub with
      | .error e => .error e
      | .ok s1 =>
        let s2 :=
          match p.goals with
          | none => s1
          | some g => { s1 with goals := g }
        .ok { m with sides := setLastSide m.sides lab s2 }

/-- Everything `patch_match` does between loading the match and the
single-live-tournament guard: done guard, leg block, state block with order
validation, side blocks.  Returns the updated tournament (still uncommitted
in the source at this point). -/
def patchMatchCore (w : World) (t : Tourn) (m0 : MatchRec) (body : MatchPatchBody)
    (role : String) (now : Nat) : Except Err Tourn :=
  match checkDoneGuard t m0 body role with
  | some e => .error e
  | none =>
    match applyLegPatch m0 body role with
    | .error e => .error e
    | .ok m1 =>
      match applyStatePatch m1 body now with
      | .error e => .error e
      | .ok m2 =>
        let t2 := replaceMatch t m2
        match (if body.state.isSome then validateStateOrder t2 else none) with
        | some e => .error e
        | none =>
          match patchSide w m2 "A" body.sideA with
          | .error e => .error e
          | .ok m3 =>
            match patchSide w m3 "B" body.sideB with
            | .error e => .error e
            | .ok m4 => .ok (replaceMatch t m4)

/-- Response of `patch_match` (`{"ok", "id", "state", "leg",
"tournament_status"}`). -/
structure PatchResp : Type where
  mid : Nat
  state : String
  leg : Int
  tournamentStatus : String
deriving Repr, DecidableEq

/-- The `PATCH /matches/{match_id}` endpoint.  After the core mutation, the
derived status is recomputed; if it is `live` and another tournament is
already live the request is rejected (409) before the commit, so the error
carries the unchanged world; otherwise the tournament (with its cached
status column synced) and the match are committed. -/
def patch_match (w : World) (matchId : Nat) (body : MatchPatchBody) (role : String)
    (now : Nat) : Except (Err × World) (PatchResp × World) :=
  match findMatch w matchId with
  | none => .error (.matchNotFound, w)
  | some (t, m0) =>
    match patchMatchCore w t m0 body role now with
    | .error e => .error (e, w)
    | .ok t1 =>
      let statusAfter := computeStatusT t1
      match (if statusAfter = "live" then find_other_live_tournament_id w t.tid else none) with
      | some otherTid => .error (.otherTournamentLive otherTid, w)
      | none =>
        let t2 := { t1 with statusCol := statusAfter }
        let mFinal := (t2.tmatches.find? (fun m => m.mid == matchId)).getD m0
        .ok ({ mid := matchId, state := mFinal.state, leg := mFinal.leg,
               tournamentStatus := statusAfter }, updateTournament w t2)

/-! ## Schedule mutation endpoints (`app/routers/tournaments.py`) -/

/-- `_leg2_started`: some leg-2 match not `scheduled`, or some leg-2 side
with nonzero goals or a non-null club. -/
def leg2Started (t : Tourn) : Bool :=
  (t.tmatches.filter (fun m => m.leg == 2)).any (fun m =>
    m.state != "scheduled" || m.sides.any (fun s => s.goals != 0 || s.clubId.isSome))

/-- `_max_order_index`: maximum stored order index, `-1` when the tournament
has no matches. -/
def maxOrderIndex (t : Tourn) : Int :=
  (listMax? (t.tmatches.map (fun m => m.orderIndex))).getD (-1)

/-- `_bulk_delete_matches`: drop the matches in scope (whole tournament, or
one leg); their sides and roster rows go with them (they are nested in this
model, so no orphans can remain).  Returns the updated tournament row. -/
def bulkDeleteMatches (t : Tourn) (lg : Option Int) : Tourn :=
  { t with tmatches := t.tmatches.filter (fun m =>
      match lg with
      | none => false
      | some l => decide (m.leg ≠ l)) }

/-- Append a freshly inserted match row to its tournament. -/
def appendMatchTo (w : World) (tid : Nat) (m : MatchRec) : World :=
  { w with tournaments := w.tournaments.map (fun t =>
      if t.tid = tid then { t with tmatches := t.tmatches ++ [m] } else t) }

/-- `_create_match_with_teams` (and the identical inline creation in
`generate_schedule`, whose `Match(...)` call leaves `leg` at its default 1):
a new `scheduled` match with sides `A` and `B`, zero goals, no club, and the
given rosters.  The new primary key is the world's `nextId`. -/
def createMatchWithTeams (w : World) (tid : Nat) (ordIdx : Int) (lg : Int)
    (teamA teamB : List Nat) : World :=
  let m : MatchRec :=
    { mid := w.nextId, leg := lg, orderIndex := ordIdx, state := "scheduled",
      startedAt := none, finishedAt := none,
      sides := [{ sideLabel := "A", goals := 0, clubId := none, players := teamA },
                { sideLabel := "B", goals := 0, clubId := none, players := teamB }] }
  { appendMatchTo w tid m with nextId := w.nextId + 1 }

/-- A creation loop (`for ...: _create_match_with_teams(...); idx += 1`). -/
def createMatchesLoop (tid : Nat) (lg : Int) :
    World → Int → List (List Nat × List Nat) → World
  | w, _, [] => w
  | w, idx, sig :: rest =>
    createMatchesLoop tid lg (createMatchWithTeams w tid idx lg sig.1 sig.2) (idx + 1) rest

/-- `_side_player_ids`: the sorted roster of a side. -/
def sidePlayerIdsSorted (s : SideRec) : List Nat := sortNatList s.players

/-- `_match_signature_from_loaded_match`: (sorted side-A roster, sorted
side-B roster), or `(([]), ([]))` when a side is missing.  Side selection
follows the `{s.side: s}` dict (last side with a label wins). -/
def matchSignature (m : MatchRec) : List Nat × List Nat :=
  match (m.sides.reverse).find? (fun s => s.sideLabel == "A"),
      (m.sides.reverse).find? (fun s => s.sideLabel == "B") with
  | some a, some b => (sidePlayerIdsSorted a, sidePlayerIdsSorted b)
  | _, _ => ([], [])

/-- Python `set(a) == set(b)`. -/
def sigSetEq (a b : List (List Nat × List Nat)) : Prop :=
  (∀ x ∈ a, x ∈ b) ∧ (∀ x ∈ b, x ∈ a)

instance (a b : List (List Nat × List Nat)) : Decidable (sigSetEq a b) := by
  unfold sigSetEq
  infer_instance

/-- Response of the second-leg endpoint (the varying JSON keys become
optional fields). -/
structure SecondLegResp : Type where
  secondLeg : Bool
  deleted : Option Bool := none
  created : Option Nat := none
  status : Option String := none
deriving Repr, DecidableEq

/-- The signature list of one leg: matches of that leg sorted by order index,
each mapped to its signature, signatures of matches missing a side dropped
(`!= ((), ())`). -/
def legSigs (t : Tourn) (lg : Int) : List (List Nat × List Nat) :=
  ((sortByOrder (t.tmatches.filter (fun m => m.leg == lg))).map matchSignature).filter
    (fun sg => sg != ([], []))

/-- The `PATCH /tournaments/{id}/second-leg` endpoint (`second_leg`).
Disable: no-op when leg 2 is absent; reject (403) when leg 2 started;
otherwise bulk-delete leg 2 and sync status.  Enable: reject (403) when
leg 2 started; when absent, reject (409) if another tournament is live, else
append a mirror of leg 1 after the maximum order index; when present and
complete (same signature count and signature sets), no-op; when present and
incomplete, reject (409). -/
def second_leg (w : World) (tid : Nat) (enabled : Bool) (role : String) :
    Except (Err × World) (SecondLegResp × World) :=
  match findTournament w tid with
  | none => .error (.tournamentNotFound, w)
  | some t =>
    let leg1Sigs := legSigs t 1
    let leg2Sigs := legSigs t 2
    let leg2Exists := (t.tmatches.filter (fun m => m.leg == 2)).length > 0
    if enabled = false then
      if ¬leg2Exists then .ok ({ secondLeg := false, deleted := some false }, w)
      else if leg2Started t then .error (.secondLegStarted, w)
      else
        let t1 := bulkDeleteMatches t (some 2)
        let t2 := { t1 with statusCol := computeStatusT t1 }
        .ok ({ secondLeg := false, deleted := some true, status := some t2.statusCol },
          updateTournament w t2)
    else
      if leg2Started t then .error (.secondLegStarted, w)
      else if ¬leg2Exists then
        match find_other_live_tournament_id w tid with
        | some otherTid => .error (.otherTournamentLive otherTid, w)
        | none =>
          let w1 := createMatchesLoop tid 2 w (maxOrderIndex t + 1) leg1Sigs
          match findTournament w1 tid with
          | none => .error (.tournamentNotFound, w1)
          | some tNew =>
            let t2 := { tNew with statusCol := computeStatusT tNew }
            .ok ({ secondLeg := true, created := some leg1Sigs.length,
                   status := some t2.statusCol }, updateTournament w1 t2)
      else if leg2Sigs.length = leg1Sigs.length ∧ sigSetEq leg2Sigs leg1Sigs then
        let t2 := { t with statusCol := computeStatusT t }
        .ok ({ secondLeg := true, created := some 0, status := some t2.statusCol },
          updateTournament w t2)
      else .error (.secondLegIncomplete, w)

/-- The `by_id[mid].state` lookup of `reorder` (the id is always present once
the set check has passed; the default is never read then). -/
def stateOfId (t : Tourn) (i : Nat) : String :=
  ((t.tmatches.find? (fun m => m.mid == i)).map (fun m => m.state)).getD ""

/-- The update loop of `reorder`: `by_id[mid].order_index = idx` for each
listed id in turn (a duplicated id is assigned twice; the last write wins,
as in the source). -/
def applyReorder (ms : List MatchRec) (matchIds : List Nat) : List MatchRec :=
  matchIds.enum.foldl (fun acc p =>
    acc.map (fun m => if m.mid = p.2 then { m with orderIndex := Int.ofNat p.1 } else m)) ms

/-- The `PATCH /tournaments/{id}/reorder` endpoint (`reorder`): done guard,
non-empty list check, `set(match_ids) == set(all ids)` check, fixed
non-scheduled head check, rank monotonicity and single-playing checks, then
the index rewrite, committed at the end. -/
def reorder (w : World) (tid : Nat) (matchIds : List Nat) (role : String) :
    Except (Err × World) (Unit × World) :=
  match findTournament w tid with
  | none => .error (.tournamentNotFound, w)
  | some t =>
    if computeStatusT t = "done" ∧ role ≠ "admin" then .error (.doneAdminOnly, w)
    else if matchIds.isEmpty then .error (.matchIdsEmpty, w)
    else
      let msSorted := sortByOrder t.tmatches
      let allIds := msSorted.map (fun m => m.mid)
      if ¬((∀ i ∈ matchIds, i ∈ allIds) ∧ (∀ i ∈ allIds, i ∈ matchIds)) then
        .error (.matchIdsMismatch, w)
      else
        let fixedHead := (msSorted.filter (fun m => m.state != "scheduled")).map
          (fun m => m.mid)
        if fixedHead ≠ [] ∧ matchIds.take fixedHead.length ≠ fixedHead then
          .error (.reorderFixedHead, w)
        else
          let ranks := matchIds.map (fun i => state_rank (stateOfId t i))
          if (List.range (ranks.length - 1)).any
              (fun k => decide (ranks.getD (k + 1) 0 < ranks.getD k 0)) then
            .error (.invalidOrder, w)
          else if 1 < (matchIds.filter (fun i => stateOfId t i == "playing")).length then
            .error (.multiplePlaying, w)
          else
            .ok ((), updateTournament w { t with tmatches := applyReorder t.tmatches matchIds })

/-- `assign_labels`: optionally permute the names (the `random.shuffle` is an
oracle parameter here), then label them "A", "B", ... in order.  Returns the
labels and the label-to-name map (as the zip, which is what the dict
comprehension builds). -/
def assign_labels (playerNames : List String) (shuffle : Bool)
    (shuffleOracle : List String → List String) : List String × List (String × String) :=
  let names := if shuffle then shuffleOracle playerNames else playerNames
  let labels := (List.range names.length).map (fun i => Char.toString (Char.ofNat (65 + i)))
  (labels, labels.zip names)

/-- Python dict lookup on an association list built from pairs (later entries
win, hence the reverse). -/
def dictGet {β : Type} (d : List (String × β)) (k : String) : Option β :=
  ((d.reverse).find? (fun p => p.1 == k)).map (fun p => p.2)

/-- `label_team_to_player_ids`: label → name via the generated map, then
name → player id via the `{display_name: player}` dict.  Both lookups always
hit in the endpoint flows (labels come from the same `assign_labels` call
whose names come from the same player list); the `getD` defaults are never
read there. -/
def labelTeamToPlayerIds (players : List (Nat × String))
    (labelToName : List (String × String)) (team : List String) : List Nat :=
  team.map (fun l =>
    (dictGet (players.map (fun p => (p.2, p.1))) ((dictGet labelToName l).getD "")).getD 0)

/-- A 2v2 side pair as the team list the creation loops iterate over. -/
def pairToTeam (p : String × String) : List String := [p.1, p.2]

/-- The creation loop of `generate_schedule` (leg defaults to 1).  The source
translates each label team to player ids inside the loop; translating the
whole list first and then running the same creation loop is the identical
sequence of inserts. -/
def insertGenerated (tid : Nat) (players : List (Nat × String))
    (labelToName : List (String × String)) (w : World) (idx : Int)
    (teams : List (List String × List String)) : World :=
  createMatchesLoop tid 1 w idx
    (teams.map (fun tm =>
      (labelTeamToPlayerIds players labelToName tm.1,
       labelTeamToPlayerIds players labelToName tm.2)))

/-- The rows a creation loop starting at primary key `sid`, order index
`idx` and leg `lg` inserts for the given roster pairs (specification view of
`createMatchesLoop`). -/
def newMatchesFrom (sid : Nat) (idx : Int) (lg : Int) :
    List (List Nat × List Nat) → List MatchRec
  | [] => []
  | sig :: rest =>
    { mid := sid, leg := lg, orderIndex := idx, state := "scheduled",
      startedAt := none, finishedAt := none,
      sides := [{ sideLabel := "A", goals := 0, clubId := none, players := sig.1 },
                { sideLabel := "B", goals := 0, clubId := none, players := sig.2 }] } ::
      newMatchesFrom (sid + 1) (idx + 1) lg rest

/-- Response of `generate_schedule`. -/
structure GenResp : Type where
  matchesCreated : Nat
  labels : List (String × String)
deriving Repr, DecidableEq

/-- The `POST /tournaments/{id}/generate` endpoint (`generate_schedule`).
Commits happen in source order: the label map first, then (after the
schedule is computed — a scheduling `ValueError` becomes a 400 with only the
label map persisted) the bulk delete of the old schedule, the insertion of
the new matches with order indices `0, 1, ...`, and the status sync.  A mode
other than "1v1" falls into the 2v2 branch, as in the source's `else`. -/
def generate_schedule (w : World) (tid : Nat) (role : String) (randomize : Bool)
    (nameShuffle : List String → List String)
    (matchShuffle : List (List String × List String) → List (List String × List String)) :
    Except (Err × World) (GenResp × World) :=
  match findTournament w tid with
  | none => .error (.tournamentNotFound, w)
  | some t =>
    if computeStatusT t = "done" ∧ role ≠ "admin" then .error (.doneAdminOnly, w)
    else
      let playerNames := t.players.map (fun p => p.2)
      if t.mode = "1v1" ∧ ¬(3 ≤ playerNames.length ∧ playerNames.length ≤ 5) then
        .error (.badPlayerCount, w)
      else if t.mode = "2v2" ∧ ¬(4 ≤ playerNames.length ∧ playerNames.length ≤ 6) then
        .error (.badPlayerCount, w)
      else
        let al := assign_labels playerNames randomize nameShuffle
        let t1 := { t with settingsLabels := al.2 }
        let w1 := updateTournament w t1
        let lmE : Except SchedErr (List (List String × List String)) :=
          if t.mode = "1v1" then .ok (schedule_1v1_labels al.1)
          else (schedule_2v2_labels al.1).map
            (fun lms => lms.map (fun q => (pairToTeam q.1, pairToTeam q.2)))
        match lmE with
        | .error e => .error (.scheduleValueErr e, w1)
        | .ok lm0 =>
          let lm := if randomize then matchShuffle lm0 else lm0
          let w2 := updateTournament w1 (bulkDeleteMatches t1 none)
          let w3 := insertGenerated tid t1.players al.2 w2 0 lm
          match findTournament w3 tid with
          | none => .error (.tournamentNotFound, w3)
          | some tNew =>
            let t2 := { tNew with statusCol := computeStatusT tNew }
            .ok ({ matchesCreated := lm.length, labels := al.2 }, updateTournament w3 t2)

/-- The per-side loop of the reassign untouched check: goals must be zero and
the club empty. -/
def sidesUntouchedCheck : List SideRec → Option Err
  | [] => none
  | s :: rest =>
    if s.goals ≠ 0 then some .touchedGoals
    else if s.clubId.isSome then some .touchedClubs
    else sidesUntouchedCheck rest

/-- The per-match loop of the reassign safety check: every match `scheduled`,
no timestamps, clean sides. -/
def reassignUntouchedCheck : List MatchRec → Option Err
  | [] => none
  | m :: rest =>
    if m.state ≠ "scheduled" then some .notAllScheduled
    else if m.startedAt.isSome ∨ m.finishedAt.isSome then some .touchedTimestamps
    else
      match sidesUntouchedCheck m.sides with
      | some e => some e
      | none => reassignUntouchedCheck rest

/-- Response of `reassign_2v2`. -/
structure ReassignResp : Type where
  matchesCreated : Nat
  secondLeg : Bool
  status : String
deriving Repr, DecidableEq

/-- The `POST /tournaments/{id}/reassign` endpoint (`reassign_2v2`): 2v2
only, schedule must exist and be fully untouched; a fresh always-shuffled
label map is committed, the 2v2 schedule recomputed (a `ValueError` becomes
400 with only the label map persisted), the whole old schedule bulk-deleted,
leg 1 recreated from index 0, leg 2 recreated right after it when it existed
before, and the status synced. -/
def reassign_2v2 (w : World) (tid : Nat) (role : String) (randomizeOrder : Bool)
    (nameShuffle : List String → List String)
    (matchShuffle : List (Match2v2 String) → List (Match2v2 String)) :
    Except (Err × World) (ReassignResp × World) :=
  match findTournament w tid with
  | none => .error (.tournamentNotFound, w)
  | some t =>
    if t.mode ≠ "2v2" then .error (.notTwoVTwo, w)
    else
      let ms := sortByOrder t.tmatches
      if ms.isEmpty then .error (.noSchedule, w)
      else
        match reassignUntouchedCheck ms with
        | some e => .error (e, w)
        | none =>
          let hadLeg2 := ms.any (fun m => m.leg == 2)
          let playerNames := t.players.map (fun p => p.2)
          if ¬(4 ≤ playerNames.length ∧ playerNames.length ≤ 6) then
            .error (.badPlayerCount, w)
          else
            let al := assign_labels playerNames true nameShuffle
            let t1 := { t with settingsLabels := al.2 }
            let w1 := updateTournament w t1
            match schedule_2v2_labels al.1 with
            | .error e => .error (.scheduleValueErr e, w1)
            | .ok lm0 =>
              let lm := if randomizeOrder then matchShuffle lm0 else lm0
              let teams := lm.map (fun q =>
                (labelTeamToPlayerIds t1.players al.2 (pairToTeam q.1),
                 labelTeamToPlayerIds t1.players al.2 (pairToTeam q.2)))
              let w2 := updateTournament w1 (bulkDeleteMatches t1 none)
              let w3 := createMatchesLoop tid 1 w2 0 teams
              let w4 :=
                if hadLeg2 then createMatchesLoop tid 2 w3 (Int.ofNat lm.length) teams
                else w3
              match findTournament w4 tid with
              | none => .error (.tournamentNotFound, w4)
              | some tNew =>
                let t2 := { tNew with statusCol := computeStatusT tNew }
                .ok ({ matchesCreated := lm.length, secondLeg := hadLeg2,
                       status := t2.statusCol }, updateTournament w4 t2)

/-! ## Concrete store fixtures (used by witnesses and counterexamples) -/

/-- A match row fixture with clean sides. -/
def fixMatch (i : Nat) (oi : Int) (st : String) (lg : Int) (pa pb : List Nat) : MatchRec :=
  { mid := i, leg := lg, orderIndex := oi, state := st, startedAt := none,
    finishedAt := none,
    sides := [{ sideLabel := "A", goals := 0, clubId := none, players := pa },
              { sideLabel := "B", goals := 0, clubId := none, players := pb }] }

/-- A 1v1 tournament row fixture. -/
def fixTourn (i : Nat) (ps : List (Nat × String)) (ms : List MatchRec) : Tourn :=
  { tid := i, mode := "1v1", statusCol := "draft", players := ps, settingsLabels := [],
    tmatches := ms }

/-- Tournament 1 is live (one playing match); tournament 2 is all scheduled. -/
def liveWorldA : World :=
  { tournaments :=
      [fixTourn 1 [(1, "P"), (2, "Q")]
        [fixMatch 1 0 "playing" 1 [1] [2], fixMatch 2 1 "scheduled" 1 [2] [1]],
       fixTourn 2 [(3, "R"), (4, "S")]
        [fixMatch 3 0 "scheduled" 1 [3] [4], fixMatch 4 1 "scheduled" 1 [4] [3]]],
    clubs := [], nextId := 10 }

/-- Tournament 1 is live; tournament 2 has a fully finished leg 1 and no
leg 2 (so enabling its second leg would make it live). -/
def liveWorldB : World :=
  { tournaments :=
      [fixTourn 1 [(1, "P"), (2, "Q")]
        [fixMatch 1 0 "playing" 1 [1] [2], fixMatch 2 1 "scheduled" 1 [2] [1]],
       fixTourn 2 [(3, "R"), (4, "S")]
        [fixMatch 3 0 "finished" 1 [3] [4], fixMatch 4 1 "finished" 1 [4] [3]]],
    clubs := [], nextId := 10 }

/-- A single draft tournament with two scheduled matches. -/
def draftWorld : World :=
  { tournaments :=
      [fixTourn 1 [(1, "P"), (2, "Q"), (3, "R")]
        [fixMatch 1 0 "scheduled" 1 [1] [2], fixMatch 2 1 "scheduled" 1 [1] [3]]],
    clubs := [], nextId := 10 }

/-- Leg 1 with signature multiset {X, X, Y}; leg 2 with signature multiset
{X, Y, Y}: equal signature sets and counts, different multisets. -/
def legMismatchWorld : World :=
  { tournaments :=
      [fixTourn 1 [(1, "P"), (2, "Q"), (3, "R"), (4, "S")]
        [fixMatch 1 0 "scheduled" 1 [1] [2], fixMatch 2 1 "scheduled" 1 [1] [2],
         fixMatch 3 2 "scheduled" 1 [3] [4],
         fixMatch 4 3 "scheduled" 2 [1] [2], fixMatch 5 4 "scheduled" 2 [3] [4],
         fixMatch 6 5 "scheduled" 2 [3] [4]]],
    clubs := [], nextId := 10 }

/-- A tournament whose leg 2 is started (a playing leg-2 match). -/
def startedLeg2World : World :=
  { tournaments :=
      [fixTourn 1 [(1, "P"), (2, "Q")]
        [fixMatch 1 0 "finished" 1 [1] [2], fixMatch 2 1 "playing" 2 [1] [2]]],
    clubs := [], nextId := 10 }

/-- Tournament 2 of `liveWorldA`. -/
def liveWorldAT2 : Tourn :=
  fixTourn 2 [(3, "R"), (4, "S")]
    [fixMatch 3 0 "scheduled" 1 [3] [4], fixMatch 4 1 "scheduled" 1 [4] [3]]

/-- Tournament 2 of `liveWorldA` after patching match 3 to `playing`. -/
def liveWorldAT2Patched : Tourn :=
  replaceMatch liveWorldAT2
    (applyStateTimestamps (fixMatch 3 0 "scheduled" 1 [3] [4]) "playing" 100)

/-- Tournament 2 of `liveWorldB`. -/
def liveWorldBT2 : Tourn :=
  fixTourn 2 [(3, "R"), (4, "S")]
    [fixMatch 3 0 "finished" 1 [3] [4], fixMatch 4 1 "finished" 1 [4] [3]]

/-- The tournament of `legMismatchWorld`. -/
def legMismatchT : Tourn :=
  fixTourn 1 [(1, "P"), (2, "Q"), (3, "R"), (4, "S")]
    [fixMatch 1 0 "scheduled" 1 [1] [2], fixMatch 2 1 "scheduled" 1 [1] [2],
     fixMatch 3 2 "scheduled" 1 [3] [4],
     fixMatch 4 3 "scheduled" 2 [1] [2], fixMatch 5 4 "scheduled" 2 [3] [4],
     fixMatch 6 5 "scheduled" 2 [3] [4]]

/-- The tournament of `draftWorld`. -/
def draftWorldT : Tourn :=
  fixTourn 1 [(1, "P"), (2, "Q"), (3, "R")]
    [fixMatch 1 0 "scheduled" 1 [1] [2], fixMatch 2 1 "scheduled" 1 [1] [3]]

/-- What `draftWorld` becomes when the duplicate-carrying reorder list
`[1, 1, 2]` is applied: match 1 ends at order index 1, match 2 at 2, and no
match holds index 0. -/
def dupReorderWorld : World :=
  updateTournament draftWorld
    { draftWorldT with tmatches := applyReorder draftWorldT.tmatches [1, 1, 2] }

/-! ## Analysis layer for the circle method (`_round_robin_pairings`)

The rotation `arr = [arr[0]] + [arr[-1]] + arr[1:-1]` keeps the head fixed
and rotates the tail one step to the right.  The helpers below name the tail
rotation, the position into the original tail that a tail slot holds after
`k` rotations, and the pair emitted by round `k` at slot `i`. -/

/-- The tail rotation: last element to the front. -/
def tailRot {α : Type} (t : List α) : List α :=
  t.drop (t.length - 1) ++ t.dropLast

/-- Position into the original tail (length `m`) held by tail slot `j` after
`k` right rotations. -/
def posT (m k j : Nat) : Nat := (j + k * (m - 1)) % m

/-- The pair the circle method emits in round `k` at slot `i`, for a player
array `x :: t`: slot `0` pairs the fixed head with the last tail slot, slot
`i ≥ 1` pairs tail slots `i - 1` and `t.length - 1 - i`. -/
def circleSlot {α : Type} [LinearOrder α] (bye x : α) (t : List α) (k i : Nat) :
    α × α :=
  if i = 0 then mkPair x (t.getD (posT t.length k (t.length - 1)) bye)
  else
    mkPair (t.getD (posT t.length k (i - 1)) bye)
      (t.getD (posT t.length k (t.length - 1 - i)) bye)

/-- All unordered pairs of a label list, as sorted tuples. -/
def allPairs {α : Type} [LinearOrder α] (l : List α) : List (α × α) :=
  (comb2 l).map (fun p => mkPair p.1 p.2)

/-! ## Analysis layer for `schedule_2v2_labels` (C1)

The 2v2 scheduler touches its labels only through equality tests (including
the bye test) and through `mkPair`, and every pair it ever stores is a
`mkPair` result, hence sorted in the ambient order.  Relabelling positions
`0..5` (with `6` as the bye) along an enumeration `g` of six concrete labels
therefore maps each run on `ℕ` to the run on the concrete labels, where a
sorted pair `p` maps to the re-sorted image `pairImage g p`. -/

/-- Image of a sorted pair under a relabelling, re-sorted in the target
order. -/
def pairImage {β : Type} [LinearOrder β] (g : Nat → β) (p : Nat × Nat) : β × β :=
  mkPair (g p.1) (g p.2)

/-- Image of a match (two partnerships) under a relabelling. -/
def matchImage {β : Type} [LinearOrder β] (g : Nat → β) (m : Match2v2 Nat) :
    Match2v2 β :=
  (pairImage g m.1, pairImage g m.2)

/-- A well-formed position pair: sorted, with entries among `0..6`. -/
def PGood (p : Nat × Nat) : Prop := p.1 ≤ p.2 ∧ p.2 ≤ 6

/-- A well-formed position match: both sides well-formed. -/
def MGood (m : Match2v2 Nat) : Prop := PGood m.1 ∧ PGood m.2

/-- The canonical 2v2 schedule on positions `0..5` (bye `6`), as computed by
`schedule2v2`; `canon2v2_eq` below checks this against the function. -/
def canon2v2 : List (Match2v2 Nat) :=
  [((0, 5), (1, 4)), ((0, 4), (3, 5)), ((0, 3), (2, 4)), ((0, 2), (1, 3)),
   ((0, 1), (2, 5)), ((2, 3), (1, 5)), ((1, 2), (4, 5)), ((3, 4), (0, 1)),
   ((2, 3), (4, 5))]

end Lorbeer

namespace Lorbeer

/-! ## Theorems about the derived status -/

theorem listMin?_eq_none {l : List Nat} : listMin? l = none ↔ l = [] := by
  cases l with
  | nil => simp [listMin?]
  | cons x xs =>
    simp only [listMin?]
    cases listMin? xs <;> simp

theorem listMax?_eq_none {l : List Nat} : listMax? l = none ↔ l = [] := by
  cases l with
  | nil => simp [listMax?]
  | cons x xs =>
    simp only [listMax?]
    cases listMax? xs <;> simp

theorem listMin?_spec {l : List Nat} {m : Nat} (h : listMin? l = some m) :
    m ∈ l ∧ ∀ x ∈ l, m ≤ x := by
  induction l generalizing m with
  | nil => simp [listMin?] at h
  | cons x xs ih =>
    simp only [listMin?] at h
    cases hxs : listMin? xs with
    | none =>
      rw [hxs] at h
      simp only [Option.some.injEq] at h
      subst h
      have hnil : xs = [] := listMin?_eq_none.mp hxs
      subst hnil
      simp
    | some m' =>
      rw [hxs] at h
      simp only [Option.some.injEq] at h
      obtain ⟨hm', hle⟩ := ih hxs
      have hm : m = min x m' := h.symm
      constructor
      · rcases le_total x m' with hx | hx
        · rw [hm, min_eq_left hx]
          exact List.mem_cons_self x xs
        · rw [hm, min_eq_right hx]
          exact List.mem_cons_of_mem x hm'
      · intro y hy
        rcases List.mem_cons.mp hy with hy | hy
        · subst hy
          rw [hm]
          exact min_le_left _ _
        · have := hle y hy
          calc m ≤ m' := by rw [hm]; exact min_le_right _ _
            _ ≤ y := this

theorem listMax?_spec {l : List Nat} {m : Nat} (h : listMax? l = some m) :
    m ∈ l ∧ ∀ x ∈ l, x ≤ m := by
  induction l generalizing m with
  | nil => simp [listMax?] at h
  | cons x xs ih =>
    simp only [listMax?] at h
    cases hxs : listMax? xs with
    | none =>
      rw [hxs] at h
      simp only [Option.some.injEq] at h
      subst h
      have hnil : xs = [] := listMax?_eq_none.mp hxs
      subst hnil
      simp
    | some m' =>
      rw [hxs] at h
      simp only [Option.some.injEq] at h
      obtain ⟨hm', hle⟩ := ih hxs
      have hm : m = max x m' := h.symm
      constructor
      · rcases le_total x m' with hx | hx
        · rw [hm, max_eq_right hx]
          exact List.mem_cons_of_mem x hm'
        · rw [hm, max_eq_left hx]
          exact List.mem_cons_self x xs
      · intro y hy
        rcases List.mem_cons.mp hy with hy | hy
        · subst hy
          rw [hm]
          exact le_max_left _ _
        · have := hle y hy
          calc y ≤ m' := this
            _ ≤ m := by rw [hm]; exact le_max_right _ _

theorem state_rank_eq_zero {s : String} : state_rank s = 0 ↔ s = "finished" := by
  unfold state_rank
  by_cases h1 : s = "finished" <;> by_cases h2 : s = "playing" <;>
    by_cases h3 : s = "scheduled" <;> simp [h1, h2, h3]

theorem state_rank_eq_two {s : String} : state_rank s = 2 ↔ s = "scheduled" := by
  unfold state_rank
  by_cases h1 : s = "finished" <;> by_cases h2 : s = "playing" <;>
    by_cases h3 : s = "scheduled" <;> simp [h1, h2, h3]

theorem listMin?_perm {l l' : List Nat} (h : l.Perm l') : listMin? l = listMin? l' := by
  induction h with
  | nil => rfl
  | cons x _ ih => simp only [listMin?, ih]
  | swap x y l =>
    simp only [listMin?]
    cases listMin? l with
    | none => simp [min_comm]
    | some m => simp [min_left_comm, min_comm]
  | trans _ _ ih1 ih2 => rw [ih1, ih2]

theorem listMax?_perm {l l' : List Nat} (h : l.Perm l') : listMax? l = listMax? l' := by
  induction h with
  | nil => rfl
  | cons x _ ih => simp only [listMax?, ih]
  | swap x y l =>
    simp only [listMax?]
    cases listMax? l with
    | none => simp [max_comm]
    | some m => simp [max_left_comm, max_comm]
  | trans _ _ ih1 ih2 => rw [ih1, ih2]

theorem compute_status_eq_spec (states : List String) :
    compute_status_of_states states = specDerivedStatus states := by
  unfold compute_status_of_states specDerivedStatus status_from_minmaxcount
  cases states with
  | nil => simp [listMin?, listMax?]
  | cons s rest =>
    set l := (s :: rest).map state_rank with hl
    have hlne : l ≠ [] := by simp [hl]
    obtain ⟨mn, hmn⟩ : ∃ m, listMin? l = some m := by
      cases h : listMin? l with
      | none => exact absurd (listMin?_eq_none.mp h) hlne
      | some m => exact ⟨m, rfl⟩
    obtain ⟨mx, hmx⟩ : ∃ m, listMax? l = some m := by
      cases h : listMax? l with
      | none => exact absurd (listMax?_eq_none.mp h) hlne
      | some m => exact ⟨m, rfl⟩
    obtain ⟨hmem_mn, hmin⟩ := listMin?_spec hmn
    obtain ⟨hmem_mx, hmax⟩ := listMax?_spec hmx
    have hcount : (s :: rest).length ≠ 0 := by simp
    rw [hmn, hmx]
    simp only [hcount, List.isEmpty_cons, Option.some.injEq, false_or,
      reduceCtorEq, or_false, if_false, Bool.false_eq_true]
    by_cases hall2 : ∀ x ∈ (s :: rest), x = "scheduled"
    · have h2 : ∀ x ∈ l, x = 2 := by
        intro x hx
        rw [hl] at hx
        obtain ⟨st, hst, hrk⟩ := List.mem_map.mp hx
        rw [← hrk, state_rank_eq_two.mpr (hall2 st hst)]
      have hmn2 : mn = 2 := h2 mn hmem_mn
      have hmx2 : mx = 2 := h2 mx hmem_mx
      have : (s :: rest).all (fun x => x = "scheduled") = true := by
        rw [List.all_eq_true]
        intro x hx
        simp [hall2 x hx]
      simp [hmn2, hmx2, this]
    · have hall2' : ¬((s :: rest).all (fun x => x = "scheduled") = true) := by
        rw [List.all_eq_true]
        intro hc
        exact hall2 fun x hx => by simpa using hc x hx
      have hne2 : ¬(mn = 2 ∧ mx = 2) := by
        rintro ⟨hmn2, hmx2⟩
        apply hall2
        intro x hx
        have hrk : state_rank x ∈ l := by
          rw [hl]
          exact List.mem_map.mpr ⟨x, hx, rfl⟩
        have h1 := hmin _ hrk
        have h2 := hmax _ hrk
        rw [hmn2] at h1
        rw [hmx2] at h2
        exact state_rank_eq_two.mp (by omega)
      by_cases hall0 : ∀ x ∈ (s :: rest), x = "finished"
      · have h0 : ∀ x ∈ l, x = 0 := by
          intro x hx
          rw [hl] at hx
          obtain ⟨st, hst, hrk⟩ := List.mem_map.mp hx
          rw [← hrk, state_rank_eq_zero.mpr (hall0 st hst)]
        have hmn0 : mn = 0 := h0 mn hmem_mn
        have hmx0 : mx = 0 := h0 mx hmem_mx
        have hb : (s :: rest).all (fun x => x = "finished") = true := by
          rw [List.all_eq_true]
          intro x hx
          simp [hall0 x hx]
        simp [hmn0, hmx0, hb, hne2, hall2']
      · have hall0' : ¬((s :: rest).all (fun x => x = "finished") = true) := by
          rw [List.all_eq_true]
          intro hc
          exact hall0 fun x hx => by simpa using hc x hx
        have hne0 : ¬(mn = 0 ∧ mx = 0) := by
          rintro ⟨hmn0, hmx0⟩
          apply hall0
          intro x hx
          have hrk : state_rank x ∈ l := by
            rw [hl]
            exact List.mem_map.mpr ⟨x, hx, rfl⟩
          have h1 := hmin _ hrk
          have h2 := hmax _ hrk
          rw [hmn0] at h1
          rw [hmx0] at h2
          exact state_rank_eq_zero.mp (by omega)
        simp [hne2, hne0, hall2', hall0']

/-- Claim C3: the derived status of a tournament is a pure function of the
multiset of its matches' states (it is invariant under permutation of the
match list), and it equals the spec's rule: `draft` when there are no matches
or all are `scheduled`, `done` when there is at least one match and all are
`finished`, and `live` in every other case. -/
theorem derived_status_pure_and_correct (states states₂ : List String)
    (hperm : states.Perm states₂) :
    compute_status_of_states states = specDerivedStatus states ∧
      compute_status_of_states states = compute_status_of_states states₂ := by
  refine ⟨compute_status_eq_spec states, ?_⟩
  unfold compute_status_of_states
  rw [listMin?_perm (hperm.map state_rank), listMax?_perm (hperm.map state_rank),
    hperm.length_eq]

/-- Witness for C3 at a concrete mixed state list. -/
theorem derived_status_pure_and_correct_witness :
    compute_status_of_states ["finished", "scheduled"] = "live" ∧
      compute_status_of_states ["finished", "scheduled"] =
        specDerivedStatus ["finished", "scheduled"] ∧
      compute_status_of_states ["finished", "scheduled"] =
        compute_status_of_states ["scheduled", "finished"] := by
  have h := derived_status_pure_and_correct ["finished", "scheduled"]
    ["scheduled", "finished"] (by decide)
  exact ⟨by decide, h.1, h.2⟩

/-! ## Basic world lemmas -/

theorem findTournament_mem {w : World} {tid : Nat} {t : Tourn}
    (h : findTournament w tid = some t) : t ∈ w.tournaments ∧ t.tid = tid := by
  unfold findTournament at h
  refine ⟨List.mem_of_find?_eq_some h, ?_⟩
  have := List.find?_some h
  simpa using this

theorem findMatchIn_mem {ts : List Tourn} {i : Nat} {t : Tourn} {m : MatchRec}
    (h : findMatchIn ts i = some (t, m)) :
    t ∈ ts ∧ m ∈ t.tmatches ∧ m.mid = i := by
  induction ts with
  | nil => simp [findMatchIn] at h
  | cons u us ih =>
    simp only [findMatchIn] at h
    cases hf : u.tmatches.find? (fun m => m.mid == i) with
    | some m' =>
      rw [hf] at h
      simp only [Option.some.injEq, Prod.mk.injEq] at h
      obtain ⟨h1, h2⟩ := h
      subst h1
      subst h2
      refine ⟨List.mem_cons_self u us, List.mem_of_find?_eq_some hf, ?_⟩
      have := List.find?_some hf
      simpa using this
    | none =>
      rw [hf] at h
      obtain ⟨h1, h2, h3⟩ := ih h
      exact ⟨List.mem_cons_of_mem u h1, h2, h3⟩

theorem findMatch_mem {w : World} {i : Nat} {t : Tourn} {m : MatchRec}
    (h : findMatch w i = some (t, m)) :
    t ∈ w.tournaments ∧ m ∈ t.tmatches ∧ m.mid = i :=
  findMatchIn_mem h

theorem find_other_live_spec {w : World} {cur otherTid : Nat}
    (h : find_other_live_tournament_id w cur = some otherTid) :
    otherTid ≠ cur ∧
      ∃ t ∈ w.tournaments, t.tid = otherTid ∧ computeStatusT t = "live" := by
  unfold find_other_live_tournament_id at h
  cases hf : (w.tournaments.filter (fun t => !t.tmatches.isEmpty)).find?
      (fun t => t.tid != cur && computeStatusT t == "live") with
  | none => rw [hf] at h; simp at h
  | some t =>
    rw [hf] at h
    simp only [Option.map, Option.some.injEq] at h
    subst h
    have hmem : t ∈ w.tournaments.filter (fun t => !t.tmatches.isEmpty) :=
      List.mem_of_find?_eq_some hf
    have hpred := List.find?_some hf
    simp only [Bool.and_eq_true, bne_iff_ne, beq_iff_eq] at hpred
    exact ⟨hpred.1, t, List.mem_of_mem_filter hmem, rfl, hpred.2⟩

theorem find?_updateList_self {ts : List Tourn} {t2 : Tourn} {tid : Nat}
    (h2 : t2.tid = tid) {u : Tourn} (hu : u ∈ ts) (hutid : u.tid = tid) :
    (ts.map (fun v => if v.tid = t2.tid then t2 else v)).find?
      (fun t => t.tid == tid) = some t2 := by
  induction ts with
  | nil => simp at hu
  | cons v vs ih =>
    simp only [List.map_cons, List.find?_cons]
    by_cases hvt : v.tid = t2.tid
    · simp [hvt, h2]
    · have hvtid : v.tid ≠ tid := fun hc => hvt (hc.trans h2.symm)
      have hv : u ∈ vs := by
        rcases List.mem_cons.mp hu with h | h
        · exact absurd (h ▸ hutid) hvtid
        · exact h
      simp only [hvt, if_false]
      have : (v.tid == tid) = false := by simpa using hvtid
      rw [this]
      exact ih hv

theorem findTournament_update_self {w : World} {t2 : Tourn} {tid : Nat}
    (h2 : t2.tid = tid) (hex : ∃ u ∈ w.tournaments, u.tid = tid) :
    findTournament (updateTournament w t2) tid = some t2 := by
  obtain ⟨u, hu, hutid⟩ := hex
  exact find?_updateList_self h2 hu hutid

theorem find?_updateList_ne {ts : List Tourn} {t2 : Tourn} {tid : Nat}
    (h2 : t2.tid ≠ tid) :
    (ts.map (fun v => if v.tid = t2.tid then t2 else v)).find?
      (fun t => t.tid == tid) = ts.find? (fun t => t.tid == tid) := by
  induction ts with
  | nil => simp
  | cons v vs ih =>
    simp only [List.map_cons, List.find?_cons]
    by_cases hvt : v.tid = t2.tid
    · have h1 : (t2.tid == tid) = false := by simpa using h2
      have h2' : (v.tid == tid) = false := by
        simp only [beq_eq_false_iff_ne, ne_eq]
        intro hc
        exact h2 (hvt ▸ hc)
      simp [hvt, h1, h2', ih]
    · simp only [hvt, if_false]
      cases hvq : (v.tid == tid) <;> simp [hvq, ih]

theorem findTournament_update_ne {w : World} {t2 : Tourn} {tid : Nat}
    (h2 : t2.tid ≠ tid) :
    findTournament (updateTournament w t2) tid = findTournament w tid :=
  find?_updateList_ne h2

/-! ## The single-live-tournament guard (C5) -/

/-- Claim C5: a match-state patch that passes the whole per-tournament
validation (modelled by `patchMatchCore` succeeding) but would leave the
tournament's derived status `live` while another tournament is already live
is rejected with a 409 Conflict naming that live tournament, and the error
carries the stored world unchanged; likewise for enabling a second leg
(which the source rejects on the creation path whenever another tournament
is live, in particular when the enable would make this one live). -/
theorem live_conflict_rejects_and_preserves :
    (∀ (w : World) (matchId : Nat) (body : MatchPatchBody) (role : String) (now : Nat)
        (t0 : Tourn) (m0 : MatchRec) (t1 : Tourn) (otherTid : Nat),
      findMatch w matchId = some (t0, m0) →
      patchMatchCore w t0 m0 body role now = .ok t1 →
      computeStatusT t1 = "live" →
      find_other_live_tournament_id w t0.tid = some otherTid →
      patch_match w matchId body role now = .error (.otherTournamentLive otherTid, w) ∧
        otherTid ≠ t0.tid ∧
        ∃ u ∈ w.tournaments, u.tid = otherTid ∧ computeStatusT u = "live") ∧
    (∀ (w : World) (tid : Nat) (t : Tourn) (role : String) (otherTid : Nat),
      findTournament w tid = some t →
      t.tmatches.filter (fun m => m.leg == 2) = [] →
      find_other_live_tournament_id w tid = some otherTid →
      compute_status_of_states
        (t.states ++ List.replicate (legSigs t 1).length "scheduled") = "live" →
      second_leg w tid true role = .error (.otherTournamentLive otherTid, w) ∧
        otherTid ≠ tid ∧
        ∃ u ∈ w.tournaments, u.tid = otherTid ∧ computeStatusT u = "live") := by
  constructor
  · intro w matchId body role now t0 m0 t1 otherTid hfind hcore hlive hother
    obtain ⟨hne, hex⟩ := find_other_live_spec hother
    refine ⟨?_, hne, hex⟩
    unfold patch_match
    rw [hfind]
    dsimp only
    rw [hcore]
    dsimp only
    rw [hlive]
    simp only [if_pos, hother]
  · intro w tid t role otherTid hfind hleg2 hother _hwouldlive
    obtain ⟨hne, hex⟩ := find_other_live_spec hother
    refine ⟨?_, hne, hex⟩
    unfold second_leg
    rw [hfind]
    have hstart : leg2Started t = false := by
      unfold leg2Started
      rw [hleg2]
      rfl
    have hexist : ((t.tmatches.filter (fun m => m.leg == 2)).length > 0) = False := by
      rw [hleg2]
      simp
    simp only [hleg2, hstart, List.length_nil, gt_iff_lt, lt_self_iff_false,
      not_false_eq_true, if_neg, Bool.false_eq_true, if_false, hother,
      List.length_eq_zero, decide_False, Bool.false_eq_true, not_false_iff]
    simp [hother]

/-- Witness for C5: in `liveWorldA`/`liveWorldB`, tournament 1 is live, and
both mutations on tournament 2 are rejected naming tournament 1 with the
world unchanged. -/
theorem live_conflict_witness :
    patch_match liveWorldA 3 { state := some "playing" } "editor" 100 =
      .error (.otherTournamentLive 1, liveWorldA) ∧
    second_leg liveWorldB 2 true "editor" =
      .error (.otherTournamentLive 1, liveWorldB) := by
  constructor
  · exact (live_conflict_rejects_and_preserves.1 liveWorldA 3
      { state := some "playing" } "editor" 100 liveWorldAT2
      (fixMatch 3 0 "scheduled" 1 [3] [4]) liveWorldAT2Patched 1
      rfl rfl rfl rfl).1
  · exact (live_conflict_rejects_and_preserves.2 liveWorldB 2 liveWorldBT2 "editor" 1
      rfl rfl rfl rfl).1

/-! ## Timestamp bookkeeping of state patches (C4) -/

theorem patchSide_preserves {w : World} {m : MatchRec} {lab : String}
    {p : Option SidePatchBody} {m' : MatchRec} (h : patchSide w m lab p = .ok m') :
    m'.mid = m.mid ∧ m'.state = m.state ∧ m'.startedAt = m.startedAt ∧
      m'.finishedAt = m.finishedAt := by
  unfold patchSide at h
  cases p with
  | none =>
    simp only [Except.ok.injEq] at h
    subst h
    exact ⟨rfl, rfl, rfl, rfl⟩
  | some pb =>
    dsimp only at h
    cases hf : (m.sides.reverse).find? (fun s => s.sideLabel == lab) with
    | none =>
      rw [hf] at h
      dsimp only at h
      simp only [Except.ok.injEq] at h
      subst h
      exact ⟨rfl, rfl, rfl, rfl⟩
    | some s0 =>
      rw [hf] at h
      dsimp only at h
      cases hc : pb.clubId with
      | none =>
        rw [hc] at h
        dsimp only at h
        simp only [Except.ok.injEq] at h
        subst h
        exact ⟨rfl, rfl, rfl, rfl⟩
      | some c? =>
        cases c? with
        | none =>
          rw [hc] at h
          dsimp only at h
          simp only [Except.ok.injEq] at h
          subst h
          exact ⟨rfl, rfl, rfl, rfl⟩
        | some cid =>
          rw [hc] at h
          dsimp only at h
          split at h <;>
            first
              | (simp only [Except.ok.injEq] at h
                 subst h
                 exact ⟨rfl, rfl, rfl, rfl⟩)
              | simp at h

theorem applyLegPatch_preserves {m : MatchRec} {body : MatchPatchBody} {role : String}
    {m' : MatchRec} (h : applyLegPatch m body role = .ok m') :
    m'.mid = m.mid ∧ m'.state = m.state ∧ m'.startedAt = m.startedAt ∧
      m'.finishedAt = m.finishedAt := by
  unfold applyLegPatch at h
  cases hbl : body.leg with
  | none =>
    rw [hbl] at h
    dsimp only at h
    simp only [Except.ok.injEq] at h
    subst h
    exact ⟨rfl, rfl, rfl, rfl⟩
  | some lg =>
    rw [hbl] at h
    dsimp only at h
    split at h
    · simp at h
    · split at h
      · simp at h
      · split at h
        · simp at h
        · simp only [Except.ok.injEq] at h
          subst h
          exact ⟨rfl, rfl, rfl, rfl⟩

theorem applyStatePatch_some {m : MatchRec} {body : MatchPatchBody} {now : Nat}
    {m' : MatchRec} {s : String} (hs : body.state = some s)
    (h : applyStatePatch m body now = .ok m') :
    m' = applyStateTimestamps m s now := by
  unfold applyStatePatch at h
  rw [hs] at h
  dsimp only at h
  split at h
  · simp at h
  · simp only [Except.ok.injEq] at h
    exact h.symm

theorem ast_mid (m : MatchRec) (s : String) (now : Nat) :
    (applyStateTimestamps m s now).mid = m.mid := by
  unfold applyStateTimestamps
  split <;> split <;> split <;> rfl

theorem ast_state (m : MatchRec) (s : String) (now : Nat) :
    (applyStateTimestamps m s now).state = s := by
  unfold applyStateTimestamps
  split <;> split <;> split <;> rfl

theorem ast_scheduled (m : MatchRec) (now : Nat) :
    (applyStateTimestamps m "scheduled" now).startedAt = none ∧
      (applyStateTimestamps m "scheduled" now).finishedAt = none := by
  unfold applyStateTimestamps
  dsimp only
  rw [if_pos rfl, if_neg (by decide : ¬("scheduled" : String) = "playing"),
    if_neg (by decide : ¬("scheduled" : String) = "finished")]
  exact ⟨rfl, rfl⟩

theorem ast_playing (m : MatchRec) (now : Nat) :
    (applyStateTimestamps m "playing" now).finishedAt = none ∧
      (applyStateTimestamps m "playing" now).startedAt = some (m.startedAt.getD now) := by
  unfold applyStateTimestamps
  dsimp only
  rw [if_neg (by decide : ¬("playing" : String) = "scheduled"), if_pos rfl,
    if_neg (by decide : ¬("playing" : String) = "finished")]
  cases m.startedAt <;> simp

theorem ast_finished (m : MatchRec) (now : Nat) :
    (applyStateTimestamps m "finished" now).startedAt = some (m.startedAt.getD now) ∧
      (applyStateTimestamps m "finished" now).finishedAt =
        some (m.finishedAt.getD now) := by
  unfold applyStateTimestamps
  dsimp only
  rw [if_neg (by decide : ¬("finished" : String) = "scheduled"),
    if_neg (by decide : ¬("finished" : String) = "playing"), if_pos rfl]
  cases m.startedAt <;> cases m.finishedAt <;> simp

theorem patchMatchCore_timestamps {w : World} {t : Tourn} {m0 : MatchRec}
    {body : MatchPatchBody} {role : String} {now : Nat} {t1 : Tourn} {s : String}
    (hs : body.state = some s)
    (h : patchMatchCore w t m0 body role now = .ok t1) :
    ∃ m4, t1 = replaceMatch t m4 ∧ m4.mid = m0.mid ∧ m4.state = s ∧
      (s = "scheduled" → m4.startedAt = none ∧ m4.finishedAt = none) ∧
      (s = "playing" →
        m4.finishedAt = none ∧ m4.startedAt = some (m0.startedAt.getD now)) ∧
      (s = "finished" →
        m4.startedAt = some (m0.startedAt.getD now) ∧
        m4.finishedAt = some (m0.finishedAt.getD now)) := by
  unfold patchMatchCore at h
  split at h
  · simp at h
  · cases hleg : applyLegPatch m0 body role with
    | error e => rw [hleg] at h; simp at h
    | ok m1 =>
      rw [hleg] at h
      dsimp only at h
      cases hst : applyStatePatch m1 body now with
      | error e => rw [hst] at h; simp at h
      | ok m2 =>
        rw [hst] at h
        dsimp only at h
        split at h
        · simp at h
        · cases hsa : patchSide w m2 "A" body.sideA with
          | error e => rw [hsa] at h; simp at h
          | ok m3 =>
            rw [hsa] at h
            dsimp only at h
            cases hsb : patchSide w m3 "B" body.sideB with
            | error e => rw [hsb] at h; simp at h
            | ok m4 =>
              rw [hsb] at h
              dsimp only at h
              simp only [Except.ok.injEq] at h
              obtain ⟨hl1, hl2, hl3, hl4⟩ := applyLegPatch_preserves hleg
              have hm2 : m2 = applyStateTimestamps m1 s now := applyStatePatch_some hs hst
              obtain ⟨ha1, ha2, ha3, ha4⟩ := patchSide_preserves hsa
              obtain ⟨hb1, hb2, hb3, hb4⟩ := patchSide_preserves hsb
              refine ⟨m4, h.symm, ?_, ?_, ?_, ?_, ?_⟩
              · rw [hb1, ha1, hm2, ast_mid, hl1]
              · rw [hb2, ha2, hm2, ast_state]
              · intro hsched
                subst hsched
                have := ast_scheduled m1 now
                rw [← hm2] at this
                exact ⟨by rw [hb3, ha3, this.1], by rw [hb4, ha4, this.2]⟩
              · intro hplay
                subst hplay
                have := ast_playing m1 now
                rw [← hm2] at this
                refine ⟨by rw [hb4, ha4, this.1], ?_⟩
                rw [hb3, ha3, this.2, hl3]
              · intro hfin
                subst hfin
                have := ast_finished m1 now
                rw [← hm2] at this
                exact ⟨by rw [hb3, ha3, this.1, hl3], by rw [hb4, ha4, this.2, hl4]⟩

/-- Claim C4: an accepted `patch_match` carrying a state field transitions the
stored match with the spec's timestamp bookkeeping: to `scheduled`, both
timestamps are cleared; to `playing`, the finish timestamp is cleared and the
start timestamp is set only if it was unset; to `finished`, each timestamp is
set only if it was unset (`some (old.getD now)` is exactly
"preserved when set, set to the current clock when unset"). -/
theorem patch_match_state_timestamps
    (w : World) (matchId : Nat) (body : MatchPatchBody) (role : String) (now : Nat)
    (t0 : Tourn) (m0 : MatchRec) (resp : PatchResp) (w' : World) (s : String)
    (hfind : findMatch w matchId = some (t0, m0))
    (hok : patch_match w matchId body role now = .ok (resp, w'))
    (hstate : body.state = some s) :
    ∃ t', findTournament w' t0.tid = some t' ∧
      (∃ m' ∈ t'.tmatches, m'.mid = m0.mid) ∧
      ∀ m' ∈ t'.tmatches, m'.mid = m0.mid →
        m'.state = s ∧
        (s = "scheduled" → m'.startedAt = none ∧ m'.finishedAt = none) ∧
        (s = "playing" →
          m'.finishedAt = none ∧ m'.startedAt = some (m0.startedAt.getD now)) ∧
        (s = "finished" →
          m'.startedAt = some (m0.startedAt.getD now) ∧
          m'.finishedAt = some (m0.finishedAt.getD now)) := by
  unfold patch_match at hok
  rw [hfind] at hok
  dsimp only at hok
  cases hcore : patchMatchCore w t0 m0 body role now with
  | error e => rw [hcore] at hok; simp at hok
  | ok t1 =>
    rw [hcore] at hok
    dsimp only at hok
    split at hok
    · simp at hok
    · simp only [Except.ok.injEq, Prod.mk.injEq] at hok
      obtain ⟨m4, ht1, hmid, hstate4, hsched, hplay, hfin⟩ :=
        patchMatchCore_timestamps hstate hcore
      obtain ⟨hmem0, hmmem0, hmid0⟩ := findMatch_mem hfind
      have hw' : w' = updateTournament w
          { t1 with statusCol := computeStatusT t1 } := hok.2.symm
      have htid : ({ t1 with statusCol := computeStatusT t1 } : Tourn).tid = t0.tid := by
        rw [ht1]
        rfl
      have hftw : findTournament w' t0.tid =
          some { t1 with statusCol := computeStatusT t1 } := by
        rw [hw']
        exact findTournament_update_self htid ⟨t0, hmem0, rfl⟩
      refine ⟨{ t1 with statusCol := computeStatusT t1 }, hftw, ?_, ?_⟩
      · refine ⟨m4, ?_, hmid⟩
        show m4 ∈ t1.tmatches
        rw [ht1]
        unfold replaceMatch
        dsimp only
        refine List.mem_map.mpr ⟨m0, hmmem0, ?_⟩
        rw [if_pos hmid.symm]
      · intro m' hm' hm'mid
        have hm'' : m' ∈ t1.tmatches := hm'
        rw [ht1] at hm''
        unfold replaceMatch at hm''
        dsimp only at hm''
        obtain ⟨x, _, hx⟩ := List.mem_map.mp hm''
        by_cases hxm : x.mid = m4.mid
        · rw [if_pos hxm] at hx
          subst hx
          exact ⟨hstate4, hsched, hplay, hfin⟩
        · rw [if_neg hxm] at hx
          subst hx
          exact absurd (hm'mid.trans hmid.symm) hxm

/-- Witness for C4: patching match 1 of `draftWorld` to `playing` stamps the
start time 100 and leaves the finish time clear. -/
theorem patch_match_state_timestamps_witness :
    ∃ t', findTournament
        (updateTournament draftWorld
          { replaceMatch
              (fixTourn 1 [(1, "P"), (2, "Q"), (3, "R")]
                [fixMatch 1 0 "scheduled" 1 [1] [2], fixMatch 2 1 "scheduled" 1 [1] [3]])
              (applyStateTimestamps (fixMatch 1 0 "scheduled" 1 [1] [2]) "playing" 100)
            with statusCol := "live" }) 1 = some t' ∧
      (∃ m' ∈ t'.tmatches, m'.mid = (fixMatch 1 0 "scheduled" 1 [1] [2]).mid) ∧
      ∀ m' ∈ t'.tmatches, m'.mid = (fixMatch 1 0 "scheduled" 1 [1] [2]).mid →
        m'.state = "playing" ∧
        ("playing" = "scheduled" → m'.startedAt = none ∧ m'.finishedAt = none) ∧
        ("playing" = "playing" →
          m'.finishedAt = none ∧
          m'.startedAt = some ((fixMatch 1 0 "scheduled" 1 [1] [2]).startedAt.getD 100)) ∧
        ("playing" = "finished" →
          m'.startedAt = some ((fixMatch 1 0 "scheduled" 1 [1] [2]).startedAt.getD 100) ∧
          m'.finishedAt = some ((fixMatch 1 0 "scheduled" 1 [1] [2]).finishedAt.getD 100)) :=
  patch_match_state_timestamps draftWorld 1 { state := some "playing" } "editor" 100
    (fixTourn 1 [(1, "P"), (2, "Q"), (3, "R")]
      [fixMatch 1 0 "scheduled" 1 [1] [2], fixMatch 2 1 "scheduled" 1 [1] [3]])
    (fixMatch 1 0 "scheduled" 1 [1] [2])
    { mid := 1, state := "playing", leg := 1, tournamentStatus := "live" }
    (updateTournament draftWorld
      { replaceMatch
          (fixTourn 1 [(1, "P"), (2, "Q"), (3, "R")]
            [fixMatch 1 0 "scheduled" 1 [1] [2], fixMatch 2 1 "scheduled" 1 [1] [3]])
          (applyStateTimestamps (fixMatch 1 0 "scheduled" 1 [1] [2]) "playing" 100)
        with statusCol := "live" })
    "playing" rfl rfl rfl

/-! ## Reorder (C9, C10) -/

theorem foldl_map_comm {α β : Type} (g : β → α → α) (L : List β) (ms : List α) :
    L.foldl (fun acc p => acc.map (g p)) ms =
      ms.map (fun m => L.foldl (fun x p => g p x) m) := by
  induction L generalizing ms with
  | nil => simp
  | cons b bs ih =>
    simp only [List.foldl_cons]
    rw [ih, List.map_map]
    rfl

theorem foldl_enumFrom_point {ids : List Nat} {k0 : Nat} {m : MatchRec}
    (hnd : ids.Nodup) :
    (ids.enumFrom k0).foldl
        (fun x p => if x.mid = p.2 then { x with orderIndex := Int.ofNat p.1 } else x) m =
      if m.mid ∈ ids then { m with orderIndex := Int.ofNat (k0 + ids.indexOf m.mid) }
      else m := by
  induction ids generalizing k0 m with
  | nil => simp
  | cons i is ih =>
    have hcons : (i :: is).enumFrom k0 = (k0, i) :: is.enumFrom (k0 + 1) := rfl
    rw [hcons, List.foldl_cons]
    have hnd' : is.Nodup := (List.nodup_cons.mp hnd).2
    have hni : i ∉ is := (List.nodup_cons.mp hnd).1
    by_cases hm : m.mid = i
    · rw [if_pos hm]
      dsimp only
      rw [ih hnd']
      have hnotin : ({ m with orderIndex := Int.ofNat k0 } : MatchRec).mid ∉ is := by
        dsimp only
        rw [hm]
        exact hni
      rw [if_neg hnotin, if_pos (by rw [hm]; exact List.mem_cons_self i is)]
      rw [hm, List.indexOf_cons_self]
      simp
    · rw [if_neg hm]
      rw [ih hnd']
      by_cases hmem : m.mid ∈ is
      · rw [if_pos hmem, if_pos (List.mem_cons_of_mem i hmem)]
        rw [List.indexOf_cons_ne _ (fun hc => hm hc.symm)]
        have : k0 + 1 + List.indexOf m.mid is = k0 + (List.indexOf m.mid is).succ := by
          omega
        rw [this]
      · rw [if_neg hmem]
        have : m.mid ∉ i :: is := by
          intro hc
          rcases List.mem_cons.mp hc with h | h
          · exact hm h
          · exact hmem h
        rw [if_neg this]

theorem applyReorder_eq {ms : List MatchRec} {ids : List Nat} (hnd : ids.Nodup)
    (hcover : ∀ m ∈ ms, m.mid ∈ ids) :
    applyReorder ms ids =
      ms.map (fun m => { m with orderIndex := Int.ofNat (ids.indexOf m.mid) }) := by
  unfold applyReorder
  refine Eq.trans (foldl_map_comm (fun p x => if x.mid = p.2 then
    { x with orderIndex := Int.ofNat p.1 } else x) ids.enum ms) ?_
  apply List.map_congr_left
  intro m hm
  have h1 := @foldl_enumFrom_point ids 0 m hnd
  rw [if_pos (hcover m hm)] at h1
  simpa using h1

theorem map_indexOf_self {ids : List Nat} (hnd : ids.Nodup) :
    ids.map (fun i => ids.indexOf i) = List.range ids.length := by
  induction ids with
  | nil => simp
  | cons x xs ih =>
    have hnd' : xs.Nodup := (List.nodup_cons.mp hnd).2
    have hnx : x ∉ xs := (List.nodup_cons.mp hnd).1
    simp only [List.map_cons, List.indexOf_cons_self, List.length_cons]
    rw [List.range_succ_eq_map]
    congr 1
    have hstep : xs.map (fun i => (x :: xs).indexOf i) =
        xs.map (fun i => (xs.indexOf i).succ) := by
      apply List.map_congr_left
      intro y hy
      exact List.indexOf_cons_ne _ (fun hc => hnx (hc ▸ hy))
    rw [hstep, ← ih hnd', List.map_map]
    rfl

/-- Claim C10: an accepted reorder with a duplicate-free id list rewrites
exactly the order indices: each stored match ends with its 0-based position
in the submitted list and is otherwise unchanged (the map keeps ids, legs,
states, timestamps, sides and creates or deletes nothing), and the new order
indices are exactly 0..n-1. -/
theorem reorder_accepted_sets_positions
    (w : World) (tid : Nat) (ids : List Nat) (role : String) (t : Tourn)
    (w' : World) (r : Unit)
    (hfind : findTournament w tid = some t)
    (hnd : ids.Nodup)
    (hmids : (t.tmatches.map (fun m => m.mid)).Nodup)
    (hok : reorder w tid ids role = .ok (r, w')) :
    ∃ t', findTournament w' tid = some t' ∧
      t'.tmatches = t.tmatches.map
        (fun m => { m with orderIndex := Int.ofNat (ids.indexOf m.mid) }) ∧
      (t'.tmatches.map (fun m => m.orderIndex)).Perm
        ((List.range t.tmatches.length).map Int.ofNat) := by
  unfold reorder at hok
  rw [hfind] at hok
  dsimp only at hok
  split at hok
  · simp at hok
  · split at hok
    · simp at hok
    · split at hok
      · simp at hok
      · rename_i hcov
        split at hok
        · simp at hok
        · split at hok
          · simp at hok
          · split at hok
            · simp at hok
            · simp only [Except.ok.injEq, Prod.mk.injEq] at hok
              rw [not_not] at hcov
              have hcover : ∀ m ∈ t.tmatches, m.mid ∈ ids := by
                intro m hm
                have hmem : m.mid ∈ (sortByOrder t.tmatches).map
                    (fun m => m.mid) := by
                  apply List.mem_map.mpr
                  refine ⟨m, ?_, rfl⟩
                  exact ((List.perm_insertionSort _ t.tmatches).symm.mem_iff).mp hm
                exact hcov.2 _ hmem
              have happ := applyReorder_eq hnd hcover
              have hw' : w' = updateTournament w
                  { t with tmatches := applyReorder t.tmatches ids } := hok.2.symm
              have htmem : t ∈ w.tournaments := (findTournament_mem hfind).1
              have httid : t.tid = tid := (findTournament_mem hfind).2
              have hft : findTournament w' tid =
                  some { t with tmatches := applyReorder t.tmatches ids } := by
                rw [hw']
                exact findTournament_update_self
                  (show ({ t with tmatches := applyReorder t.tmatches ids } :
                    Tourn).tid = tid from httid) ⟨t, htmem, httid⟩
              refine ⟨{ t with tmatches := applyReorder t.tmatches ids }, hft, ?_, ?_⟩
              · dsimp only
                exact happ
              · dsimp only
                rw [happ, List.map_map]
                have hperm1 : (t.tmatches.map (fun m => m.mid)).Perm ids := by
                  rw [List.perm_ext_iff_of_nodup hmids hnd]
                  intro a
                  constructor
                  · intro ha
                    obtain ⟨m, hm, hma⟩ := List.mem_map.mp ha
                    exact hma ▸ hcover m hm
                  · intro ha
                    have := hcov.1 a ha
                    obtain ⟨m, hm, hma⟩ := List.mem_map.mp this
                    apply List.mem_map.mpr
                    refine ⟨m, ?_, hma⟩
                    exact ((List.perm_insertionSort _ t.tmatches).mem_iff).mp hm
                have hlen : ids.length = t.tmatches.length := by
                  rw [← hperm1.length_eq, List.length_map]
                have hchain : (t.tmatches.map
                    ((fun m => m.orderIndex) ∘
                      (fun m => { m with orderIndex := Int.ofNat (ids.indexOf m.mid) }))) =
                    (t.tmatches.map (fun m => m.mid)).map
                      (fun i => Int.ofNat (ids.indexOf i)) := by
                  rw [List.map_map]
                  rfl
                rw [hchain]
                have hp2 := hperm1.map (fun i => Int.ofNat (ids.indexOf i))
                refine hp2.trans ?_
                have : ids.map (fun i => Int.ofNat (ids.indexOf i)) =
                    (ids.map (fun i => ids.indexOf i)).map Int.ofNat := by
                  rw [List.map_map]
                  rfl
                rw [this, map_indexOf_self hnd, hlen]

/-- Witness for C10: reversing the two scheduled matches of `draftWorld`. -/
theorem reorder_accepted_sets_positions_witness :
    ∃ t', findTournament
        (updateTournament draftWorld
          { draftWorldT with
            tmatches := applyReorder draftWorldT.tmatches [2, 1] }) 1 = some t' ∧
      t'.tmatches = draftWorldT.tmatches.map
        (fun m => { m with orderIndex := Int.ofNat (([2, 1] : List Nat).indexOf m.mid) }) ∧
      (t'.tmatches.map (fun m => m.orderIndex)).Perm
        ((List.range draftWorldT.tmatches.length).map Int.ofNat) :=
  reorder_accepted_sets_positions draftWorld 1 [2, 1] "editor" draftWorldT
    (updateTournament draftWorld
      { draftWorldT with tmatches := applyReorder draftWorldT.tmatches [2, 1] })
    () rfl (by decide) (by decide) rfl

/-- Claim C9 (amended): the only malformed-list validation `reorder` performs
is the set comparison — an id list whose set differs from the tournament's
match-id set is rejected as a 400 before any match is modified; a
duplicate-containing list whose id set equals the match-id set is not
rejected (shown concretely on `draftWorld`). -/
theorem reorder_set_mismatch_rejected :
    (∀ (w : World) (tid : Nat) (ids : List Nat) (role : String) (t : Tourn),
      findTournament w tid = some t →
      ¬(computeStatusT t = "done" ∧ role ≠ "admin") →
      ¬(ids.isEmpty = true) →
      ¬((∀ i ∈ ids, i ∈ (sortByOrder t.tmatches).map (fun m => m.mid)) ∧
        (∀ i ∈ (sortByOrder t.tmatches).map (fun m => m.mid), i ∈ ids)) →
      reorder w tid ids role = .error (.matchIdsMismatch, w)) ∧
    reorder draftWorld 1 [1, 1, 2] "editor" = .ok ((), dupReorderWorld) := by
  constructor
  · intro w tid ids role t hfind hdone hne hmm
    unfold reorder
    rw [hfind]
    dsimp only
    rw [if_neg hdone, if_neg hne, if_pos hmm]
  · rfl

/-- Witness for C9: a list with an id unknown to the tournament is rejected
as malformed with the world unchanged. -/
theorem reorder_set_mismatch_rejected_witness :
    reorder draftWorld 1 [1, 2, 3] "editor" =
      .error (.matchIdsMismatch, draftWorld) :=
  reorder_set_mismatch_rejected.1 draftWorld 1 [1, 2, 3] "editor" draftWorldT
    rfl (by decide) (by decide) (by decide)

/-- Counterexample for C9: the duplicate-carrying list `[1, 1, 2]` has the
same id set as `draftWorld`'s matches `{1, 2}`, yet the reorder is accepted
(no ValidationError), and it does modify the stored matches: the resulting
order indices are 1 and 2. -/
theorem reorder_duplicate_accepted_cex :
    ¬([1, 1, 2] : List Nat).Nodup ∧
      (∀ i ∈ ([1, 1, 2] : List Nat), i ∈ draftWorldT.tmatches.map (fun m => m.mid)) ∧
      (∀ i ∈ draftWorldT.tmatches.map (fun m => m.mid), i ∈ ([1, 1, 2] : List Nat)) ∧
      reorder draftWorld 1 [1, 1, 2] "editor" = .ok ((), dupReorderWorld) ∧
      ((dupReorderWorld.tournaments.headD draftWorldT).tmatches.map
        (fun m => m.orderIndex)) = [1, 2] := by
  refine ⟨by decide, by decide, by decide, rfl, by decide⟩

/-! ## Second-leg toggling (C7, C8) -/

theorem leg2Started_nonempty {t : Tourn} (h : leg2Started t = true) :
    (t.tmatches.filter (fun m => m.leg == 2)).length > 0 := by
  unfold leg2Started at h
  obtain ⟨m, hm, _⟩ := List.any_eq_true.mp h
  cases hfl : t.tmatches.filter (fun m => m.leg == 2) with
  | nil => rw [hfl] at hm; simp at hm
  | cons a l => simp [hfl]

/-- Claim C8 (amended): disabling the second leg while leg 2 is started is
rejected with a 403 for every caller — the admin role included — and the
error carries the stored world unchanged.  The endpoint reads no override
capability at all. -/
theorem second_leg_disable_started_rejected
    (w : World) (tid : Nat) (t : Tourn) (role : String)
    (hfind : findTournament w tid = some t)
    (hstarted : leg2Started t = true) :
    second_leg w tid false role = .error (.secondLegStarted, w) := by
  unfold second_leg
  rw [hfind]
  dsimp only
  rw [if_pos rfl, if_neg (not_not_intro (leg2Started_nonempty hstarted)), hstarted]
  rfl

/-- Witness for C8 at `startedLeg2World` with the privileged role. -/
theorem second_leg_disable_started_rejected_witness :
    second_leg startedLeg2World 1 false "admin" =
      .error (.secondLegStarted, startedLeg2World) :=
  second_leg_disable_started_rejected startedLeg2World 1
    (fixTourn 1 [(1, "P"), (2, "Q")]
      [fixMatch 1 0 "finished" 1 [1] [2], fixMatch 2 1 "playing" 2 [1] [2]])
    "admin" rfl (by decide)

/-- Counterexample for C8: on a started leg 2, even the most privileged
caller the system knows (role "admin") gets a 403 and the leg-2 matches stay
stored — there is no override that bulk-deletes them. -/
theorem second_leg_disable_override_cex :
    leg2Started (fixTourn 1 [(1, "P"), (2, "Q")]
      [fixMatch 1 0 "finished" 1 [1] [2], fixMatch 2 1 "playing" 2 [1] [2]]) = true ∧
      second_leg startedLeg2World 1 false "admin" =
        .error (.secondLegStarted, startedLeg2World) ∧
      ((startedLeg2World.tournaments.headD draftWorldT).tmatches.filter
        (fun m => m.leg == 2)).length = 1 := by
  refine ⟨by decide, rfl, by decide⟩

theorem updateTournament_tmatches_eq {w : World} {t t2 : Tourn}
    (hmem : t ∈ w.tournaments) (htid : t2.tid = t.tid)
    (hnodup : (w.tournaments.map (fun u => u.tid)).Nodup)
    (hsame : t2.tmatches = t.tmatches) :
    (updateTournament w t2).tournaments.map (fun u => u.tmatches) =
      w.tournaments.map (fun u => u.tmatches) := by
  unfold updateTournament
  dsimp only
  rw [List.map_map]
  apply List.map_congr_left
  intro u hu
  show (if u.tid = t2.tid then t2 else u).tmatches = u.tmatches
  by_cases hut : u.tid = t2.tid
  · rw [if_pos hut, hsame,
      List.inj_on_of_nodup_map hnodup hu hmem (hut.trans htid)]
  · rw [if_neg hut]

/-- Claim C7 (amended): with leg-2 matches present and leg 2 not started,
enabling the second leg is a no-op exactly when leg 2's signature list has
the same length as leg 1's and the two signature *sets* are equal (the code
compares sets, not multisets); otherwise it is rejected with a 409 Conflict
and the stored world is unchanged.  In the no-op case only the tournament's
cached status column is rewritten — every stored match list is untouched. -/
theorem second_leg_enable_existing
    (w : World) (tid : Nat) (t : Tourn) (role : String)
    (hfind : findTournament w tid = some t)
    (hnodup : (w.tournaments.map (fun u => u.tid)).Nodup)
    (hexists : (t.tmatches.filter (fun m => m.leg == 2)).length > 0)
    (hnotstarted : leg2Started t = false) :
    (((legSigs t 2).length = (legSigs t 1).length ∧
        sigSetEq (legSigs t 2) (legSigs t 1)) →
      second_leg w tid true role =
        .ok ({ secondLeg := true, created := some 0,
               status := some (computeStatusT t) },
             updateTournament w { t with statusCol := computeStatusT t }) ∧
      (updateTournament w
        { t with statusCol := computeStatusT t }).tournaments.map
          (fun u => u.tmatches) = w.tournaments.map (fun u => u.tmatches)) ∧
    (¬((legSigs t 2).length = (legSigs t 1).length ∧
        sigSetEq (legSigs t 2) (legSigs t 1)) →
      second_leg w tid true role = .error (.secondLegIncomplete, w)) := by
  have hmem := (findTournament_mem hfind).1
  have hred : second_leg w tid true role =
      (if ((legSigs t 2).length = (legSigs t 1).length ∧
        sigSetEq (legSigs t 2) (legSigs t 1)) then
        .ok ({ secondLeg := true, created := some 0,
               status := some (computeStatusT t) },
             updateTournament w { t with statusCol := computeStatusT t })
      else .error (.secondLegIncomplete, w)) := by
    unfold second_leg
    rw [hfind]
    dsimp only
    rw [if_neg (by decide : ¬(true = false)), hnotstarted,
      if_neg (not_not_intro hexists)]
    rfl
  constructor
  · intro hcomp
    rw [hred, if_pos hcomp]
    exact ⟨rfl, updateTournament_tmatches_eq hmem rfl hnodup rfl⟩
  · intro hcomp
    rw [hred, if_neg hcomp]

/-- Witness for C7: a tournament whose leg 2 mirrors leg 1 (signature sets
and counts equal) gets the no-op; with a leg-2 match removed the signature
counts differ and the request is rejected. -/
theorem second_leg_enable_existing_witness :
    (second_leg
        { tournaments :=
            [fixTourn 1 [(1, "P"), (2, "Q")]
              [fixMatch 1 0 "finished" 1 [1] [2], fixMatch 2 1 "scheduled" 2 [1] [2]]],
          clubs := [], nextId := 10 } 1 true "editor" =
      .ok ({ secondLeg := true, created := some 0, status := some "live" },
        updateTournament
          { tournaments :=
              [fixTourn 1 [(1, "P"), (2, "Q")]
                [fixMatch 1 0 "finished" 1 [1] [2], fixMatch 2 1 "scheduled" 2 [1] [2]]],
            clubs := [], nextId := 10 }
          { fixTourn 1 [(1, "P"), (2, "Q")]
              [fixMatch 1 0 "finished" 1 [1] [2], fixMatch 2 1 "scheduled" 2 [1] [2]]
            with statusCol := "live" })) := by
  have h := (second_leg_enable_existing
    { tournaments :=
        [fixTourn 1 [(1, "P"), (2, "Q")]
          [fixMatch 1 0 "finished" 1 [1] [2], fixMatch 2 1 "scheduled" 2 [1] [2]]],
      clubs := [], nextId := 10 } 1
    (fixTourn 1 [(1, "P"), (2, "Q")]
      [fixMatch 1 0 "finished" 1 [1] [2], fixMatch 2 1 "scheduled" 2 [1] [2]])
    "editor" rfl (by decide) (by decide) (by decide)).1 (by decide)
  exact h.1

/-- Counterexample for C7: in `legMismatchWorld` the leg-1 and leg-2
signature multisets differ (one has signature X twice and Y once, the other
X once and Y twice), yet enabling the second leg is accepted as a no-op
instead of being rejected with a Conflict. -/
theorem second_leg_multiset_cex :
    ¬((legSigs legMismatchT 2).Perm (legSigs legMismatchT 1)) ∧
      second_leg legMismatchWorld 1 true "editor" =
        .ok ({ secondLeg := true, created := some 0, status := some "draft" },
          updateTournament legMismatchWorld
            { legMismatchT with statusCol := "draft" }) := by
  exact ⟨by decide, rfl⟩

/-! ## Creation-loop and world bookkeeping lemmas (towards C6) -/

theorem updateTournament_nextId (w : World) (t2 : Tourn) :
    (updateTournament w t2).nextId = w.nextId := rfl

theorem updateTournament_map_tid (w : World) (t2 : Tourn) :
    (updateTournament w t2).tournaments.map (fun u => u.tid) =
      w.tournaments.map (fun u => u.tid) := by
  unfold updateTournament
  dsimp only
  rw [List.map_map]
  apply List.map_congr_left
  intro u _
  show (if u.tid = t2.tid then t2 else u).tid = u.tid
  by_cases h : u.tid = t2.tid
  · rw [if_pos h]
    exact h.symm
  · rw [if_neg h]

theorem findTournament_appendMatchTo_self (w : World) (tid : Nat) (m : MatchRec) :
    findTournament (appendMatchTo w tid m) tid =
      (findTournament w tid).map (fun t => { t with tmatches := t.tmatches ++ [m] }) := by
  unfold findTournament appendMatchTo
  dsimp only
  induction w.tournaments with
  | nil => simp
  | cons v vs ih =>
    simp only [List.map_cons, List.find?_cons]
    by_cases hv : v.tid = tid
    · have hb : (v.tid == tid) = true := by simpa using hv
      rw [if_pos hv, hb]
      rfl
    · have hb : (v.tid == tid) = false := by simpa using hv
      rw [if_neg hv, hb]
      exact ih

theorem findTournament_appendMatchTo_ne (w : World) (tid tid' : Nat) (m : MatchRec)
    (h : tid' ≠ tid) :
    findTournament (appendMatchTo w tid m) tid' = findTournament w tid' := by
  unfold findTournament appendMatchTo
  dsimp only
  induction w.tournaments with
  | nil => simp
  | cons v vs ih =>
    simp only [List.map_cons, List.find?_cons]
    by_cases hv : v.tid = tid
    · have hb : (v.tid == tid') = false := by
        simp only [beq_eq_false_iff_ne, ne_eq]
        intro hc
        exact h (hv.symm.trans hc).symm
      rw [if_pos hv, hb]
      exact ih
    · rw [if_neg hv]
      cases hq : (v.tid == tid') with
      | true => rfl
      | false => exact ih

theorem createMatchWithTeams_find_self (w : World) (tid : Nat) (idx : Int) (lg : Int)
    (ta tb : List Nat) {t : Tourn} (hfind : findTournament w tid = some t) :
    findTournament (createMatchWithTeams w tid idx lg ta tb) tid =
      some { t with tmatches := t.tmatches ++
        [{ mid := w.nextId, leg := lg, orderIndex := idx, state := "scheduled",
           startedAt := none, finishedAt := none,
           sides := [{ sideLabel := "A", goals := 0, clubId := none, players := ta },
                     { sideLabel := "B", goals := 0, clubId := none, players := tb }] }] } := by
  show findTournament (appendMatchTo w tid _) tid = _
  rw [findTournament_appendMatchTo_self, hfind]
  rfl

theorem createMatchWithTeams_find_ne (w : World) (tid tid' : Nat) (idx : Int) (lg : Int)
    (ta tb : List Nat) (h : tid' ≠ tid) :
    findTournament (createMatchWithTeams w tid idx lg ta tb) tid' =
      findTournament w tid' :=
  findTournament_appendMatchTo_ne w tid tid' _ h

theorem createMatchesLoop_spec (tid : Nat) (lg : Int) :
    ∀ (sigs : List (List Nat × List Nat)) (w : World) (idx : Int) (t : Tourn),
      findTournament w tid = some t →
      findTournament (createMatchesLoop tid lg w idx sigs) tid =
          some { t with tmatches := t.tmatches ++ newMatchesFrom w.nextId idx lg sigs } ∧
        (createMatchesLoop tid lg w idx sigs).nextId = w.nextId + sigs.length ∧
        (∀ tid', tid' ≠ tid →
          findTournament (createMatchesLoop tid lg w idx sigs) tid' =
            findTournament w tid')
  | [], w, idx, t, hfind => by
    refine ⟨?_, rfl, fun tid' _ => rfl⟩
    unfold createMatchesLoop newMatchesFrom
    rw [hfind]
    simp
  | sig :: rest, w, idx, t, hfind => by
    have hstep := createMatchWithTeams_find_self w tid idx lg sig.1 sig.2 hfind
    have hnext : (createMatchWithTeams w tid idx lg sig.1 sig.2).nextId =
        w.nextId + 1 := rfl
    obtain ⟨h1, h2, h3⟩ := createMatchesLoop_spec tid lg rest
      (createMatchWithTeams w tid idx lg sig.1 sig.2) (idx + 1) _ hstep
    refine ⟨?_, ?_, ?_⟩
    · show findTournament
        (createMatchesLoop tid lg (createMatchWithTeams w tid idx lg sig.1 sig.2)
          (idx + 1) rest) tid = _
      rw [h1]
      congr 1
      rw [hnext]
      show ({ t with tmatches := (t.tmatches ++ [_]) ++
        newMatchesFrom (w.nextId + 1) (idx + 1) lg rest } : Tourn) = _
      rw [List.append_assoc]
      rfl
    · show (createMatchesLoop tid lg (createMatchWithTeams w tid idx lg sig.1 sig.2)
        (idx + 1) rest).nextId = _
      rw [h2, hnext]
      simp only [List.length_cons]
      omega
    · intro tid' hne
      show findTournament
        (createMatchesLoop tid lg (createMatchWithTeams w tid idx lg sig.1 sig.2)
          (idx + 1) rest) tid' = _
      rw [h3 tid' hne, createMatchWithTeams_find_ne w tid tid' idx lg sig.1 sig.2 hne]

theorem newMatchesFrom_length (sid : Nat) (idx : Int) (lg : Int)
    (sigs : List (List Nat × List Nat)) :
    (newMatchesFrom sid idx lg sigs).length = sigs.length := by
  induction sigs generalizing sid idx with
  | nil => rfl
  | cons s rest ih => simp [newMatchesFrom, ih]

theorem newMatchesFrom_orderIndexes (sid : Nat) (idx : Int) (lg : Int)
    (sigs : List (List Nat × List Nat)) :
    (newMatchesFrom sid idx lg sigs).map (fun m => m.orderIndex) =
      (List.range sigs.length).map (fun k => idx + Int.ofNat k) := by
  induction sigs generalizing sid idx with
  | nil => rfl
  | cons s rest ih =>
    simp only [newMatchesFrom, List.map_cons, List.length_cons,
      List.range_succ_eq_map, ih]
    congr 1
    · show idx = idx + (0 : Int)
      omega
    · rw [List.map_map]
      apply List.map_congr_left
      intro k _
      show idx + 1 + Int.ofNat k = idx + (Int.ofNat k + 1)
      omega

theorem newMatchesFrom_rows (sid : Nat) (idx : Int) (lg : Int)
    (sigs : List (List Nat × List Nat)) :
    ∀ m ∈ newMatchesFrom sid idx lg sigs,
      m.state = "scheduled" ∧ m.leg = lg ∧ sid ≤ m.mid ∧
        m.sides.map (fun s => (s.sideLabel, s.goals, s.clubId)) =
          [("A", 0, none), ("B", 0, none)] := by
  induction sigs generalizing sid idx with
  | nil => intro m hm; simp [newMatchesFrom] at hm
  | cons s rest ih =>
    intro m hm
    rcases List.mem_cons.mp hm with h | h
    · subst h
      exact ⟨rfl, rfl, le_refl _, rfl⟩
    · obtain ⟨h1, h2, h3, h4⟩ := ih (sid + 1) (idx + 1) m h
      exact ⟨h1, h2, by omega, h4⟩

theorem newMatchesFrom_rosters (sid : Nat) (idx : Int) (lg : Int)
    (sigs : List (List Nat × List Nat)) :
    (newMatchesFrom sid idx lg sigs).map (fun m => m.sides.map (fun s => s.players)) =
      sigs.map (fun s => [s.1, s.2]) := by
  induction sigs generalizing sid idx with
  | nil => rfl
  | cons s rest ih => simp [newMatchesFrom, ih]

theorem bulkDeleteMatches_none (t : Tourn) :
    bulkDeleteMatches t none = { t with tmatches := [] } := by
  unfold bulkDeleteMatches
  congr 1
  induction t.tmatches with
  | nil => rfl
  | cons m ms ih => simpa using ih

/-! ## Atomicity of schedule replacement (C6): per-operation lemmas -/

theorem generate_schedule_error_preserves
    (w : World) (tid : Nat) (role : String) (rnd : Bool)
    (ns : List String → List String)
    (ms : List (List String × List String) → List (List String × List String))
    (e : Err) (w' : World)
    (hnodup : (w.tournaments.map (fun u => u.tid)).Nodup)
    (h : generate_schedule w tid role rnd ns ms = .error (e, w')) :
    w'.tournaments.map (fun u => u.tid) = w.tournaments.map (fun u => u.tid) ∧
      w'.tournaments.map (fun u => u.tmatches) =
        w.tournaments.map (fun u => u.tmatches) := by
  unfold generate_schedule at h
  cases hfind : findTournament w tid with
  | none =>
    rw [hfind] at h
    simp only [Except.error.injEq, Prod.mk.injEq] at h
    rw [← h.2]
    exact ⟨rfl, rfl⟩
  | some t =>
    rw [hfind] at h
    dsimp only at h
    have hmem := (findTournament_mem hfind).1
    have htid := (findTournament_mem hfind).2
    split at h
    · simp only [Except.error.injEq, Prod.mk.injEq] at h
      rw [← h.2]
      exact ⟨rfl, rfl⟩
    · split at h
      · simp only [Except.error.injEq, Prod.mk.injEq] at h
        rw [← h.2]
        exact ⟨rfl, rfl⟩
      · split at h
        · simp only [Except.error.injEq, Prod.mk.injEq] at h
          rw [← h.2]
          exact ⟨rfl, rfl⟩
        · split at h
          · simp only [Except.error.injEq, Prod.mk.injEq] at h
            rw [← h.2]
            exact ⟨updateTournament_map_tid w _,
              updateTournament_tmatches_eq hmem rfl hnodup rfl⟩
          · split at h
            · rename_i lm0 _ hnone
              exfalso
              have ht1 : findTournament (updateTournament w
                  { t with settingsLabels :=
                    (assign_labels (t.players.map (fun p => p.2)) rnd ns).2 }) tid =
                  some { t with settingsLabels :=
                    (assign_labels (t.players.map (fun p => p.2)) rnd ns).2 } :=
                findTournament_update_self htid ⟨t, hmem, htid⟩
              have hmem1 := (findTournament_mem ht1).1
              have ht2 : findTournament (updateTournament
                  (updateTournament w
                    { t with settingsLabels :=
                      (assign_labels (t.players.map (fun p => p.2)) rnd ns).2 })
                  (bulkDeleteMatches
                    { t with settingsLabels :=
                      (assign_labels (t.players.map (fun p => p.2)) rnd ns).2 } none)) tid =
                  some (bulkDeleteMatches
                    { t with settingsLabels :=
                      (assign_labels (t.players.map (fun p => p.2)) rnd ns).2 } none) :=
                findTournament_update_self htid ⟨_, hmem1, htid⟩
              unfold insertGenerated at hnone
              rw [(createMatchesLoop_spec tid 1 _ _ 0 _ ht2).1] at hnone
              exact Option.noConfusion hnone
            · simp at h

theorem generate_schedule_ok_replaces
    (w : World) (tid : Nat) (role : String) (rnd : Bool)
    (ns : List String → List String)
    (ms : List (List String × List String) → List (List String × List String))
    (resp : GenResp) (w' : World) (t : Tourn)
    (hfind : findTournament w tid = some t)
    (h : generate_schedule w tid role rnd ns ms = .ok (resp, w')) :
    ∃ t', findTournament w' tid = some t' ∧
      t'.tmatches.map (fun m => m.orderIndex) =
        (List.range t'.tmatches.length).map Int.ofNat ∧
      (∀ m' ∈ t'.tmatches, m'.state = "scheduled" ∧ w.nextId ≤ m'.mid) ∧
      t'.tmatches.length = resp.matchesCreated ∧
      (∀ tid', tid' ≠ tid → findTournament w' tid' = findTournament w tid') := by
  unfold generate_schedule at h
  rw [hfind] at h
  dsimp only at h
  have hmem := (findTournament_mem hfind).1
  have htid := (findTournament_mem hfind).2
  split at h
  · simp at h
  · split at h
    · simp at h
    · split at h
      · simp at h
      · split at h
        · simp at h
        · rename_i lm0 heqlm
          have ht1 : findTournament (updateTournament w
              { t with settingsLabels :=
                (assign_labels (t.players.map (fun p => p.2)) rnd ns).2 }) tid =
              some { t with settingsLabels :=
                (assign_labels (t.players.map (fun p => p.2)) rnd ns).2 } :=
            findTournament_update_self htid ⟨t, hmem, htid⟩
          have hmem1 := (findTournament_mem ht1).1
          have ht2 : findTournament (updateTournament
              (updateTournament w
                { t with settingsLabels :=
                  (assign_labels (t.players.map (fun p => p.2)) rnd ns).2 })
              (bulkDeleteMatches
                { t with settingsLabels :=
                  (assign_labels (t.players.map (fun p => p.2)) rnd ns).2 } none)) tid =
              some (bulkDeleteMatches
                { t with settingsLabels :=
                  (assign_labels (t.players.map (fun p => p.2)) rnd ns).2 } none) :=
            findTournament_update_self htid ⟨_, hmem1, htid⟩
          obtain ⟨hloop1, hloop2, hloop3⟩ := createMatchesLoop_spec tid 1
            ((if rnd then ms lm0 else lm0).map
              (fun tm =>
                (labelTeamToPlayerIds t.players
                  (assign_labels (t.players.map (fun p => p.2)) rnd ns).2 tm.1,
                 labelTeamToPlayerIds t.players
                  (assign_labels (t.players.map (fun p => p.2)) rnd ns).2 tm.2)))
            (updateTournament
              (updateTournament w
                { t with settingsLabels :=
                  (assign_labels (t.players.map (fun p => p.2)) rnd ns).2 })
              (bulkDeleteMatches
                { t with settingsLabels :=
                  (assign_labels (t.players.map (fun p => p.2)) rnd ns).2 } none)) 0
            (bulkDeleteMatches
              { t with settingsLabels :=
                (assign_labels (t.players.map (fun p => p.2)) rnd ns).2 } none) ht2
          split at h
          · simp at h
          · rename_i tNew heq3
            unfold insertGenerated at heq3
            rw [hloop1] at heq3
            simp only [Option.some.injEq] at heq3
            simp only [Except.ok.injEq, Prod.mk.injEq] at h
            obtain ⟨hresp, hw'⟩ := h
            have hdel : (bulkDeleteMatches
                { t with settingsLabels :=
                  (assign_labels (t.players.map (fun p => p.2)) rnd ns).2 } none).tmatches =
                [] := by
              rw [bulkDeleteMatches_none]
            have hmemW3 := (findTournament_mem hloop1).1
            rw [heq3] at hmemW3
            have htNtid : tNew.tid = tid := by
              rw [← heq3]
              exact htid
            have hB : ∀ tid', tid' ≠ tid → tNew.tid ≠ tid' := by
              intro tid' hne hc
              rw [htNtid] at hc
              exact hne hc.symm
            refine ⟨{ tNew with statusCol := computeStatusT tNew }, ?_, ?_, ?_, ?_, ?_⟩
            · rw [← hw']
              exact findTournament_update_self htNtid ⟨tNew, hmemW3, htNtid⟩
            · show tNew.tmatches.map (fun m => m.orderIndex) =
                (List.range tNew.tmatches.length).map Int.ofNat
              rw [← heq3]
              dsimp only
              rw [hdel, List.nil_append, newMatchesFrom_orderIndexes, newMatchesFrom_length]
              apply List.map_congr_left
              intro k _
              show (0 : Int) + Int.ofNat k = Int.ofNat k
              omega
            · intro m' hm'
              have hm2 : m' ∈ tNew.tmatches := hm'
              rw [← heq3] at hm2
              dsimp only at hm2
              rw [hdel, List.nil_append] at hm2
              obtain ⟨h1, _, h3, _⟩ := newMatchesFrom_rows _ 0 1 _ m' hm2
              exact ⟨h1, h3⟩
            · show tNew.tmatches.length = resp.matchesCreated
              rw [← heq3]
              dsimp only
              rw [hdel, List.nil_append, newMatchesFrom_length, ← hresp]
              exact List.length_map _ _
            · intro tid' hne
              rw [← hw']
              have hA : t.tid ≠ tid' := by
                rw [htid]
                exact fun hc => hne hc.symm
              have hB2 : ({ tNew with statusCol := computeStatusT tNew } : Tourn).tid ≠
                  tid' := hB tid' hne
              have hC : (bulkDeleteMatches
                  { t with settingsLabels :=
                    (assign_labels (t.players.map (fun p => p.2)) rnd ns).2 } none).tid ≠
                  tid' := hA
              have hD : ({ t with settingsLabels :=
                  (assign_labels (t.players.map (fun p => p.2)) rnd ns).2 } : Tourn).tid ≠
                  tid' := hA
              rw [findTournament_update_ne hB2]
              unfold insertGenerated
              rw [hloop3 tid' hne, findTournament_update_ne hC,
                findTournament_update_ne hD]

theorem second_leg_error_preserves
    (w : World) (tid : Nat) (enabled : Bool) (role : String) (e : Err) (w' : World)
    (h : second_leg w tid enabled role = .error (e, w')) : w' = w := by
  unfold second_leg at h
  cases hfind : findTournament w tid with
  | none =>
    rw [hfind] at h
    simp only [Except.error.injEq, Prod.mk.injEq] at h
    exact h.2.symm
  | some t =>
    rw [hfind] at h
    dsimp only at h
    split at h
    · split at h
      · simp at h
      · split at h
        · simp only [Except.error.injEq, Prod.mk.injEq] at h
          exact h.2.symm
        · simp at h
    · split at h
      · simp only [Except.error.injEq, Prod.mk.injEq] at h
        exact h.2.symm
      · split at h
        · split at h
          · simp only [Except.error.injEq, Prod.mk.injEq] at h
            exact h.2.symm
          · split at h
            · rename_i hnone
              exfalso
              rw [(createMatchesLoop_spec tid 2 (legSigs t 1) w
                (maxOrderIndex t + 1) t hfind).1] at hnone
              exact Option.noConfusion hnone
            · simp at h
        · split at h
          · simp at h
          · simp only [Except.error.injEq, Prod.mk.injEq] at h
            exact h.2.symm

theorem second_leg_enable_appends
    (w : World) (tid : Nat) (role : String) (t : Tourn) (resp : SecondLegResp)
    (w' : World)
    (hfind : findTournament w tid = some t)
    (habsent : t.tmatches.filter (fun m => m.leg == 2) = [])
    (h : second_leg w tid true role = .ok (resp, w')) :
    ∃ t', findTournament w' tid = some t' ∧
      t'.tmatches = t.tmatches ++
        newMatchesFrom w.nextId (maxOrderIndex t + 1) 2 (legSigs t 1) ∧
      (∀ tid', tid' ≠ tid → findTournament w' tid' = findTournament w tid') := by
  unfold second_leg at h
  rw [hfind] at h
  dsimp only at h
  have hmem := (findTournament_mem hfind).1
  have htid := (findTournament_mem hfind).2
  rw [if_neg (by decide : ¬(true = false))] at h
  have hstart : leg2Started t = false := by
    unfold leg2Started
    rw [habsent]
    rfl
  rw [hstart] at h
  rw [if_neg (by decide : ¬(false = true))] at h
  rw [if_pos (by rw [habsent]; simp)] at h
  obtain ⟨hloop1, hloop2, hloop3⟩ :=
    createMatchesLoop_spec tid 2 (legSigs t 1) w (maxOrderIndex t + 1) t hfind
  split at h
  · simp at h
  · split at h
    · simp at h
    · rename_i tNew heq3
      rw [hloop1] at heq3
      simp only [Option.some.injEq] at heq3
      simp only [Except.ok.injEq, Prod.mk.injEq] at h
      obtain ⟨_, hw'⟩ := h
      have hmemW1 := (findTournament_mem hloop1).1
      rw [heq3] at hmemW1
      have htNtid : tNew.tid = tid := by
        rw [← heq3]
        exact htid
      refine ⟨{ tNew with statusCol := computeStatusT tNew }, ?_, ?_, ?_⟩
      · rw [← hw']
        exact findTournament_update_self htNtid ⟨tNew, hmemW1, htNtid⟩
      · show tNew.tmatches = _
        rw [← heq3]
      · intro tid' hne
        rw [← hw']
        have hB2 : ({ tNew with statusCol := computeStatusT tNew } : Tourn).tid ≠
            tid' := by
          show tNew.tid ≠ tid'
          rw [htNtid]
          exact fun hc => hne hc.symm
        rw [findTournament_update_ne hB2, hloop3 tid' hne]

theorem second_leg_disable_deletes
    (w : World) (tid : Nat) (role : String) (t : Tourn) (resp : SecondLegResp)
    (w' : World)
    (hfind : findTournament w tid = some t)
    (hexists : (t.tmatches.filter (fun m => m.leg == 2)).length > 0)
    (h : second_leg w tid false role = .ok (resp, w')) :
    ∃ t', findTournament w' tid = some t' ∧
      t'.tmatches = t.tmatches.filter (fun m => decide (m.leg ≠ 2)) ∧
      (∀ tid', tid' ≠ tid → findTournament w' tid' = findTournament w tid') := by
  unfold second_leg at h
  rw [hfind] at h
  dsimp only at h
  have hmem := (findTournament_mem hfind).1
  have htid := (findTournament_mem hfind).2
  rw [if_pos rfl, if_neg (not_not_intro hexists)] at h
  split at h
  · simp at h
  · simp only [Except.ok.injEq, Prod.mk.injEq] at h
    obtain ⟨_, hw'⟩ := h
    have htB : (bulkDeleteMatches t (some 2)).tid = tid := htid
    have hB2 : ({ bulkDeleteMatches t (some 2) with
        statusCol := computeStatusT (bulkDeleteMatches t (some 2)) } : Tourn).tid =
        tid := htid
    refine ⟨{ bulkDeleteMatches t (some 2) with
      statusCol := computeStatusT (bulkDeleteMatches t (some 2)) }, ?_, rfl, ?_⟩
    · rw [← hw']
      exact findTournament_update_self hB2 ⟨t, hmem, htid⟩
    · intro tid' hne
      rw [← hw']
      have hB3 : ({ bulkDeleteMatches t (some 2) with
          statusCol := computeStatusT (bulkDeleteMatches t (some 2)) } : Tourn).tid ≠
          tid' := by
        rw [hB2]
        exact fun hc => hne hc.symm
      rw [findTournament_update_ne hB3]

theorem reassign_2v2_error_preserves
    (w : World) (tid : Nat) (role : String) (rnd : Bool)
    (ns : List String → List String)
    (mshuf : List (Match2v2 String) → List (Match2v2 String))
    (e : Err) (w' : World)
    (hnodup : (w.tournaments.map (fun u => u.tid)).Nodup)
    (h : reassign_2v2 w tid role rnd ns mshuf = .error (e, w')) :
    w'.tournaments.map (fun u => u.tid) = w.tournaments.map (fun u => u.tid) ∧
      w'.tournaments.map (fun u => u.tmatches) =
        w.tournaments.map (fun u => u.tmatches) := by
  unfold reassign_2v2 at h
  cases hfind : findTournament w tid with
  | none =>
    rw [hfind] at h
    simp only [Except.error.injEq, Prod.mk.injEq] at h
    rw [← h.2]
    exact ⟨rfl, rfl⟩
  | some t =>
    rw [hfind] at h
    dsimp only at h
    have hmem := (findTournament_mem hfind).1
    have htid := (findTournament_mem hfind).2
    split at h
    · simp only [Except.error.injEq, Prod.mk.injEq] at h
      rw [← h.2]
      exact ⟨rfl, rfl⟩
    · split at h
      · simp only [Except.error.injEq, Prod.mk.injEq] at h
        rw [← h.2]
        exact ⟨rfl, rfl⟩
      · split at h
        · simp only [Except.error.injEq, Prod.mk.injEq] at h
          rw [← h.2]
          exact ⟨rfl, rfl⟩
        · split at h
          · simp only [Except.error.injEq, Prod.mk.injEq] at h
            rw [← h.2]
            exact ⟨rfl, rfl⟩
          · split at h
            · simp only [Except.error.injEq, Prod.mk.injEq] at h
              rw [← h.2]
              exact ⟨updateTournament_map_tid w _,
                updateTournament_tmatches_eq hmem rfl hnodup rfl⟩
            · rename_i lm0 heqlm
              have ht1 : findTournament (updateTournament w
                  { t with settingsLabels :=
                    (assign_labels (t.players.map (fun p => p.2)) true ns).2 }) tid =
                  some { t with settingsLabels :=
                    (assign_labels (t.players.map (fun p => p.2)) true ns).2 } :=
                findTournament_update_self htid ⟨t, hmem, htid⟩
              have hmem1 := (findTournament_mem ht1).1
              have ht2 : findTournament (updateTournament
                  (updateTournament w
                    { t with settingsLabels :=
                      (assign_labels (t.players.map (fun p => p.2)) true ns).2 })
                  (bulkDeleteMatches
                    { t with settingsLabels :=
                      (assign_labels (t.players.map (fun p => p.2)) true ns).2 } none))
                  tid =
                  some (bulkDeleteMatches
                    { t with settingsLabels :=
                      (assign_labels (t.players.map (fun p => p.2)) true ns).2 } none) :=
                findTournament_update_self htid ⟨_, hmem1, htid⟩
              split at h
              · rename_i hnone
                exfalso
                by_cases hL2 :
                    ((sortByOrder t.tmatches).any (fun m => m.leg == 2)) = true
                · rw [if_pos hL2] at hnone
                  rw [(createMatchesLoop_spec tid 2 _ _ _ _
                    ((createMatchesLoop_spec tid 1 _ _ 0 _ ht2).1)).1] at hnone
                  exact Option.noConfusion hnone
                · rw [if_neg hL2] at hnone
                  rw [(createMatchesLoop_spec tid 1 _ _ 0 _ ht2).1] at hnone
                  exact Option.noConfusion hnone
              · simp at h

theorem reassign_2v2_ok_replaces
    (w : World) (tid : Nat) (role : String) (rnd : Bool)
    (ns : List String → List String)
    (mshuf : List (Match2v2 String) → List (Match2v2 String))
    (resp : ReassignResp) (w' : World) (t : Tourn)
    (hfind : findTournament w tid = some t)
    (h : reassign_2v2 w tid role rnd ns mshuf = .ok (resp, w')) :
    ∃ t', findTournament w' tid = some t' ∧
      t'.tmatches.map (fun m => m.orderIndex) =
        (List.range t'.tmatches.length).map Int.ofNat ∧
      (∀ m' ∈ t'.tmatches, m'.state = "scheduled" ∧ w.nextId ≤ m'.mid) ∧
      t'.tmatches.length =
        (if resp.secondLeg then 2 * resp.matchesCreated else resp.matchesCreated) ∧
      (∀ tid', tid' ≠ tid → findTournament w' tid' = findTournament w tid') := by
  unfold reassign_2v2 at h
  rw [hfind] at h
  dsimp only at h
  have hmem := (findTournament_mem hfind).1
  have htid := (findTournament_mem hfind).2
  split at h
  · simp at h
  · split at h
    · simp at h
    · split at h
      · simp at h
      · split at h
        · simp at h
        · split at h
          · simp at h
          · rename_i lm0 heqlm
            have ht1 : findTournament (updateTournament w
                { t with settingsLabels :=
                  (assign_labels (t.players.map (fun p => p.2)) true ns).2 }) tid =
                some { t with settingsLabels :=
                  (assign_labels (t.players.map (fun p => p.2)) true ns).2 } :=
              findTournament_update_self htid ⟨t, hmem, htid⟩
            have hmem1 := (findTournament_mem ht1).1
            have ht2 : findTournament (updateTournament
                (updateTournament w
                  { t with settingsLabels :=
                    (assign_labels (t.players.map (fun p => p.2)) true ns).2 })
                (bulkDeleteMatches
                  { t with settingsLabels :=
                    (assign_labels (t.players.map (fun p => p.2)) true ns).2 } none))
                tid =
                some (bulkDeleteMatches
                  { t with settingsLabels :=
                    (assign_labels (t.players.map (fun p => p.2)) true ns).2 } none) :=
              findTournament_update_self htid ⟨_, hmem1, htid⟩
            obtain ⟨hloopA1, hloopA2, hloopA3⟩ := createMatchesLoop_spec tid 1
              ((if rnd then mshuf lm0 else lm0).map
                (fun q =>
                  (labelTeamToPlayerIds t.players
                    (assign_labels (t.players.map (fun p => p.2)) true ns).2
                    (pairToTeam q.1),
                   labelTeamToPlayerIds t.players
                    (assign_labels (t.players.map (fun p => p.2)) true ns).2
                    (pairToTeam q.2))))
              (updateTournament
                (updateTournament w
                  { t with settingsLabels :=
                    (assign_labels (t.players.map (fun p => p.2)) true ns).2 })
                (bulkDeleteMatches
                  { t with settingsLabels :=
                    (assign_labels (t.players.map (fun p => p.2)) true ns).2 } none)) 0
              (bulkDeleteMatches
                { t with settingsLabels :=
                  (assign_labels (t.players.map (fun p => p.2)) true ns).2 } none) ht2
            have hdel : (bulkDeleteMatches
                { t with settingsLabels :=
                  (assign_labels (t.players.map (fun p => p.2)) true ns).2 } none).tmatches =
                [] := by
              rw [bulkDeleteMatches_none]
            have hTlen : ((if rnd then mshuf lm0 else lm0).map
                (fun q =>
                  (labelTeamToPlayerIds t.players
                    (assign_labels (t.players.map (fun p => p.2)) true ns).2
                    (pairToTeam q.1),
                   labelTeamToPlayerIds t.players
                    (assign_labels (t.players.map (fun p => p.2)) true ns).2
                    (pairToTeam q.2)))).length =
                (if rnd then mshuf lm0 else lm0).length := List.length_map _ _
            by_cases hL2 : ((sortByOrder t.tmatches).any (fun m => m.leg == 2)) = true
            · rw [if_pos hL2] at h
              obtain ⟨hloopB1, hloopB2, hloopB3⟩ :=
                createMatchesLoop_spec tid 2 _ _
                  (Int.ofNat (if rnd then mshuf lm0 else lm0).length) _ hloopA1
              split at h
              · simp at h
              · rename_i tNew heq3
                rw [hloopB1] at heq3
                simp only [Option.some.injEq] at heq3
                simp only [Except.ok.injEq, Prod.mk.injEq] at h
                obtain ⟨hresp, hw'⟩ := h
                have hmemW4 := (findTournament_mem hloopB1).1
                rw [heq3] at hmemW4
                have htNtid : tNew.tid = tid := by
                  rw [← heq3]
                  exact htid
                refine ⟨{ tNew with statusCol := computeStatusT tNew },
                  ?_, ?_, ?_, ?_, ?_⟩
                · rw [← hw']
                  exact findTournament_update_self htNtid ⟨tNew, hmemW4, htNtid⟩
                · show tNew.tmatches.map (fun m => m.orderIndex) =
                    (List.range tNew.tmatches.length).map Int.ofNat
                  rw [← heq3]
                  dsimp only
                  rw [hdel, List.nil_append, List.map_append,
                    newMatchesFrom_orderIndexes, newMatchesFrom_orderIndexes,
                    List.length_append, newMatchesFrom_length, newMatchesFrom_length,
                    hTlen, List.range_add, List.map_append, List.map_map]
                  congr 1
                  apply List.map_congr_left
                  intro k _
                  show (0 : Int) + Int.ofNat k = Int.ofNat k
                  omega
                · intro m' hm'
                  have hm2 : m' ∈ tNew.tmatches := hm'
                  rw [← heq3] at hm2
                  dsimp only at hm2
                  rw [hdel, List.nil_append] at hm2
                  rcases List.mem_append.mp hm2 with hA | hB
                  · obtain ⟨h1, _, h3, _⟩ := newMatchesFrom_rows _ 0 1 _ m' hA
                    exact ⟨h1, h3⟩
                  · obtain ⟨h1, _, h3, _⟩ := newMatchesFrom_rows _ _ 2 _ m' hB
                    refine ⟨h1, le_trans ?_ h3⟩
                    rw [hloopA2]
                    exact Nat.le_add_right _ _
                · show tNew.tmatches.length = _
                  rw [← heq3, ← hresp]
                  dsimp only
                  rw [hdel, List.nil_append, List.length_append,
                    newMatchesFrom_length, newMatchesFrom_length, hTlen,
                    if_pos hL2]
                  omega
                · intro tid' hne
                  rw [← hw']
                  have hB2 : ({ tNew with statusCol := computeStatusT tNew } :
                      Tourn).tid ≠ tid' := by
                    show tNew.tid ≠ tid'
                    rw [htNtid]
                    exact fun hc => hne hc.symm
                  have hA0 : t.tid ≠ tid' := by
                    rw [htid]
                    exact fun hc => hne hc.symm
                  have hC : (bulkDeleteMatches
                      { t with settingsLabels :=
                        (assign_labels (t.players.map (fun p => p.2)) true ns).2 }
                      none).tid ≠ tid' := hA0
                  have hD : ({ t with settingsLabels :=
                      (assign_labels (t.players.map (fun p => p.2)) true ns).2 } :
                      Tourn).tid ≠ tid' := hA0
                  rw [findTournament_update_ne hB2, hloopB3 tid' hne,
                    hloopA3 tid' hne, findTournament_update_ne hC,
                    findTournament_update_ne hD]
            · rw [if_neg hL2] at h
              split at h
              · simp at h
              · rename_i tNew heq3
                rw [hloopA1] at heq3
                simp only [Option.some.injEq] at heq3
                simp only [Except.ok.injEq, Prod.mk.injEq] at h
                obtain ⟨hresp, hw'⟩ := h
                have hmemW3 := (findTournament_mem hloopA1).1
                rw [heq3] at hmemW3
                have htNtid : tNew.tid = tid := by
                  rw [← heq3]
                  exact htid
                refine ⟨{ tNew with statusCol := computeStatusT tNew },
                  ?_, ?_, ?_, ?_, ?_⟩
                · rw [← hw']
                  exact findTournament_update_self htNtid ⟨tNew, hmemW3, htNtid⟩
                · show tNew.tmatches.map (fun m => m.orderIndex) =
                    (List.range tNew.tmatches.length).map Int.ofNat
                  rw [← heq3]
                  dsimp only
                  rw [hdel, List.nil_append, newMatchesFrom_orderIndexes,
                    newMatchesFrom_length]
                  apply List.map_congr_left
                  intro k _
                  show (0 : Int) + Int.ofNat k = Int.ofNat k
                  omega
                · intro m' hm'
                  have hm2 : m' ∈ tNew.tmatches := hm'
                  rw [← heq3] at hm2
                  dsimp only at hm2
                  rw [hdel, List.nil_append] at hm2
                  obtain ⟨h1, _, h3, _⟩ := newMatchesFrom_rows _ 0 1 _ m' hm2
                  exact ⟨h1, h3⟩
                · show tNew.tmatches.length = _
                  rw [← heq3, ← hresp]
                  dsimp only
                  rw [hdel, List.nil_append, newMatchesFrom_length, hTlen,
                    if_neg hL2]
                · intro tid' hne
                  rw [← hw']
                  have hB2 : ({ tNew with statusCol := computeStatusT tNew } :
                      Tourn).tid ≠ tid' := by
                    show tNew.tid ≠ tid'
                    rw [htNtid]
                    exact fun hc => hne hc.symm
                  have hA0 : t.tid ≠ tid' := by
                    rw [htid]
                    exact fun hc => hne hc.symm
                  have hC : (bulkDeleteMatches
                      { t with settingsLabels :=
                        (assign_labels (t.players.map (fun p => p.2)) true ns).2 }
                      none).tid ≠ tid' := hA0
                  have hD : ({ t with settingsLabels :=
                      (assign_labels (t.players.map (fun p => p.2)) true ns).2 } :
                      Tourn).tid ≠ tid' := hA0
                  rw [findTournament_update_ne hB2, hloopA3 tid' hne,
                    findTournament_update_ne hC, findTournament_update_ne hD]

/-- Claim C6: schedule replacement is atomic over its scope. On any failure of
full regeneration or 2v2 reassignment the stored tournament ids and match
lists are exactly as before, and any failing second-leg call returns the
store unchanged; on success, regeneration and reassignment leave the target
tournament with a fresh schedule whose order indices are exactly 0..n-1 and
whose rows are all newly allocated scheduled matches (other tournaments
untouched), second-leg enable appends exactly the mirror block with
contiguous order indices after the current maximum, and second-leg disable
removes exactly the leg-2 matches. -/
theorem schedule_replacement_atomic :
    (∀ (w : World) (tid : Nat) (role : String) (rnd : Bool)
        (ns : List String → List String)
        (ms : List (List String × List String) → List (List String × List String))
        (e : Err) (w' : World),
      (w.tournaments.map (fun u => u.tid)).Nodup →
      generate_schedule w tid role rnd ns ms = .error (e, w') →
      w'.tournaments.map (fun u => u.tid) = w.tournaments.map (fun u => u.tid) ∧
        w'.tournaments.map (fun u => u.tmatches) =
          w.tournaments.map (fun u => u.tmatches)) ∧
    (∀ (w : World) (tid : Nat) (role : String) (rnd : Bool)
        (ns : List String → List String)
        (ms : List (List String × List String) → List (List String × List String))
        (resp : GenResp) (w' : World) (t : Tourn),
      findTournament w tid = some t →
      generate_schedule w tid role rnd ns ms = .ok (resp, w') →
      ∃ t', findTournament w' tid = some t' ∧
        t'.tmatches.map (fun m => m.orderIndex) =
          (List.range t'.tmatches.length).map Int.ofNat ∧
        (∀ m' ∈ t'.tmatches, m'.state = "scheduled" ∧ w.nextId ≤ m'.mid) ∧
        t'.tmatches.length = resp.matchesCreated ∧
        (∀ tid', tid' ≠ tid → findTournament w' tid' = findTournament w tid')) ∧
    (∀ (w : World) (tid : Nat) (enabled : Bool) (role : String) (e : Err)
        (w' : World),
      second_leg w tid enabled role = .error (e, w') → w' = w) ∧
    (∀ (w : World) (tid : Nat) (role : String) (t : Tourn)
        (resp : SecondLegResp) (w' : World),
      findTournament w tid = some t →
      t.tmatches.filter (fun m => m.leg == 2) = [] →
      second_leg w tid true role = .ok (resp, w') →
      ∃ t', findTournament w' tid = some t' ∧
        t'.tmatches = t.tmatches ++
          newMatchesFrom w.nextId (maxOrderIndex t + 1) 2 (legSigs t 1) ∧
        (newMatchesFrom w.nextId (maxOrderIndex t + 1) 2 (legSigs t 1)).map
            (fun m => m.orderIndex) =
          (List.range (legSigs t 1).length).map
            (fun k => maxOrderIndex t + 1 + Int.ofNat k) ∧
        (∀ tid', tid' ≠ tid → findTournament w' tid' = findTournament w tid')) ∧
    (∀ (w : World) (tid : Nat) (role : String) (t : Tourn)
        (resp : SecondLegResp) (w' : World),
      findTournament w tid = some t →
      (t.tmatches.filter (fun m => m.leg == 2)).length > 0 →
      second_leg w tid false role = .ok (resp, w') →
      ∃ t', findTournament w' tid = some t' ∧
        t'.tmatches = t.tmatches.filter (fun m => decide (m.leg ≠ 2)) ∧
        (∀ tid', tid' ≠ tid → findTournament w' tid' = findTournament w tid')) ∧
    (∀ (w : World) (tid : Nat) (role : String) (rnd : Bool)
        (ns : List String → List String)
        (mshuf : List (Match2v2 String) → List (Match2v2 String))
        (e : Err) (w' : World),
      (w.tournaments.map (fun u => u.tid)).Nodup →
      reassign_2v2 w tid role rnd ns mshuf = .error (e, w') →
      w'.tournaments.map (fun u => u.tid) = w.tournaments.map (fun u => u.tid) ∧
        w'.tournaments.map (fun u => u.tmatches) =
          w.tournaments.map (fun u => u.tmatches)) ∧
    (∀ (w : World) (tid : Nat) (role : String) (rnd : Bool)
        (ns : List String → List String)
        (mshuf : List (Match2v2 String) → List (Match2v2 String))
        (resp : ReassignResp) (w' : World) (t : Tourn),
      findTournament w tid = some t →
      reassign_2v2 w tid role rnd ns mshuf = .ok (resp, w') →
      ∃ t', findTournament w' tid = some t' ∧
        t'.tmatches.map (fun m => m.orderIndex) =
          (List.range t'.tmatches.length).map Int.ofNat ∧
        (∀ m' ∈ t'.tmatches, m'.state = "scheduled" ∧ w.nextId ≤ m'.mid) ∧
        t'.tmatches.length =
          (if resp.secondLeg then 2 * resp.matchesCreated
           else resp.matchesCreated) ∧
        (∀ tid', tid' ≠ tid → findTournament w' tid' = findTournament w tid')) := by
  refine ⟨?_, ?_, ?_, ?_, ?_, ?_, ?_⟩
  · intro w tid role rnd ns ms e w' hnodup h
    exact generate_schedule_error_preserves w tid role rnd ns ms e w' hnodup h
  · intro w tid role rnd ns ms resp w' t hfind h
    exact generate_schedule_ok_replaces w tid role rnd ns ms resp w' t hfind h
  · intro w tid enabled role e w' h
    exact second_leg_error_preserves w tid enabled role e w' h
  · intro w tid role t resp w' hfind habsent h
    obtain ⟨t', h1, h2, h3⟩ :=
      second_leg_enable_appends w tid role t resp w' hfind habsent h
    exact ⟨t', h1, h2, newMatchesFrom_orderIndexes _ _ _ _, h3⟩
  · intro w tid role t resp w' hfind hex h
    exact second_leg_disable_deletes w tid role t resp w' hfind hex h
  · intro w tid role rnd ns mshuf e w' hnodup h
    exact reassign_2v2_error_preserves w tid role rnd ns mshuf e w' hnodup h
  · intro w tid role rnd ns mshuf resp w' t hfind h
    exact reassign_2v2_ok_replaces w tid role rnd ns mshuf resp w' t hfind h

/-- Witness for C6: regenerating the schedule of the three-player draft
tournament succeeds, and the claim instantiated there yields the fresh
contiguous schedule of newly allocated scheduled matches. -/
theorem schedule_replacement_atomic_witness :
    ∃ (resp : GenResp) (w' : World) (t' : Tourn),
      generate_schedule draftWorld 1 "editor" false (fun l => l) (fun l => l) =
        .ok (resp, w') ∧
      findTournament w' 1 = some t' ∧
      t'.tmatches.map (fun m => m.orderIndex) =
        (List.range t'.tmatches.length).map Int.ofNat ∧
      (∀ m' ∈ t'.tmatches, m'.state = "scheduled" ∧ draftWorld.nextId ≤ m'.mid) ∧
      t'.tmatches.length = resp.matchesCreated := by
  obtain ⟨t', h1, h2, h3, h4, _⟩ :=
    schedule_replacement_atomic.2.1 draftWorld 1 "editor" false
      (fun l => l) (fun l => l) _ _ draftWorldT rfl rfl
  exact ⟨_, _, t', rfl, h1, h2, h3, h4⟩



/-! ## The circle method produces an exact round robin (C2) -/

theorem mkPair_comm {α : Type} [LinearOrder α] (a b : α) : mkPair a b = mkPair b a := by
  unfold mkPair
  by_cases hab : a ≤ b
  · by_cases hba : b ≤ a
    · rw [if_pos hab, if_pos hba, le_antisymm hab hba]
    · rw [if_pos hab, if_neg hba]
  · have hba : b ≤ a := le_of_not_le hab
    rw [if_neg hab, if_pos hba]

theorem mkPair_eq_mkPair {α : Type} [LinearOrder α] {a b c d : α} :
    mkPair a b = mkPair c d ↔ (a = c ∧ b = d) ∨ (a = d ∧ b = c) := by
  constructor
  · intro h
    unfold mkPair at h
    split_ifs at h
    · exact Or.inl ⟨congrArg Prod.fst h, congrArg Prod.snd h⟩
    · exact Or.inr ⟨congrArg Prod.fst h, congrArg Prod.snd h⟩
    · exact Or.inr ⟨congrArg Prod.snd h, congrArg Prod.fst h⟩
    · exact Or.inl ⟨congrArg Prod.snd h, congrArg Prod.fst h⟩
  · intro h
    rcases h with ⟨rfl, rfl⟩ | ⟨rfl, rfl⟩
    · rfl
    · exact mkPair_comm a b

theorem mkPair_fst_ne_snd {α : Type} [LinearOrder α] {a b : α} (h : a ≠ b) :
    (mkPair a b).1 ≠ (mkPair a b).2 := by
  unfold mkPair
  split_ifs
  · exact h
  · exact fun hc => h hc.symm

theorem mkPair_mem_left {α : Type} [LinearOrder α] (a b : α) :
    (mkPair a b).1 = a ∨ (mkPair a b).1 = b := by
  unfold mkPair
  split_ifs
  · exact Or.inl rfl
  · exact Or.inr rfl

theorem mkPair_mem_right {α : Type} [LinearOrder α] (a b : α) :
    (mkPair a b).2 = a ∨ (mkPair a b).2 = b := by
  unfold mkPair
  split_ifs
  · exact Or.inr rfl
  · exact Or.inl rfl

theorem pairDisjoint_of_ne {α : Type} [LinearOrder α] {a b c d : α}
    (hac : a ≠ c) (had : a ≠ d) (hbc : b ≠ c) (hbd : b ≠ d) :
    pairDisjoint (mkPair a b) (mkPair c d) = true := by
  unfold pairDisjoint mkPair
  split_ifs <;>
    simp only [Bool.and_eq_true, Bool.not_eq_true', Bool.or_eq_false_iff,
      beq_eq_false_iff_ne, ne_eq] <;>
    exact ⟨⟨by assumption, by assumption⟩, ⟨by assumption, by assumption⟩⟩

theorem tailRot_length {α : Type} (t : List α) : (tailRot t).length = t.length := by
  unfold tailRot
  rw [List.length_append, List.length_drop, List.length_dropLast]
  omega

theorem tailRot_getD {α : Type} (t : List α) (d : α) (i : Nat)
    (hi : i < t.length) :
    (tailRot t).getD i d = t.getD ((i + (t.length - 1)) % t.length) d := by
  have hm : 1 ≤ t.length := by omega
  unfold tailRot
  rw [List.getD_eq_getElem?_getD, List.getElem?_append,
    List.getD_eq_getElem?_getD]
  rw [List.length_drop]
  cases i with
  | zero =>
    rw [if_pos (by omega)]
    rw [List.getElem?_drop]
    have h1 : (0 + (t.length - 1)) % t.length = t.length - 1 := by
      rw [Nat.zero_add]
      exact Nat.mod_eq_of_lt (by omega)
    rw [h1]
    rw [Nat.add_zero]
  | succ j =>
    rw [if_neg (by omega)]
    rw [List.dropLast_eq_take, List.getElem?_take]
    rw [if_pos (by omega)]
    have h1 : (j + 1 + (t.length - 1)) % t.length = j := by
      have h2 : j + 1 + (t.length - 1) = j + t.length := by omega
      rw [h2, Nat.add_mod_right]
      exact Nat.mod_eq_of_lt (by omega)
    have h3 : j + 1 - (t.length - (t.length - 1)) = j := by omega
    rw [h1, h3]

theorem tailRot_iterate_length {α : Type} (t : List α) (k : Nat) :
    (tailRot^[k] t).length = t.length := by
  induction k with
  | zero => rfl
  | succ k ih =>
    rw [Function.iterate_succ_apply']
    rw [tailRot_length, ih]

theorem tailRot_iterate_getD {α : Type} (t : List α) (d : α) (k i : Nat)
    (hi : i < t.length) :
    (tailRot^[k] t).getD i d = t.getD (posT t.length k i) d := by
  induction k generalizing i with
  | zero =>
    unfold posT
    rw [Nat.mul_comm, Nat.mul_zero, Nat.add_zero, Nat.mod_eq_of_lt hi]
    rfl
  | succ k ih =>
    rw [Function.iterate_succ_apply']
    have hlen : (tailRot^[k] t).length = t.length := tailRot_iterate_length t k
    rw [tailRot_getD _ d i (by rw [hlen]; exact hi), hlen]
    have hlt : (i + (t.length - 1)) % t.length < t.length :=
      Nat.mod_lt _ (by omega)
    rw [ih _ hlt]
    unfold posT
    rw [Nat.mod_add_mod]
    have harith : i + (t.length - 1) + k * (t.length - 1) =
        i + (k + 1) * (t.length - 1) := by
      rw [Nat.succ_mul]
      omega
    rw [harith]

theorem rotateArr_cons {α : Type} (x : α) (t : List α) (ht : 1 ≤ t.length) :
    rotateArr (x :: t) = x :: tailRot t := by
  unfold rotateArr tailRot
  have h1 : (x :: t).length - 1 = (t.length - 1) + 1 := by
    rw [List.length_cons]
    omega
  rw [h1, List.drop_succ_cons]
  have h2 : (x :: t).take 1 = [x] := rfl
  have h3 : (x :: t).drop 1 = t := rfl
  rw [h2, h3, List.singleton_append, List.cons_append]

theorem rotateArr_iterate_cons {α : Type} (x : α) (t : List α)
    (ht : 1 ≤ t.length) (k : Nat) :
    rotateArr^[k] (x :: t) = x :: tailRot^[k] t := by
  induction k with
  | zero => rfl
  | succ k ih =>
    rw [Function.iterate_succ_apply', ih, Function.iterate_succ_apply']
    exact rotateArr_cons x _ (by rw [tailRot_iterate_length]; exact ht)

theorem roundsAux_eq_map {α : Type} [LinearOrder α] (bye : α) (c : Nat)
    (arr : List α) :
    roundsAux bye c arr =
      (List.range c).map (fun k => roundPairs bye (rotateArr^[k] arr)) := by
  induction c generalizing arr with
  | zero => rfl
  | succ c ih =>
    rw [List.range_succ_eq_map]
    unfold roundsAux
    rw [ih (rotateArr arr), List.map_cons, List.map_map]
    congr 1

theorem filterMap_eq_map_of_some {α β : Type} (l : List α) (F : α → Option β)
    (G : α → β) (h : ∀ a ∈ l, F a = some (G a)) : l.filterMap F = l.map G := by
  induction l with
  | nil => rfl
  | cons a l ih =>
    rw [List.filterMap_cons, h a (List.mem_cons_self a l), List.map_cons,
      ih (fun b hb => h b (List.mem_cons_of_mem a hb))]

theorem posT_lt (m k j : Nat) (hm : 0 < m) : posT m k j < m := Nat.mod_lt _ hm

theorem getD_mem_of_lt {α : Type} (l : List α) (d : α) (i : Nat)
    (h : i < l.length) : l.getD i d ∈ l := by
  rw [List.getD_eq_getElem l d h]
  exact List.getElem_mem h

theorem roundPairs_rotate {α : Type} [LinearOrder α] (bye x : α) (t : List α)
    (ht : 1 ≤ t.length) (hbx : x ≠ bye) (hbt : ∀ y ∈ t, y ≠ bye) (k : Nat) :
    roundPairs bye (rotateArr^[k] (x :: t)) =
      (List.range ((t.length + 1) / 2)).map (circleSlot bye x t k) := by
  rw [rotateArr_iterate_cons x t ht k]
  unfold roundPairs
  have hlen : (x :: tailRot^[k] t).length = t.length + 1 := by
    rw [List.length_cons, tailRot_iterate_length]
  rw [hlen]
  apply filterMap_eq_map_of_some
  intro i hi
  have hi2 : i < (t.length + 1) / 2 := List.mem_range.mp hi
  cases i with
  | zero =>
    have hb0 : (x :: tailRot^[k] t).getD (t.length + 1 - 1 - 0) bye =
        t.getD (posT t.length k (t.length - 1)) bye := by
      have he : t.length + 1 - 1 - 0 = (t.length - 1) + 1 := by omega
      rw [he, List.getD_cons_succ]
      exact tailRot_iterate_getD t bye k (t.length - 1) (by omega)
    dsimp only
    rw [hb0]
    have hmem : t.getD (posT t.length k (t.length - 1)) bye ∈ t :=
      getD_mem_of_lt t bye _ (posT_lt _ _ _ (by omega))
    rw [if_neg (by
      push_neg
      exact ⟨hbx, hbt _ hmem⟩)]
    unfold circleSlot
    rw [if_pos rfl]
    rfl
  | succ j =>
    have hj1 : j < t.length := by omega
    have hj2 : j + 2 ≤ t.length := by omega
    have ha : (x :: tailRot^[k] t).getD (j + 1) bye =
        t.getD (posT t.length k j) bye := by
      rw [List.getD_cons_succ]
      exact tailRot_iterate_getD t bye k j hj1
    have hb : (x :: tailRot^[k] t).getD (t.length + 1 - 1 - (j + 1)) bye =
        t.getD (posT t.length k (t.length - 1 - (j + 1))) bye := by
      have he : t.length + 1 - 1 - (j + 1) = (t.length - j - 2) + 1 := by omega
      rw [he, List.getD_cons_succ]
      have he2 : t.length - 1 - (j + 1) = t.length - j - 2 := by omega
      rw [he2]
      exact tailRot_iterate_getD t bye k _ (by omega)
    dsimp only
    rw [ha, hb]
    have hmema : t.getD (posT t.length k j) bye ∈ t :=
      getD_mem_of_lt t bye _ (posT_lt _ _ _ (by omega))
    have hmemb : t.getD (posT t.length k (t.length - 1 - (j + 1))) bye ∈ t :=
      getD_mem_of_lt t bye _ (posT_lt _ _ _ (by omega))
    rw [if_neg (by
      push_neg
      exact ⟨hbt _ hmema, hbt _ hmemb⟩)]
    unfold circleSlot
    rw [if_neg (by omega)]
    rfl

theorem roundRobinPairings_cons_eq {α : Type} [LinearOrder α] (bye x : α)
    (t : List α) (heven : (t.length + 1) % 2 = 0) (hbx : x ≠ bye)
    (hbt : ∀ y ∈ t, y ≠ bye) :
    roundRobinPairings bye (x :: t) =
      (List.range t.length).map
        (fun k => (List.range ((t.length + 1) / 2)).map (circleSlot bye x t k)) := by
  have ht : 1 ≤ t.length := by
    rcases Nat.eq_zero_or_pos t.length with h0 | h1
    · rw [h0] at heven
      omega
    · exact h1
  unfold roundRobinPairings
  dsimp only
  rw [List.length_cons, if_neg (by omega)]
  have h2 : t.length + 1 - 1 = t.length := by omega
  rw [List.length_cons, h2, roundsAux_eq_map]
  apply List.map_congr_left
  intro k _
  exact roundPairs_rotate bye x t ht hbx hbt k

theorem posT_inj {m k : Nat} {j j' : Nat} (hj : j < m) (hj' : j' < m)
    (h : posT m k j = posT m k j') : j = j' := by
  unfold posT at h
  have h2 : j ≡ j' [MOD m] := Nat.ModEq.add_right_cancel' _ h
  have h3 : j % m = j' % m := h2
  rw [Nat.mod_eq_of_lt hj, Nat.mod_eq_of_lt hj'] at h3
  exact h3

theorem coprime_pred_self {m : Nat} (hm : 1 ≤ m) : Nat.gcd m (m - 1) = 1 := by
  have h2 : m - 1 + 1 = m := by omega
  rw [← h2]
  rw [Nat.add_comm]
  simp [Nat.gcd_add_self_left]

theorem coprime_two_of_odd {m : Nat} (hodd : m % 2 = 1) : Nat.gcd m 2 = 1 := by
  rw [Nat.gcd_comm]
  show Nat.Coprime 2 m
  rw [Nat.Prime.coprime_iff_not_dvd Nat.prime_two, Nat.dvd_iff_mod_eq_zero]
  omega

theorem circle_pos_eq {α : Type} (t : List α) (bye : α) (hndt : t.Nodup)
    {p q : Nat} (hp : p < t.length) (hq : q < t.length)
    (h : t.getD p bye = t.getD q bye) : p = q := by
  rw [List.getD_eq_getElem t bye hp, List.getD_eq_getElem t bye hq] at h
  exact (List.Nodup.getElem_inj_iff hndt).mp h

theorem circle_label_inj {α : Type} (t : List α) (bye : α) (hndt : t.Nodup)
    (k : Nat) {j j' : Nat} (hj : j < t.length) (hj' : j' < t.length)
    (h : t.getD (posT t.length k j) bye = t.getD (posT t.length k j') bye) :
    j = j' := by
  have hm : 0 < t.length := by omega
  exact posT_inj hj hj'
    (circle_pos_eq t bye hndt (posT_lt _ _ _ hm) (posT_lt _ _ _ hm) h)

theorem circle_label_mem {α : Type} (t : List α) (bye : α) (k j : Nat)
    (hm : 0 < t.length) : t.getD (posT t.length k j) bye ∈ t :=
  getD_mem_of_lt t bye _ (posT_lt _ _ _ hm)

theorem circleSlot_two {α : Type} [LinearOrder α] (bye x : α) (t : List α)
    (hx : x ∉ t) (hndt : t.Nodup) (hodd : t.length % 2 = 1) (k i : Nat)
    (hi : i < (t.length + 1) / 2) :
    (circleSlot bye x t k i).1 ≠ (circleSlot bye x t k i).2 := by
  have hm : 0 < t.length := by omega
  unfold circleSlot
  by_cases hi0 : i = 0
  · subst hi0
    rw [if_pos rfl]
    apply mkPair_fst_ne_snd
    intro h
    exact hx (h ▸ circle_label_mem t bye k (t.length - 1) hm)
  · rw [if_neg hi0]
    apply mkPair_fst_ne_snd
    intro h
    have := circle_label_inj t bye hndt k (by omega) (by omega) h
    omega

theorem circleSlot_disjoint {α : Type} [LinearOrder α] (bye x : α) (t : List α)
    (hx : x ∉ t) (hndt : t.Nodup) (hodd : t.length % 2 = 1)
    (k i i' : Nat) (hii : i < i') (hi' : i' < (t.length + 1) / 2) :
    pairDisjoint (circleSlot bye x t k i) (circleSlot bye x t k i') = true := by
  have hm : 0 < t.length := by omega
  have hm3 : 3 ≤ t.length := by omega
  unfold circleSlot
  by_cases hi0 : i = 0
  · subst hi0
    rw [if_pos rfl, if_neg (by omega)]
    apply pairDisjoint_of_ne
    · intro h
      exact hx (h ▸ circle_label_mem t bye k _ hm)
    · intro h
      exact hx (h ▸ circle_label_mem t bye k _ hm)
    · intro h
      have := circle_label_inj t bye hndt k (by omega) (by omega) h
      omega
    · intro h
      have := circle_label_inj t bye hndt k (by omega) (by omega) h
      omega
  · rw [if_neg hi0, if_neg (by omega)]
    apply pairDisjoint_of_ne
    · intro h
      have := circle_label_inj t bye hndt k (by omega) (by omega) h
      omega
    · intro h
      have := circle_label_inj t bye hndt k (by omega) (by omega) h
      omega
    · intro h
      have := circle_label_inj t bye hndt k (by omega) (by omega) h
      omega
    · intro h
      have := circle_label_inj t bye hndt k (by omega) (by omega) h
      omega

theorem circleSlot_inj {α : Type} [LinearOrder α] (bye x : α) (t : List α)
    (hx : x ∉ t) (hndt : t.Nodup) (hodd : t.length % 2 = 1)
    {k k' i i' : Nat} (hk : k < t.length) (hk' : k' < t.length)
    (hi : i < (t.length + 1) / 2) (hi' : i' < (t.length + 1) / 2)
    (h : circleSlot bye x t k i = circleSlot bye x t k' i') :
    k = k' ∧ i = i' := by
  have hm : 0 < t.length := by omega
  unfold circleSlot at h
  by_cases hi0 : i = 0 <;> by_cases hi0' : i' = 0
  · subst hi0
    subst hi0'
    rw [if_pos rfl, if_pos rfl] at h
    rcases mkPair_eq_mkPair.mp h with ⟨_, he⟩ | ⟨hxe, _⟩
    · have hpos := circle_pos_eq t bye hndt (posT_lt _ _ _ hm) (posT_lt _ _ _ hm) he
      unfold posT at hpos
      have h2 : t.length - 1 + k * (t.length - 1) ≡
          t.length - 1 + k' * (t.length - 1) [MOD t.length] := hpos
      have h3 := Nat.ModEq.add_left_cancel' _ h2
      have h4 := Nat.ModEq.cancel_right_of_coprime (coprime_pred_self (by omega)) h3
      have h5 : k % t.length = k' % t.length := h4
      rw [Nat.mod_eq_of_lt hk, Nat.mod_eq_of_lt hk'] at h5
      exact ⟨h5, rfl⟩
    · exact absurd (hxe ▸ circle_label_mem t bye k' _ hm) hx
  · subst hi0
    rw [if_pos rfl, if_neg hi0'] at h
    rcases mkPair_eq_mkPair.mp h with ⟨hxe, _⟩ | ⟨hxe, _⟩ <;>
      exact absurd (hxe ▸ circle_label_mem t bye k' _ hm) hx
  · subst hi0'
    rw [if_neg hi0, if_pos rfl] at h
    rcases mkPair_eq_mkPair.mp h with ⟨hxe, _⟩ | ⟨_, hxe⟩ <;>
      exact absurd (hxe.symm ▸ circle_label_mem t bye k _ hm) hx
  · rw [if_neg hi0, if_neg hi0'] at h
    have hi1 : 1 ≤ i := by omega
    have hi1' : 1 ≤ i' := by omega
    have hib : i ≤ t.length - 1 := by omega
    have hib' : i' ≤ t.length - 1 := by omega
    have hpp : posT t.length k (i - 1) + posT t.length k (t.length - 1 - i) =
        posT t.length k' (i' - 1) + posT t.length k' (t.length - 1 - i') ∧
        ((posT t.length k (i - 1) = posT t.length k' (i' - 1)) ∨
         (posT t.length k (i - 1) = posT t.length k' (t.length - 1 - i'))) := by
      rcases mkPair_eq_mkPair.mp h with ⟨ha, hb⟩ | ⟨ha, hb⟩
      · have h1 := circle_pos_eq t bye hndt (posT_lt _ _ _ hm) (posT_lt _ _ _ hm) ha
        have h2 := circle_pos_eq t bye hndt (posT_lt _ _ _ hm) (posT_lt _ _ _ hm) hb
        exact ⟨by omega, Or.inl h1⟩
      · have h1 := circle_pos_eq t bye hndt (posT_lt _ _ _ hm) (posT_lt _ _ _ hm) ha
        have h2 := circle_pos_eq t bye hndt (posT_lt _ _ _ hm) (posT_lt _ _ _ hm) hb
        exact ⟨by omega, Or.inr h1⟩
    obtain ⟨hsumeq, hcase⟩ := hpp
    have hkk : k = k' := by
      have hpa : posT t.length k (i - 1) ≡
          i - 1 + k * (t.length - 1) [MOD t.length] := Nat.mod_modEq _ _
      have hpb : posT t.length k (t.length - 1 - i) ≡
          t.length - 1 - i + k * (t.length - 1) [MOD t.length] := Nat.mod_modEq _ _
      have hpa' : posT t.length k' (i' - 1) ≡
          i' - 1 + k' * (t.length - 1) [MOD t.length] := Nat.mod_modEq _ _
      have hpb' : posT t.length k' (t.length - 1 - i') ≡
          t.length - 1 - i' + k' * (t.length - 1) [MOD t.length] := Nat.mod_modEq _ _
      have hs : i - 1 + k * (t.length - 1) + (t.length - 1 - i + k * (t.length - 1)) ≡
          i' - 1 + k' * (t.length - 1) + (t.length - 1 - i' + k' * (t.length - 1))
          [MOD t.length] := by
        calc i - 1 + k * (t.length - 1) + (t.length - 1 - i + k * (t.length - 1))
            ≡ posT t.length k (i - 1) + posT t.length k (t.length - 1 - i)
              [MOD t.length] := (hpa.add hpb).symm
          _ = posT t.length k' (i' - 1) + posT t.length k' (t.length - 1 - i') :=
              hsumeq
          _ ≡ i' - 1 + k' * (t.length - 1) + (t.length - 1 - i' + k' * (t.length - 1))
              [MOD t.length] := hpa'.add hpb'
      have e1 : i - 1 + k * (t.length - 1) + (t.length - 1 - i + k * (t.length - 1)) =
          (t.length - 2) + 2 * (k * (t.length - 1)) := by
        have := hi1
        have := hib
        generalize k * (t.length - 1) = K
        omega
      have e2 : i' - 1 + k' * (t.length - 1) +
          (t.length - 1 - i' + k' * (t.length - 1)) =
          (t.length - 2) + 2 * (k' * (t.length - 1)) := by
        have := hi1'
        have := hib'
        generalize k' * (t.length - 1) = K
        omega
      rw [e1, e2] at hs
      have h3 := Nat.ModEq.add_left_cancel' _ hs
      rw [← Nat.mul_assoc, ← Nat.mul_assoc] at h3
      have h4 := Nat.ModEq.cancel_right_of_coprime (coprime_pred_self (by omega)) h3
      have h5 := Nat.ModEq.cancel_left_of_coprime (coprime_two_of_odd hodd) h4
      have h6 : k % t.length = k' % t.length := h5
      rw [Nat.mod_eq_of_lt hk, Nat.mod_eq_of_lt hk'] at h6
      exact h6
    subst hkk
    refine ⟨rfl, ?_⟩
    rcases hcase with h1 | h1
    · have := @posT_inj t.length k (i - 1) (i' - 1) (by omega) (by omega) h1
      omega
    · have := @posT_inj t.length k (i - 1) (t.length - 1 - i') (by omega)
        (by omega) h1
      omega

theorem comb2_mem_comps {α : Type} {l : List α} {p : α × α} (h : p ∈ comb2 l) :
    p.1 ∈ l ∧ p.2 ∈ l := by
  induction l with
  | nil => simp [comb2] at h
  | cons x xs ih =>
    unfold comb2 at h
    rcases List.mem_append.mp h with h1 | h1
    · obtain ⟨y, hy, hp⟩ := List.mem_map.mp h1
      rw [← hp]
      exact ⟨List.mem_cons_self x xs, List.mem_cons_of_mem x hy⟩
    · obtain ⟨ha, hb⟩ := ih h1
      exact ⟨List.mem_cons_of_mem x ha, List.mem_cons_of_mem x hb⟩

theorem comb2_ne {α : Type} {l : List α} (hnd : l.Nodup) {p : α × α}
    (h : p ∈ comb2 l) : p.1 ≠ p.2 := by
  induction l with
  | nil => simp [comb2] at h
  | cons x xs ih =>
    obtain ⟨hx, hndx⟩ := List.nodup_cons.mp hnd
    unfold comb2 at h
    rcases List.mem_append.mp h with h1 | h1
    · obtain ⟨y, hy, hp⟩ := List.mem_map.mp h1
      rw [← hp]
      intro he
      have he2 : x = y := he
      rw [he2] at hx
      exact hx hy
    · exact ih hndx h1

theorem comb2_noanti {α : Type} {l : List α} (hnd : l.Nodup) {a b : α}
    (h1 : (a, b) ∈ comb2 l) (h2 : (b, a) ∈ comb2 l) : a = b := by
  induction l with
  | nil => simp [comb2] at h1
  | cons x xs ih =>
    obtain ⟨hx, hndx⟩ := List.nodup_cons.mp hnd
    unfold comb2 at h1 h2
    rcases List.mem_append.mp h1 with g1 | g1 <;>
      rcases List.mem_append.mp h2 with g2 | g2
    · obtain ⟨y, hy, hp⟩ := List.mem_map.mp g1
      obtain ⟨z, hz, hq⟩ := List.mem_map.mp g2
      have ha : x = a := congrArg Prod.fst hp
      have hb : x = b := congrArg Prod.fst hq
      rw [← ha, ← hb]
    · obtain ⟨y, hy, hp⟩ := List.mem_map.mp g1
      have ha : x = a := congrArg Prod.fst hp
      have hmem : a ∈ xs := (comb2_mem_comps g2).2
      rw [← ha] at hmem
      exact absurd hmem hx
    · obtain ⟨z, hz, hq⟩ := List.mem_map.mp g2
      have hb : x = b := congrArg Prod.fst hq
      have hmem : b ∈ xs := (comb2_mem_comps g1).2
      rw [← hb] at hmem
      exact absurd hmem hx
    · exact ih hndx g1 g2

theorem comb2_nodup {α : Type} {l : List α} (hnd : l.Nodup) : (comb2 l).Nodup := by
  induction l with
  | nil => exact List.nodup_nil
  | cons x xs ih =>
    obtain ⟨hx, hndx⟩ := List.nodup_cons.mp hnd
    unfold comb2
    rw [List.nodup_append]
    refine ⟨?_, ih hndx, ?_⟩
    · exact List.Nodup.map_on
        (fun y _ z _ h => congrArg Prod.snd h) hndx
    · intro p hp hq
      obtain ⟨y, _, hpy⟩ := List.mem_map.mp hp
      have h1 : p.1 = x := by
        rw [← hpy]
      have := (comb2_mem_comps hq).1
      rw [h1] at this
      exact hx this

theorem comb2_length {α : Type} (l : List α) :
    2 * (comb2 l).length = l.length * (l.length - 1) := by
  induction l with
  | nil => rfl
  | cons x xs ih =>
    unfold comb2
    rw [List.length_append, List.length_map, List.length_cons]
    have h2 : xs.length + 1 - 1 = xs.length := by omega
    rw [h2]
    cases hxs : xs.length with
    | zero =>
      rw [hxs] at ih
      simp only [Nat.zero_sub, Nat.mul_zero] at ih
      have hc : (comb2 xs).length = 0 := by omega
      rw [hc]
    | succ s =>
      rw [hxs] at ih
      have h3 : s + 1 - 1 = s := by omega
      rw [h3] at ih
      have h4 : 2 * (s + 1 + (comb2 xs).length) =
          2 * (s + 1) + 2 * (comb2 xs).length := by ring
      rw [h4, ih]
      ring

theorem mem_allPairs {α : Type} [LinearOrder α] {l : List α} {a b : α}
    (ha : a ∈ l) (hb : b ∈ l) (hab : a ≠ b) : mkPair a b ∈ allPairs l := by
  induction l with
  | nil => exact absurd ha (List.not_mem_nil a)
  | cons x xs ih =>
    unfold allPairs comb2
    rw [List.map_append, List.map_map]
    rcases List.mem_cons.mp ha with rfl | ha2
    · have hb2 : b ∈ xs := by
        rcases List.mem_cons.mp hb with rfl | h
        · exact absurd rfl hab
        · exact h
      apply List.mem_append_left
      exact List.mem_map.mpr ⟨b, hb2, rfl⟩
    · rcases List.mem_cons.mp hb with rfl | hb2
      · apply List.mem_append_left
        refine List.mem_map.mpr ⟨a, ha2, ?_⟩
        show mkPair b a = mkPair a b
        exact mkPair_comm b a
      · exact List.mem_append_right _ (ih ha2 hb2)

theorem allPairs_nodup {α : Type} [LinearOrder α] {l : List α} (hnd : l.Nodup) :
    (allPairs l).Nodup := by
  unfold allPairs
  apply List.Nodup.map_on _ (comb2_nodup hnd)
  intro p hp q hq hpq
  rcases mkPair_eq_mkPair.mp hpq with ⟨h1, h2⟩ | ⟨h1, h2⟩
  · exact Prod.ext h1 h2
  · have hpair : (p.1, p.2) ∈ comb2 l := hp
    have hq2 : (p.2, p.1) ∈ comb2 l := by
      have : q = (p.2, p.1) := by
        rw [Prod.ext_iff]
        exact ⟨h2.symm, h1.symm⟩
      rw [← this]
      exact hq
    have := comb2_noanti hnd hpair hq2
    exact absurd this (comb2_ne hnd hp)

theorem allPairs_length {α : Type} [LinearOrder α] (l : List α) :
    2 * (allPairs l).length = l.length * (l.length - 1) := by
  unfold allPairs
  rw [List.length_map]
  exact comb2_length l

theorem sum_map_const {α : Type} (l : List α) (v : Nat) :
    (l.map (fun _ => v)).sum = l.length * v := by
  induction l with
  | nil => simp
  | cons x xs ih =>
    rw [List.map_cons, List.sum_cons, ih, List.length_cons]
    ring

theorem count_inst_congr {γ : Type} [inst1 : BEq γ] [LawfulBEq γ]
    [inst2 : DecidableEq γ] (p : γ) (l : List γ) :
    @List.count γ inst1 p l = @List.count γ (@instBEqOfDecidableEq γ inst2) p l := by
  unfold List.count
  apply List.countP_congr
  intro q _
  simp [beq_iff_eq]

theorem circleSlot_spec {α : Type} [LinearOrder α] (bye x : α) (t : List α)
    (hx : x ∉ t) (hndt : t.Nodup) (hodd : t.length % 2 = 1) (k i : Nat)
    (hi : i < (t.length + 1) / 2) :
    ∃ a b, circleSlot bye x t k i = mkPair a b ∧ a ∈ x :: t ∧ b ∈ x :: t ∧
      a ≠ b := by
  have hm : 0 < t.length := by omega
  unfold circleSlot
  by_cases hi0 : i = 0
  · subst hi0
    rw [if_pos rfl]
    refine ⟨x, _, rfl, List.mem_cons_self x t,
      List.mem_cons_of_mem x (circle_label_mem t bye k _ hm), ?_⟩
    intro h
    rw [h] at hx
    exact hx (circle_label_mem t bye k _ hm)
  · rw [if_neg hi0]
    refine ⟨_, _, rfl,
      List.mem_cons_of_mem x (circle_label_mem t bye k _ hm),
      List.mem_cons_of_mem x (circle_label_mem t bye k _ hm), ?_⟩
    intro h
    have := circle_label_inj t bye hndt k (by omega) (by omega) h
    omega

theorem circle_complete {α : Type} [LinearOrder α] (bye x : α) (t : List α)
    (hnd : (x :: t).Nodup) (heven : (t.length + 1) % 2 = 0)
    (hbye : ∀ y ∈ x :: t, y ≠ bye) :
    (roundRobinPairings bye (x :: t)).length = t.length ∧
    (∀ r ∈ roundRobinPairings bye (x :: t),
      (∀ p ∈ r, p.1 ≠ p.2) ∧
        List.Pairwise (fun p q => pairDisjoint p q = true) r) ∧
    (∀ a ∈ x :: t, ∀ b ∈ x :: t, a ≠ b →
      ((roundRobinPairings bye (x :: t)).flatten).count (mkPair a b) = 1) := by
  obtain ⟨hx, hndt⟩ := List.nodup_cons.mp hnd
  have hbx : x ≠ bye := hbye x (List.mem_cons_self x t)
  have hbt : ∀ y ∈ t, y ≠ bye := fun y hy => hbye y (List.mem_cons_of_mem x hy)
  have hodd : t.length % 2 = 1 := by omega
  have hm : 0 < t.length := by omega
  rw [roundRobinPairings_cons_eq bye x t heven hbx hbt]
  refine ⟨?_, ?_, ?_⟩
  · rw [List.length_map, List.length_range]
  · intro r hr
    obtain ⟨k, hk, hrk⟩ := List.mem_map.mp hr
    have hkm : k < t.length := List.mem_range.mp hk
    constructor
    · intro p hp
      rw [← hrk] at hp
      obtain ⟨i, hi, hpi⟩ := List.mem_map.mp hp
      rw [← hpi]
      exact circleSlot_two bye x t hx hndt hodd k i (List.mem_range.mp hi)
    · rw [← hrk, List.pairwise_map]
      refine List.Pairwise.imp_of_mem ?_ (List.pairwise_lt_range _)
      intro i i' hi hi' hlt
      exact circleSlot_disjoint bye x t hx hndt hodd k i i' hlt
        (List.mem_range.mp hi')
  · intro a ha b hb hab
    have hJlen : ((List.range t.length).map
        (fun k => (List.range ((t.length + 1) / 2)).map
          (circleSlot bye x t k))).flatten.length =
        t.length * ((t.length + 1) / 2) := by
      rw [List.length_flatten, List.map_map]
      have he : (List.map
          (List.length ∘ fun k => (List.range ((t.length + 1) / 2)).map
            (circleSlot bye x t k)) (List.range t.length)) =
          (List.range t.length).map (fun _ => (t.length + 1) / 2) := by
        apply List.map_congr_left
        intro k _
        show ((List.range ((t.length + 1) / 2)).map (circleSlot bye x t k)).length =
          (t.length + 1) / 2
        rw [List.length_map, List.length_range]
      rw [he, sum_map_const, List.length_range]
    have hJnodup : ((List.range t.length).map
        (fun k => (List.range ((t.length + 1) / 2)).map
          (circleSlot bye x t k))).flatten.Nodup := by
      rw [List.nodup_flatten]
      constructor
      · intro r hr
        obtain ⟨k, hk, hrk⟩ := List.mem_map.mp hr
        have hkm : k < t.length := List.mem_range.mp hk
        rw [← hrk]
        apply List.Nodup.map_on _ (List.nodup_range _)
        intro i hi i' hi' he
        exact (circleSlot_inj bye x t hx hndt hodd hkm hkm
          (List.mem_range.mp hi) (List.mem_range.mp hi') he).2
      · rw [List.pairwise_map]
        refine List.Pairwise.imp_of_mem ?_ (List.pairwise_lt_range _)
        intro k k' hk hk' hlt p hp hp'
        obtain ⟨i, hi, hpi⟩ := List.mem_map.mp hp
        obtain ⟨i', hi', hpi'⟩ := List.mem_map.mp hp'
        have he : circleSlot bye x t k i = circleSlot bye x t k' i' := by
          rw [hpi, hpi']
        have := (circleSlot_inj bye x t hx hndt hodd
          (List.mem_range.mp hk) (List.mem_range.mp hk')
          (List.mem_range.mp hi) (List.mem_range.mp hi') he).1
        omega
    have hsub : ((List.range t.length).map
        (fun k => (List.range ((t.length + 1) / 2)).map
          (circleSlot bye x t k))).flatten ⊆ allPairs (x :: t) := by
      intro p hp
      obtain ⟨r, hr, hpr⟩ := List.mem_flatten.mp hp
      obtain ⟨k, hk, hrk⟩ := List.mem_map.mp hr
      rw [← hrk] at hpr
      obtain ⟨i, hi, hpi⟩ := List.mem_map.mp hpr
      obtain ⟨c, d, hcd, hc, hd, hne⟩ := circleSlot_spec bye x t hx hndt hodd k i
        (List.mem_range.mp hi)
      rw [← hpi, hcd]
      exact mem_allPairs hc hd hne
    have hAlen : 2 * (allPairs (x :: t)).length = (t.length + 1) * t.length := by
      rw [allPairs_length, List.length_cons]
      have h2 : t.length + 1 - 1 = t.length := by omega
      rw [h2]
    have hlen2 : (allPairs (x :: t)).length = t.length * ((t.length + 1) / 2) := by
      have e1 : 2 * ((t.length + 1) / 2) = t.length + 1 := by omega
      apply Nat.eq_of_mul_eq_mul_left (show 0 < 2 by omega)
      rw [hAlen]
      have e2 : 2 * (t.length * ((t.length + 1) / 2)) =
          t.length * (2 * ((t.length + 1) / 2)) := by ring
      rw [e2, e1]
      ring
    have hperm : ((List.range t.length).map
        (fun k => (List.range ((t.length + 1) / 2)).map
          (circleSlot bye x t k))).flatten.Perm (allPairs (x :: t)) := by
      apply List.Subperm.perm_of_length_le (List.Nodup.subperm hJnodup hsub)
      rw [hJlen, hlen2]
    exact (count_inst_congr (mkPair a b) _).trans
      ((List.Perm.count_eq hperm (mkPair a b)).trans
        (List.count_eq_one_of_mem (allPairs_nodup hnd) (mem_allPairs ha hb hab)))

theorem count_lawful_irrel {g : Type} (i1 i2 : BEq g) [l1 : @LawfulBEq g i1]
    [l2 : @LawfulBEq g i2] (p : g) (l : List g) :
    @List.count g i1 p l = @List.count g i2 p l := by
  unfold List.count
  apply List.countP_congr
  intro q _
  constructor
  · intro h
    have hqp : q = p := @eq_of_beq _ i1 l1 _ _ h
    rw [hqp]
    exact @beq_self_eq_true _ i2 l2 p
  · intro h
    have hqp : q = p := @eq_of_beq _ i2 l2 _ _ h
    rw [hqp]
    exact @beq_self_eq_true _ i1 l1 p

theorem pairDisjoint_irrel {g : Type} (i1 i2 : DecidableEq g) (p q : g × g) :
    @pairDisjoint g i1 p q = @pairDisjoint g i2 p q := by
  unfold pairDisjoint
  have e : ∀ a b : g, (@BEq.beq g (@instBEqOfDecidableEq g i1) a b) =
      (@BEq.beq g (@instBEqOfDecidableEq g i2) a b) := by
    intro a b
    show @decide (a = b) (i1 a b) = @decide (a = b) (i2 a b)
    rw [Subsingleton.elim (i1 a b) (i2 a b)]
  rw [e, e, e, e]

/-- Claim C2: for every duplicate-free label list of even length whose labels
avoid the reserved bye sentinel, the circle method returns `n - 1` rounds, in
every round the emitted partnerships are pairwise disjoint two-element sets,
and across all rounds every unordered pair of labels occurs as a partnership
exactly once.  (The original claim, without the sentinel restriction, is
refuted by `round_robin_bye_label_cex`.) -/
theorem round_robin_even_exact (ls : List String) (hnd : ls.Nodup)
    (heven : ls.length % 2 = 0) (hbye : ∀ y ∈ ls, y ≠ "__BYE__") :
    (round_robin_pairings ls).length = ls.length - 1 ∧
    (∀ r ∈ round_robin_pairings ls,
      (∀ p ∈ r, p.1 ≠ p.2) ∧
        List.Pairwise (fun p q => pairDisjoint p q = true) r) ∧
    (∀ a ∈ ls, ∀ b ∈ ls, a ≠ b →
      ((round_robin_pairings ls).flatten).count (mkPair a b) = 1) := by
  unfold round_robin_pairings
  cases ls with
  | nil =>
    refine ⟨rfl, ?_, ?_⟩
    · intro r hr
      have : roundRobinPairings "__BYE__" ([] : List String) = [] := rfl
      rw [this] at hr
      exact absurd hr (List.not_mem_nil r)
    · intro a ha
      exact absurd ha (List.not_mem_nil a)
  | cons x t =>
    have heven2 : (t.length + 1) % 2 = 0 := by
      rw [List.length_cons] at heven
      exact heven
    obtain ⟨g1, g2, g3⟩ := circle_complete "__BYE__" x t hnd heven2 hbye
    rw [List.length_cons]
    have hl : t.length + 1 - 1 = t.length := by omega
    rw [hl]
    refine ⟨g1, ?_, ?_⟩
    · intro r hr
      refine ⟨(g2 r hr).1, ?_⟩
      refine List.Pairwise.imp ?_ (g2 r hr).2
      intro p q hpq
      exact (pairDisjoint_irrel _ _ p q).trans hpq
    · intro a ha b hb hab
      exact (count_lawful_irrel _ _ _ _).trans (g3 a ha b hb hab)

/-- Witness for C2: on the four labels A–D the circle method yields three
rounds and the pair (A, C) appears exactly once overall. -/
theorem round_robin_even_exact_witness :
    (round_robin_pairings ["A", "B", "C", "D"]).length = 3 ∧
    ((round_robin_pairings ["A", "B", "C", "D"]).flatten).count
      (mkPair "A" "C") = 1 := by
  obtain ⟨h1, _, h3⟩ := round_robin_even_exact ["A", "B", "C", "D"]
    (by decide) (by decide) (by decide)
  exact ⟨h1, h3 "A" (by decide) "C" (by decide) (by decide)⟩

/-- Counterexample to the unamended C2: the two labels are distinct and the
list length is even, yet the pair never occurs because the first label equals
the bye sentinel, which the round emitter silently drops. -/
theorem filterMap_singleton_none {α β : Type} (F : α → Option β) (a : α)
    (h : F a = none) : [a].filterMap F = [] := by
  rw [List.filterMap_cons, h]
  rfl

theorem round_robin_bye_label_cex :
    (["__BYE__", "X"] : List String).Nodup ∧
    (["__BYE__", "X"] : List String).length % 2 = 0 ∧
    ((round_robin_pairings ["__BYE__", "X"]).flatten).count
      (mkPair "__BYE__" "X") = 0 := by
  refine ⟨by decide, by decide, ?_⟩
  have h1 : roundPairs "__BYE__" ["__BYE__", "X"] = [] := by
    unfold roundPairs
    have hr : (["__BYE__", "X"] : List String).length / 2 = 1 := by decide
    rw [hr, show List.range 1 = [0] from rfl]
    apply filterMap_singleton_none
    dsimp only
    rw [if_pos (Or.inl
      (show (["__BYE__", "X"] : List String).getD 0 "__BYE__" = "__BYE__" from rfl))]
  have h0 : round_robin_pairings ["__BYE__", "X"] = [[]] := by
    unfold round_robin_pairings roundRobinPairings
    dsimp only
    rw [if_neg (by decide : ¬(["__BYE__", "X"] : List String).length % 2 = 1)]
    show roundPairs "__BYE__" ["__BYE__", "X"] ::
      roundsAux "__BYE__" 0 (rotateArr ["__BYE__", "X"]) = [[]]
    rw [h1]
    rfl
  rw [h0]
  rfl

/-! ## Relabelling simulation for the 2v2 scheduler (C1) -/

theorem getD_map {α β : Type} (f : α → β) (l : List α) (d : α) (i : Nat) :
    (l.map f).getD i (f d) = f (l.getD i d) := by
  induction l generalizing i with
  | nil => rfl
  | cons x xs ih =>
    cases i with
    | zero => rfl
    | succ j => exact ih j

theorem rotateArr_map {α β : Type} (f : α → β) (l : List α) :
    rotateArr (l.map f) = (rotateArr l).map f := by
  unfold rotateArr
  rw [List.length_map, List.map_append, List.map_append, List.map_take,
    List.map_drop, List.map_dropLast, List.map_drop]

theorem mem_rotateArr {α : Type} {l : List α} {x : α} (h : x ∈ rotateArr l) :
    x ∈ l := by
  unfold rotateArr at h
  rcases List.mem_append.mp h with h1 | h1
  · rcases List.mem_append.mp h1 with h2 | h2
    · exact List.mem_of_mem_take h2
    · exact List.mem_of_mem_drop h2
  · exact List.mem_of_mem_drop (List.dropLast_subset _ h1)

theorem filterMap_congr_mem {α β : Type} {l : List α} {F G : α → Option β}
    (h : ∀ a ∈ l, F a = G a) : l.filterMap F = l.filterMap G := by
  induction l with
  | nil => rfl
  | cons x xs ih =>
    rw [List.filterMap_cons, List.filterMap_cons, h x (List.mem_cons_self x xs),
      ih (fun a ha => h a (List.mem_cons_of_mem x ha))]

theorem findIdx?_cons_eq {α : Type} (P : α → Bool) (x : α) (xs : List α) :
    (x :: xs).findIdx? P = if P x then some 0 else (xs.findIdx? P).map (· + 1) := by
  simp [List.findIdx?_cons]

theorem findIdx?_congr_map {α β : Type} {l : List α} {f : α → β}
    {P : β → Bool} {Q : α → Bool} (h : ∀ x ∈ l, P (f x) = Q x) :
    (l.map f).findIdx? P = l.findIdx? Q := by
  induction l with
  | nil => rfl
  | cons x xs ih =>
    rw [List.map_cons, findIdx?_cons_eq, findIdx?_cons_eq,
      h x (List.mem_cons_self x xs),
      ih (fun a ha => h a (List.mem_cons_of_mem x ha))]

theorem eraseIdx_map {α β : Type} (f : α → β) (l : List α) (j : Nat) :
    (l.map f).eraseIdx j = (l.eraseIdx j).map f := by
  induction l generalizing j with
  | nil => rfl
  | cons x xs ih =>
    cases j with
    | zero => rfl
    | succ j2 =>
      rw [List.map_cons, List.eraseIdx_cons_succ, List.eraseIdx_cons_succ,
        List.map_cons, ih j2]

theorem all_congr_map {α β : Type} {l : List α} {f : α → β}
    {P : β → Bool} {Q : α → Bool} (h : ∀ x ∈ l, P (f x) = Q x) :
    (l.map f).all P = l.all Q := by
  induction l with
  | nil => rfl
  | cons x xs ih =>
    rw [List.map_cons, List.all_cons, List.all_cons, h x (List.mem_cons_self x xs),
      ih (fun a ha => h a (List.mem_cons_of_mem x ha))]

theorem filter_map_congr {α β : Type} {l : List α} {f : α → β}
    {P : β → Bool} {Q : α → Bool} (h : ∀ x ∈ l, P (f x) = Q x) :
    (l.map f).filter P = (l.filter Q).map f := by
  induction l with
  | nil => rfl
  | cons x xs ih =>
    rw [List.map_cons, List.filter_cons, List.filter_cons,
      h x (List.mem_cons_self x xs)]
    by_cases hq : Q x = true
    · rw [if_pos hq, if_pos hq, List.map_cons,
        ih (fun a ha => h a (List.mem_cons_of_mem x ha))]
    · rw [if_neg hq, if_neg hq, ih (fun a ha => h a (List.mem_cons_of_mem x ha))]

theorem comb2_map {α β : Type} (f : α → β) (l : List α) :
    comb2 (l.map f) = (comb2 l).map (Prod.map f f) := by
  induction l with
  | nil => rfl
  | cons x xs ih =>
    unfold comb2
    rw [List.map_cons]
    show (xs.map f).map (fun y => (f x, y)) ++ comb2 (xs.map f) =
      (xs.map (fun y => (x, y)) ++ comb2 xs).map (Prod.map f f)
    rw [List.map_append, ih, List.map_map, List.map_map]
    rfl

theorem findIdx?_some_lt {α : Type} {l : List α} {P : α → Bool} {j : Nat}
    (h : l.findIdx? P = some j) : j < l.length := by
  induction l generalizing j with
  | nil => simp [List.findIdx?] at h
  | cons x xs ih =>
    rw [findIdx?_cons_eq] at h
    by_cases hp : P x = true
    · rw [if_pos hp] at h
      have hj : j = 0 := (Option.some.inj h).symm
      rw [hj, List.length_cons]
      omega
    · rw [if_neg hp] at h
      cases hof : xs.findIdx? P with
      | none =>
        rw [hof] at h
        simp at h
      | some j2 =>
        rw [hof] at h
        have hj : j2 + 1 = j := Option.some.inj h
        have := ih hof
        rw [List.length_cons]
        omega

theorem mem_eraseIdx {α : Type} {l : List α} {j : Nat} {a : α}
    (h : a ∈ l.eraseIdx j) : a ∈ l := by
  induction l generalizing j with
  | nil => simp [List.eraseIdx] at h
  | cons x xs ih =>
    cases j with
    | zero => exact List.mem_cons_of_mem x h
    | succ j2 =>
      rw [List.eraseIdx_cons_succ] at h
      rcases List.mem_cons.mp h with rfl | h2
      · exact List.mem_cons_self _ _
      · exact List.mem_cons_of_mem x (ih h2)

theorem pairImage_mkPair {β : Type} [LinearOrder β] (g : Nat → β) (a b : Nat) :
    pairImage g (mkPair a b) = mkPair (g a) (g b) := by
  unfold pairImage
  by_cases h : a ≤ b
  · have e : mkPair a b = (a, b) := by
      unfold mkPair
      rw [if_pos h]
    rw [e]
  · have e : mkPair a b = (b, a) := by
      unfold mkPair
      rw [if_neg h]
    rw [e]
    exact mkPair_comm (g b) (g a)

theorem mkPair_le {α : Type} [LinearOrder α] (a b : α) :
    (mkPair a b).1 ≤ (mkPair a b).2 := by
  unfold mkPair
  split_ifs with h
  · exact h
  · exact le_of_not_le h

theorem beq_g {β : Type} [LinearOrder β] {g : Nat → β}
    (hinj : ∀ i j, i ≤ 6 → j ≤ 6 → g i = g j → i = j)
    {i j : Nat} (hi : i ≤ 6) (hj : j ≤ 6) : (g i == g j) = (i == j) := by
  by_cases h : i = j
  · rw [h]
    simp
  · have hg : g i ≠ g j := fun hc => h (hinj i j hi hj hc)
    rw [beq_eq_false_iff_ne.mpr hg, beq_eq_false_iff_ne.mpr h]

theorem pairImage_inj {β : Type} [LinearOrder β] {g : Nat → β}
    (hinj : ∀ i j, i ≤ 6 → j ≤ 6 → g i = g j → i = j)
    {p q : Nat × Nat} (hp : PGood p) (hq : PGood q)
    (h : pairImage g p = pairImage g q) : p = q := by
  obtain ⟨hp1, hp2⟩ := hp
  obtain ⟨hq1, hq2⟩ := hq
  unfold pairImage at h
  rcases mkPair_eq_mkPair.mp h with ⟨h1, h2⟩ | ⟨h1, h2⟩
  · have e1 : p.1 = q.1 := hinj _ _ (by omega) (by omega) h1
    have e2 : p.2 = q.2 := hinj _ _ (by omega) (by omega) h2
    exact Prod.ext e1 e2
  · have e1 : p.1 = q.2 := hinj _ _ (by omega) (by omega) h1
    have e2 : p.2 = q.1 := hinj _ _ (by omega) (by omega) h2
    have e3 : p.1 = q.1 := by omega
    have e4 : p.2 = q.2 := by omega
    exact Prod.ext e3 e4

theorem pairDisjoint_swap_left {α : Type} [DecidableEq α] (a b : α) (q : α × α) :
    pairDisjoint (a, b) q = pairDisjoint (b, a) q := by
  unfold pairDisjoint
  exact Bool.and_comm _ _

theorem pairDisjoint_swap_right {α : Type} [DecidableEq α] (p : α × α) (c d : α) :
    pairDisjoint p (c, d) = pairDisjoint p (d, c) := by
  unfold pairDisjoint
  rw [Bool.or_comm (p.1 == c), Bool.or_comm (p.2 == c)]

theorem pairDisjoint_g {β : Type} [LinearOrder β] {g : Nat → β}
    (hinj : ∀ i j, i ≤ 6 → j ≤ 6 → g i = g j → i = j)
    {a b c d : Nat} (ha : a ≤ 6) (hb : b ≤ 6) (hc : c ≤ 6) (hd : d ≤ 6) :
    pairDisjoint (g a, g b) (g c, g d) = pairDisjoint (a, b) (c, d) := by
  unfold pairDisjoint
  rw [beq_g hinj ha hc, beq_g hinj ha hd, beq_g hinj hb hc, beq_g hinj hb hd]

theorem pairImage_cases {β : Type} [LinearOrder β] (g : Nat → β) (p : Nat × Nat) :
    pairImage g p = (g p.1, g p.2) ∨ pairImage g p = (g p.2, g p.1) := by
  unfold pairImage mkPair
  split_ifs
  · exact Or.inl rfl
  · exact Or.inr rfl

theorem pairDisjoint_image {β : Type} [LinearOrder β] {g : Nat → β}
    (hinj : ∀ i j, i ≤ 6 → j ≤ 6 → g i = g j → i = j)
    {p q : Nat × Nat} (hp : PGood p) (hq : PGood q) :
    pairDisjoint (pairImage g p) (pairImage g q) = pairDisjoint p q := by
  obtain ⟨hp1, hp2⟩ := hp
  obtain ⟨hq1, hq2⟩ := hq
  have hgd : pairDisjoint ((g p.1, g p.2) : β × β) (g q.1, g q.2) =
      pairDisjoint p q := by
    have := pairDisjoint_g hinj (show p.1 ≤ 6 by omega) (show p.2 ≤ 6 by omega)
      (show q.1 ≤ 6 by omega) (show q.2 ≤ 6 by omega)
    exact this
  rcases pairImage_cases g p with he | he <;>
    rcases pairImage_cases g q with he2 | he2 <;> rw [he, he2]
  · exact hgd
  · rw [pairDisjoint_swap_right]
    exact hgd
  · rw [pairDisjoint_swap_left]
    exact hgd
  · rw [pairDisjoint_swap_left, pairDisjoint_swap_right]
    exact hgd

theorem roundPairs_image {β : Type} [LinearOrder β] {g : Nat → β}
    (hinj : ∀ i j, i ≤ 6 → j ≤ 6 → g i = g j → i = j)
    (arr : List Nat) (harr : ∀ v ∈ arr, v ≤ 6) :
    roundPairs (g 6) (arr.map g) = (roundPairs 6 arr).map (pairImage g) := by
  unfold roundPairs
  rw [List.length_map, List.map_filterMap]
  apply filterMap_congr_mem
  intro i hi
  have hi2 : i < arr.length := by
    have := List.mem_range.mp hi
    omega
  have hi3 : arr.length - 1 - i < arr.length := by omega
  have ha : (arr.map g).getD i (g 6) = g (arr.getD i 6) := getD_map g arr 6 i
  have hb : (arr.map g).getD (arr.length - 1 - i) (g 6) =
      g (arr.getD (arr.length - 1 - i) 6) := getD_map g arr 6 _
  dsimp only
  rw [ha, hb]
  have hma : arr.getD i 6 ≤ 6 := harr _ (getD_mem_of_lt arr 6 i hi2)
  have hmb : arr.getD (arr.length - 1 - i) 6 ≤ 6 :=
    harr _ (getD_mem_of_lt arr 6 _ hi3)
  have hiff : (g (arr.getD i 6) = g 6 ∨ g (arr.getD (arr.length - 1 - i) 6) = g 6)
      ↔ (arr.getD i 6 = 6 ∨ arr.getD (arr.length - 1 - i) 6 = 6) := by
    constructor
    · intro h
      rcases h with h | h
      · exact Or.inl (hinj _ _ hma (by omega) h)
      · exact Or.inr (hinj _ _ hmb (by omega) h)
    · intro h
      rcases h with h | h
      · exact Or.inl (congrArg g h)
      · exact Or.inr (congrArg g h)
  rw [if_congr hiff rfl rfl]
  by_cases hcond : arr.getD i 6 = 6 ∨ arr.getD (arr.length - 1 - i) 6 = 6
  · rw [if_pos hcond, if_pos hcond]
    rfl
  · rw [if_neg hcond, if_neg hcond]
    show some (mkPair (g (arr.getD i 6)) (g (arr.getD (arr.length - 1 - i) 6))) =
      some (pairImage g (mkPair (arr.getD i 6) (arr.getD (arr.length - 1 - i) 6)))
    rw [pairImage_mkPair]

theorem roundsAux_image {β : Type} [LinearOrder β] {g : Nat → β}
    (hinj : ∀ i j, i ≤ 6 → j ≤ 6 → g i = g j → i = j)
    (c : Nat) (arr : List Nat) (harr : ∀ v ∈ arr, v ≤ 6) :
    roundsAux (g 6) c (arr.map g) =
      (roundsAux 6 c arr).map (List.map (pairImage g)) := by
  induction c generalizing arr with
  | zero => rfl
  | succ c ih =>
    unfold roundsAux
    rw [roundPairs_image hinj arr harr, rotateArr_map, List.map_cons,
      ih (rotateArr arr) (fun v hv => harr v (mem_rotateArr hv))]

theorem roundRobinPairings_image {β : Type} [LinearOrder β] {g : Nat → β}
    (hinj : ∀ i j, i ≤ 6 → j ≤ 6 → g i = g j → i = j)
    (l : List Nat) (heven : l.length % 2 = 0) (hl : ∀ v ∈ l, v ≤ 6) :
    roundRobinPairings (g 6) (l.map g) =
      (roundRobinPairings 6 l).map (List.map (pairImage g)) := by
  unfold roundRobinPairings
  dsimp only
  rw [List.length_map, if_neg (by omega), if_neg (by omega), List.length_map]
  exact roundsAux_image hinj (l.length - 1) l hl

theorem collectRounds_image {β : Type} [LinearOrder β] (g : Nat → β)
    (n : Nat) (rounds : List (List (Nat × Nat))) :
    collectRounds n (rounds.map (List.map (pairImage g))) =
      (collectRounds n rounds).map
        (fun acc => (acc.1.map (matchImage g), acc.2.map (pairImage g))) := by
  induction rounds with
  | nil => rfl
  | cons r rest ih =>
    rw [List.map_cons]
    unfold collectRounds
    by_cases hn : n = 4 ∨ n = 5
    · rw [if_pos hn, if_pos hn]
      match r with
      | [] => rfl
      | [p] => rfl
      | [p, q] =>
        show ((collectRounds n (rest.map (List.map (pairImage g)))).map _) = _
        rw [ih]
        cases hc : collectRounds n rest with
        | error e => rfl
        | ok acc => rfl
      | p :: q :: s :: tl =>
        show Except.error (SchedErr.unexpectedRoundSize
            ((List.map (pairImage g) (p :: q :: s :: tl)).length)) = _
        rw [List.length_map]
        rfl
    · rw [if_neg hn, if_neg hn]
      match r with
      | [] => rfl
      | [p] => rfl
      | [p, q] =>
        show Except.error (SchedErr.unexpectedRoundSize
            ((List.map (pairImage g) [p, q]).length)) = _
        rw [List.length_map]
        rfl
      | [p, q, s] =>
        show ((collectRounds n (rest.map (List.map (pairImage g)))).map _) = _
        rw [ih]
        cases hc : collectRounds n rest with
        | error e => rfl
        | ok acc => rfl
      | p :: q :: s :: w :: tl =>
        show Except.error (SchedErr.unexpectedRoundSize
            ((List.map (pairImage g) (p :: q :: s :: w :: tl)).length)) = _
        rw [List.length_map]
        rfl

theorem roundPairs_good (arr : List Nat) (harr : ∀ v ∈ arr, v ≤ 6) :
    ∀ p ∈ roundPairs 6 arr, PGood p := by
  intro p hp
  unfold roundPairs at hp
  obtain ⟨i, hi, hF⟩ := List.mem_filterMap.mp hp
  dsimp only at hF
  split at hF
  · exact absurd hF (by simp)
  · have hp2 := Option.some.inj hF
    rw [← hp2]
    have hi2 : i < arr.length := by
      have := List.mem_range.mp hi
      omega
    have hma : arr.getD i 6 ≤ 6 := harr _ (getD_mem_of_lt arr 6 i hi2)
    have hmb : arr.getD (arr.length - 1 - i) 6 ≤ 6 :=
      harr _ (getD_mem_of_lt arr 6 _ (by omega))
    constructor
    · exact mkPair_le _ _
    · rcases mkPair_mem_right (arr.getD i 6) (arr.getD (arr.length - 1 - i) 6)
        with h | h <;> rw [h] <;> omega

theorem roundsAux_good (c : Nat) (arr : List Nat) (harr : ∀ v ∈ arr, v ≤ 6) :
    ∀ r ∈ roundsAux 6 c arr, ∀ p ∈ r, PGood p := by
  induction c generalizing arr with
  | zero =>
    intro r hr
    exact absurd hr (List.not_mem_nil r)
  | succ c ih =>
    intro r hr
    unfold roundsAux at hr
    rcases List.mem_cons.mp hr with rfl | hr2
    · exact roundPairs_good arr harr
    · exact ih (rotateArr arr) (fun v hv => harr v (mem_rotateArr hv)) r hr2

theorem collectRounds_good {n : Nat} {rounds : List (List (Nat × Nat))}
    {ms : List (Match2v2 Nat)} {lefts : List (Nat × Nat)}
    (hall : ∀ r ∈ rounds, ∀ p ∈ r, PGood p)
    (h : collectRounds n rounds = .ok (ms, lefts)) :
    (∀ m ∈ ms, MGood m) ∧ (∀ p ∈ lefts, PGood p) := by
  induction rounds generalizing ms lefts with
  | nil =>
    unfold collectRounds at h
    have h2 : (([], []) : List (Match2v2 Nat) × List (Nat × Nat)) = (ms, lefts) :=
      Option.some.inj (congrArg Except.toOption h)
    have hms : ms = [] := (congrArg Prod.fst h2).symm
    have hlf : lefts = [] := (congrArg Prod.snd h2).symm
    rw [hms, hlf]
    exact ⟨fun m hm => absurd hm (List.not_mem_nil m),
      fun p hp => absurd hp (List.not_mem_nil p)⟩
  | cons r rest ih =>
    have hr := hall r (List.mem_cons_self r rest)
    have hrest : ∀ r2 ∈ rest, ∀ p ∈ r2, PGood p :=
      fun r2 h2 => hall r2 (List.mem_cons_of_mem r h2)
    unfold collectRounds at h
    split at h
    · match r, h with
      | [p, q], h =>
        cases hc : collectRounds n rest with
        | error e =>
          rw [hc] at h
          exact absurd h (by simp [Except.map])
        | ok acc =>
          rw [hc] at h
          have h2 : ((p, q) :: acc.1, acc.2) = (ms, lefts) :=
            Option.some.inj (congrArg Except.toOption h)
          obtain ⟨ihm, ihl⟩ := ih hrest (hc.trans (congrArg Except.ok rfl))
          have hms : ms = (p, q) :: acc.1 := (congrArg Prod.fst h2).symm
          have hlf : lefts = acc.2 := (congrArg Prod.snd h2).symm
          rw [hms, hlf]
          refine ⟨?_, ihl⟩
          intro m hm
          rcases List.mem_cons.mp hm with rfl | hm2
          · exact ⟨hr p (by simp), hr q (by simp)⟩
          · exact ihm m hm2
    · match r, h with
      | [p, q, s], h =>
        cases hc : collectRounds n rest with
        | error e =>
          rw [hc] at h
          exact absurd h (by simp [Except.map])
        | ok acc =>
          rw [hc] at h
          have h2 : ((p, q) :: acc.1, s :: acc.2) = (ms, lefts) :=
            Option.some.inj (congrArg Except.toOption h)
          obtain ⟨ihm, ihl⟩ := ih hrest (hc.trans (congrArg Except.ok rfl))
          have hms : ms = (p, q) :: acc.1 := (congrArg Prod.fst h2).symm
          have hlf : lefts = s :: acc.2 := (congrArg Prod.snd h2).symm
          rw [hms, hlf]
          constructor
          · intro m hm
            rcases List.mem_cons.mp hm with rfl | hm2
            · exact ⟨hr p (by simp), hr q (by simp)⟩
            · exact ihm m hm2
          · intro p2 hp2
            rcases List.mem_cons.mp hp2 with rfl | hp3
            · exact hr p2 (by simp)
            · exact ihl p2 hp3

theorem pairLeftovers_image {β : Type} [LinearOrder β] {g : Nat → β}
    (hinj : ∀ i j, i ≤ 6 → j ≤ 6 → g i = g j → i = j)
    (fuel : Nat) (pending : List (Nat × Nat)) (extra : List (Match2v2 Nat))
    (hpend : ∀ p ∈ pending, PGood p) :
    pairLeftovers fuel (pending.map (pairImage g)) (extra.map (matchImage g)) =
      ((pairLeftovers fuel pending extra).1.map (pairImage g),
       (pairLeftovers fuel pending extra).2.map (matchImage g)) := by
  induction fuel generalizing pending extra with
  | zero => rfl
  | succ fuel ih =>
    match pending, hpend with
    | [], _ => rfl
    | [p], _ => rfl
    | p :: q :: rest, hpend =>
      have hgp : PGood p := hpend p (by simp)
      have hgq : PGood q := hpend q (by simp)
      have hgrest : ∀ x ∈ q :: rest, PGood x :=
        fun x hx => hpend x (List.mem_cons_of_mem p hx)
      unfold pairLeftovers
      dsimp only [List.map_cons]
      have hfind : List.findIdx? (fun q2 => pairDisjoint (pairImage g p) q2)
          (pairImage g q :: rest.map (pairImage g)) =
          List.findIdx? (fun q2 => pairDisjoint p q2) (q :: rest) := by
        rw [show (pairImage g q :: rest.map (pairImage g)) =
          (q :: rest).map (pairImage g) from rfl]
        apply findIdx?_congr_map
        intro x hx
        exact pairDisjoint_image hinj hgp (hgrest x hx)
      rw [hfind]
      cases hfi : List.findIdx? (fun q2 => pairDisjoint p q2) (q :: rest) with
      | some j =>
        dsimp only
        have hj : j < (q :: rest).length := findIdx?_some_lt hfi
        have e1 : (pairImage g q :: rest.map (pairImage g)).eraseIdx j =
            ((q :: rest).eraseIdx j).map (pairImage g) := by
          rw [show (pairImage g q :: rest.map (pairImage g)) =
            (q :: rest).map (pairImage g) from rfl]
          exact eraseIdx_map (pairImage g) (q :: rest) j
        have e2 : (pairImage g q :: rest.map (pairImage g)).getD j (pairImage g p) =
            pairImage g ((q :: rest).getD j p) := by
          rw [show (pairImage g q :: rest.map (pairImage g)) =
            (q :: rest).map (pairImage g) from rfl]
          exact getD_map (pairImage g) (q :: rest) p j
        rw [e1, e2]
        have e3 : extra.map (matchImage g) ++ [(pairImage g p,
            pairImage g ((q :: rest).getD j p))] =
            (extra ++ [(p, (q :: rest).getD j p)]).map (matchImage g) := by
          rw [List.map_append]
          rfl
        rw [e3]
        exact ih ((q :: rest).eraseIdx j) (extra ++ [(p, (q :: rest).getD j p)])
          (fun x hx => hpend x (List.mem_cons_of_mem p (mem_eraseIdx hx)))
      | none =>
        dsimp only
        show (if ((List.map (pairImage g) rest ++ [pairImage g p]).all
              (fun q2 => !pairDisjoint (pairImage g q) q2)) = true then
            (pairImage g q :: List.map (pairImage g) rest ++ [pairImage g p],
              List.map (matchImage g) extra)
          else pairLeftovers fuel
            (pairImage g q :: List.map (pairImage g) rest ++ [pairImage g p])
            (List.map (matchImage g) extra)) =
          (List.map (pairImage g)
              (if ((rest ++ [p]).all (fun q2 => !pairDisjoint q q2)) = true
                then (q :: rest ++ [p], extra)
                else pairLeftovers fuel (q :: rest ++ [p]) extra).1,
            List.map (matchImage g)
              (if ((rest ++ [p]).all (fun q2 => !pairDisjoint q q2)) = true
                then (q :: rest ++ [p], extra)
                else pairLeftovers fuel (q :: rest ++ [p]) extra).2)
        have hfuse : (List.map (pairImage g) rest ++ [pairImage g p]) =
            (rest ++ [p]).map (pairImage g) := by
          rw [List.map_append]
          rfl
        rw [hfuse]
        have hgood2 : ∀ x ∈ q :: (rest ++ [p]), PGood x := by
          intro x hx
          rcases List.mem_cons.mp hx with rfl | hx2
          · exact hgq
          · rcases List.mem_append.mp hx2 with h3 | h3
            · exact hpend x (List.mem_cons_of_mem p (List.mem_cons_of_mem q h3))
            · rcases List.mem_cons.mp h3 with rfl | h4
              · exact hgp
              · exact absurd h4 (List.not_mem_nil x)
        have hall : ((rest ++ [p]).map (pairImage g)).all
            (fun q2 => !pairDisjoint (pairImage g q) q2) =
            (rest ++ [p]).all (fun q2 => !pairDisjoint q q2) := by
          apply all_congr_map
          intro x hx
          rw [pairDisjoint_image hinj hgq
            (hgood2 x (List.mem_cons_of_mem q hx))]
        rw [hall]
        by_cases hb : (rest ++ [p]).all (fun q2 => !pairDisjoint q q2) = true
        · rw [if_pos hb, if_pos hb]
          dsimp only
          rw [List.map_append]
          rfl
        · rw [if_neg hb, if_neg hb]
          have := ih (q :: (rest ++ [p])) extra hgood2
          rw [List.map_cons, List.map_append] at this
          exact this

theorem pairLeftovers_pending_sub {α : Type} [DecidableEq α]
    (fuel : Nat) (pending : List (α × α)) (extra : List (Match2v2 α)) :
    ∀ s ∈ (pairLeftovers fuel pending extra).1, s ∈ pending := by
  induction fuel generalizing pending extra with
  | zero =>
    intro s hs
    exact hs
  | succ fuel ih =>
    match pending with
    | [] =>
      intro s hs
      exact hs
    | [p] =>
      intro s hs
      exact hs
    | p :: q :: rest =>
      intro s hs
      unfold pairLeftovers at hs
      dsimp only at hs
      cases hfi : List.findIdx? (fun q2 => pairDisjoint p q2) (q :: rest) with
      | some j =>
        rw [hfi] at hs
        dsimp only at hs
        have := ih ((q :: rest).eraseIdx j) _ s hs
        exact List.mem_cons_of_mem p (mem_eraseIdx this)
      | none =>
        rw [hfi] at hs
        dsimp only at hs
        have hmem : ∀ x ∈ q :: (rest ++ [p]), x ∈ p :: q :: rest := by
          intro x hx
          rcases List.mem_cons.mp hx with rfl | hx2
          · simp
          · rcases List.mem_append.mp hx2 with h3 | h3
            · simp [h3]
            · rcases List.mem_cons.mp h3 with rfl | h4
              · simp
              · exact absurd h4 (List.not_mem_nil x)
        split at hs
        · exact absurd hs (List.not_mem_nil s)
        · split at hs
          · exact hmem s hs
          · exact hmem s (ih (q :: (rest ++ [p])) extra s hs)

theorem pairLeftovers_extra_good {fuel : Nat} {pending : List (Nat × Nat)}
    {extra : List (Match2v2 Nat)}
    (hpend : ∀ p ∈ pending, PGood p) (hextra : ∀ m ∈ extra, MGood m) :
    ∀ m ∈ (pairLeftovers fuel pending extra).2, MGood m := by
  induction fuel generalizing pending extra with
  | zero =>
    intro m hm
    exact hextra m hm
  | succ fuel ih =>
    match pending, hpend with
    | [], _ =>
      intro m hm
      exact hextra m hm
    | [p], _ =>
      intro m hm
      exact hextra m hm
    | p :: q :: rest, hpend =>
      intro m hm
      unfold pairLeftovers at hm
      dsimp only at hm
      cases hfi : List.findIdx? (fun q2 => pairDisjoint p q2) (q :: rest) with
      | some j =>
        rw [hfi] at hm
        dsimp only at hm
        refine ih (fun x hx => hpend x (List.mem_cons_of_mem p (mem_eraseIdx hx)))
          ?_ m hm
        intro m2 hm2
        rcases List.mem_append.mp hm2 with h3 | h3
        · exact hextra m2 h3
        · rcases List.mem_cons.mp h3 with rfl | h4
          · refine ⟨hpend p (by simp), ?_⟩
            have hj : j < (q :: rest).length := findIdx?_some_lt hfi
            exact hpend _ (List.mem_cons_of_mem p
              (getD_mem_of_lt (q :: rest) p j hj))
          · exact absurd h4 (List.not_mem_nil m2)
      | none =>
        rw [hfi] at hm
        dsimp only at hm
        have hgood2 : ∀ x ∈ q :: (rest ++ [p]), PGood x := by
          intro x hx
          rcases List.mem_cons.mp hx with rfl | hx2
          · exact hpend x (by simp)
          · rcases List.mem_append.mp hx2 with h3 | h3
            · exact hpend x (List.mem_cons_of_mem p (List.mem_cons_of_mem q h3))
            · rcases List.mem_cons.mp h3 with rfl | h4
              · exact hpend x (by simp)
              · exact absurd h4 (List.not_mem_nil x)
        split at hm
        · exact hextra m hm
        · split at hm
          · exact hextra m hm
          · exact ih hgood2 hextra m hm

theorem sidesList_map {β : Type} [LinearOrder β] (g : Nat → β)
    (ms : List (Match2v2 Nat)) :
    sidesList (ms.map (matchImage g)) = (sidesList ms).map (pairImage g) := by
  induction ms with
  | nil => rfl
  | cons m rest ih =>
    show pairImage g m.1 :: pairImage g m.2 :: sidesList (rest.map (matchImage g)) = _
    rw [ih]
    rfl

theorem sidesList_good {ms : List (Match2v2 Nat)} (h : ∀ m ∈ ms, MGood m) :
    ∀ s ∈ sidesList ms, PGood s := by
  induction ms with
  | nil =>
    intro s hs
    exact absurd hs (List.not_mem_nil s)
  | cons m rest ih =>
    intro s hs
    rcases List.mem_cons.mp hs with rfl | hs2
    · exact (h m (by simp)).1
    · rcases List.mem_cons.mp hs2 with rfl | hs3
      · exact (h m (by simp)).2
      · exact ih (fun m2 h2 => h m2 (List.mem_cons_of_mem m h2)) s hs3

theorem count_pairImage {β : Type} [LinearOrder β] {g : Nat → β}
    (hinj : ∀ i j, i ≤ 6 → j ≤ 6 → g i = g j → i = j)
    {l : List (Nat × Nat)} {p : Nat × Nat}
    (hl : ∀ x ∈ l, PGood x) (hp : PGood p) :
    (l.map (pairImage g)).count (pairImage g p) = l.count p := by
  induction l with
  | nil => rfl
  | cons x xs ih =>
    rw [List.map_cons, List.count_cons, List.count_cons,
      ih (fun y hy => hl y (List.mem_cons_of_mem x hy))]
    by_cases hxp : x = p
    · rw [hxp]
      simp
    · have hgi : pairImage g x ≠ pairImage g p :=
        fun hc => hxp (pairImage_inj hinj (hl x (by simp)) hp hc)
      rw [beq_eq_false_iff_ne.mpr hgi, beq_eq_false_iff_ne.mpr hxp]

theorem teammateCount_image {β : Type} [LinearOrder β] {g : Nat → β}
    (hinj : ∀ i j, i ≤ 6 → j ≤ 6 → g i = g j → i = j)
    {ms : List (Match2v2 Nat)} {p : Nat × Nat}
    (hms : ∀ m ∈ ms, MGood m) (hp : PGood p) :
    teammateCount (ms.map (matchImage g)) (pairImage g p) = teammateCount ms p := by
  unfold teammateCount
  rw [sidesList_map]
  exact count_pairImage hinj (sidesList_good hms) hp

theorem oppPairs_perm {β : Type} [LinearOrder β] (g : Nat → β)
    (m : Match2v2 Nat) :
    (oppPairsOfMatch (matchImage g m)).Perm
      ((oppPairsOfMatch m).map (pairImage g)) := by
  obtain ⟨⟨a1, a2⟩, ⟨b1, b2⟩⟩ := m
  have hrhs : (oppPairsOfMatch (((a1, a2), (b1, b2)) : Match2v2 Nat)).map
      (pairImage g) =
      [mkPair (g a1) (g b1), mkPair (g a1) (g b2),
       mkPair (g a2) (g b1), mkPair (g a2) (g b2)] := by
    unfold oppPairsOfMatch
    simp only [List.map_cons, List.map_nil, pairImage_mkPair]
  rw [hrhs]
  show (oppPairsOfMatch (pairImage g (a1, a2), pairImage g (b1, b2))).Perm _
  rcases pairImage_cases g (a1, a2) with he | he <;>
    rcases pairImage_cases g (b1, b2) with he2 | he2 <;> rw [he, he2] <;>
    unfold oppPairsOfMatch <;> dsimp only
  · exact List.Perm.refl _
  · refine (List.Perm.swap _ _ _).trans ?_
    exact List.Perm.cons _ (List.Perm.cons _ (List.Perm.swap _ _ _))
  · show ([mkPair (g a2) (g b1), mkPair (g a2) (g b2)] ++
        [mkPair (g a1) (g b1), mkPair (g a1) (g b2)]).Perm
      ([mkPair (g a1) (g b1), mkPair (g a1) (g b2)] ++
        [mkPair (g a2) (g b1), mkPair (g a2) (g b2)])
    exact List.perm_append_comm
  · have hblock : ([mkPair (g a2) (g b1), mkPair (g a2) (g b2)] ++
        [mkPair (g a1) (g b1), mkPair (g a1) (g b2)]).Perm
      ([mkPair (g a1) (g b1), mkPair (g a1) (g b2)] ++
        [mkPair (g a2) (g b1), mkPair (g a2) (g b2)]) := List.perm_append_comm
    refine List.Perm.trans ?_ hblock
    refine (List.Perm.swap _ _ _).trans ?_
    exact List.Perm.cons _ (List.Perm.cons _ (List.Perm.swap _ _ _))

theorem oppList_perm {β : Type} [LinearOrder β] (g : Nat → β)
    (ms : List (Match2v2 Nat)) :
    (oppList (ms.map (matchImage g))).Perm ((oppList ms).map (pairImage g)) := by
  induction ms with
  | nil => exact List.Perm.refl _
  | cons m rest ih =>
    show (oppPairsOfMatch (matchImage g m) ++ oppList (rest.map (matchImage g))).Perm
      ((oppPairsOfMatch m ++ oppList rest).map (pairImage g))
    rw [List.map_append]
    exact List.Perm.append (oppPairs_perm g m) ih

theorem oppPairs_good {m : Match2v2 Nat} (hm : MGood m) :
    ∀ p ∈ oppPairsOfMatch m, PGood p := by
  obtain ⟨⟨h11, h12⟩, ⟨h21, h22⟩⟩ := hm
  intro p hp
  unfold oppPairsOfMatch at hp
  have hb : ∀ a b : Nat, a ≤ 6 → b ≤ 6 → PGood (mkPair a b) := by
    intro a b ha hb2
    refine ⟨mkPair_le a b, ?_⟩
    rcases mkPair_mem_right a b with h | h <;> rw [h] <;> omega
  rcases List.mem_cons.mp hp with rfl | hp2
  · exact hb _ _ (by omega) (by omega)
  · rcases List.mem_cons.mp hp2 with rfl | hp3
    · exact hb _ _ (by omega) (by omega)
    · rcases List.mem_cons.mp hp3 with rfl | hp4
      · exact hb _ _ (by omega) (by omega)
      · rcases List.mem_cons.mp hp4 with rfl | hp5
        · exact hb _ _ (by omega) (by omega)
        · exact absurd hp5 (List.not_mem_nil p)

theorem oppList_good {ms : List (Match2v2 Nat)} (hms : ∀ m ∈ ms, MGood m) :
    ∀ p ∈ oppList ms, PGood p := by
  induction ms with
  | nil =>
    intro p hp
    exact absurd hp (List.not_mem_nil p)
  | cons m rest ih =>
    intro p hp
    rcases List.mem_append.mp hp with h1 | h1
    · exact oppPairs_good (hms m (by simp)) p h1
    · exact ih (fun m2 h2 => hms m2 (List.mem_cons_of_mem m h2)) p h1

/-- Counting with the product BEq instance agrees with the decidable-equality instance. -/
theorem count_prod_irrel {β : Type} [DecidableEq β] (p : β × β) (l : List (β × β)) :
    @List.count (β × β) instBEqProd p l =
      @List.count (β × β) instBEqOfDecidableEq p l := by
  unfold List.count
  apply List.countP_congr
  intro q _
  show (@BEq.beq _ instBEqProd q p = true) ↔ (@BEq.beq _ instBEqOfDecidableEq q p = true)
  show (q.1 == p.1 && q.2 == p.2) = true ↔ decide (q = p) = true
  simp [Prod.ext_iff]

theorem opponentCount_image {β : Type} [LinearOrder β] {g : Nat → β}
    (hinj : ∀ i j, i ≤ 6 → j ≤ 6 → g i = g j → i = j)
    {ms : List (Match2v2 Nat)} {p : Nat × Nat}
    (hms : ∀ m ∈ ms, MGood m) (hp : PGood p) :
    opponentCount (ms.map (matchImage g)) (pairImage g p) = opponentCount ms p := by
  unfold opponentCount
  calc (oppList (ms.map (matchImage g))).count (pairImage g p)
      = @List.count (β × β) instBEqOfDecidableEq (pairImage g p)
        (oppList (ms.map (matchImage g))) := count_prod_irrel _ _
    _ = @List.count (β × β) instBEqOfDecidableEq (pairImage g p)
        ((oppList ms).map (pairImage g)) :=
        List.Perm.count_eq (oppList_perm g ms) _
    _ = ((oppList ms).map (pairImage g)).count (pairImage g p) :=
        (count_prod_irrel _ _).symm
    _ = (oppList ms).count p := count_pairImage hinj (oppList_good hms) hp

theorem playersInMatch_perm {β : Type} [LinearOrder β] (g : Nat → β)
    (m : Match2v2 Nat) :
    (playersInMatch (matchImage g m)).Perm ((playersInMatch m).map g) := by
  obtain ⟨⟨a1, a2⟩, ⟨b1, b2⟩⟩ := m
  show (playersInMatch (pairImage g (a1, a2), pairImage g (b1, b2))).Perm
    [g a1, g a2, g b1, g b2]
  rcases pairImage_cases g (a1, a2) with he | he <;>
    rcases pairImage_cases g (b1, b2) with he2 | he2 <;> rw [he, he2] <;>
    unfold playersInMatch <;> dsimp only
  · exact List.Perm.refl _
  · exact List.Perm.cons _ (List.Perm.cons _ (List.Perm.swap _ _ _))
  · exact List.Perm.swap _ _ _
  · exact (List.Perm.swap _ _ _).trans
      (List.Perm.cons _ (List.Perm.cons _ (List.Perm.swap _ _ _)))

theorem playerSlots_perm {β : Type} [LinearOrder β] (g : Nat → β)
    (ms : List (Match2v2 Nat)) :
    (playerSlots (ms.map (matchImage g))).Perm ((playerSlots ms).map g) := by
  induction ms with
  | nil => exact List.Perm.refl _
  | cons m rest ih =>
    show (playersInMatch (matchImage g m) ++ playerSlots (rest.map (matchImage g))).Perm
      ((playersInMatch m ++ playerSlots rest).map g)
    rw [List.map_append]
    exact List.Perm.append (playersInMatch_perm g m) ih

theorem playersInMatch_good {m : Match2v2 Nat} (hm : MGood m) :
    ∀ x ∈ playersInMatch m, x ≤ 6 := by
  obtain ⟨⟨h11, h12⟩, ⟨h21, h22⟩⟩ := hm
  intro x hx
  unfold playersInMatch at hx
  rcases List.mem_cons.mp hx with rfl | h1
  · omega
  · rcases List.mem_cons.mp h1 with rfl | h2
    · omega
    · rcases List.mem_cons.mp h2 with rfl | h3
      · omega
      · rcases List.mem_cons.mp h3 with rfl | h4
        · omega
        · exact absurd h4 (List.not_mem_nil x)

theorem playerSlots_good {ms : List (Match2v2 Nat)} (hms : ∀ m ∈ ms, MGood m) :
    ∀ x ∈ playerSlots ms, x ≤ 6 := by
  induction ms with
  | nil =>
    intro x hx
    exact absurd hx (List.not_mem_nil x)
  | cons m rest ih =>
    intro x hx
    rcases List.mem_append.mp hx with h1 | h1
    · exact playersInMatch_good (hms m (by simp)) x h1
    · exact ih (fun m2 h2 => hms m2 (List.mem_cons_of_mem m h2)) x h1

theorem count_g {β : Type} [LinearOrder β] {g : Nat → β}
    (hinj : ∀ i j, i ≤ 6 → j ≤ 6 → g i = g j → i = j)
    {l : List Nat} {i : Nat} (hl : ∀ x ∈ l, x ≤ 6) (hi : i ≤ 6) :
    (l.map g).count (g i) = l.count i := by
  induction l with
  | nil => rfl
  | cons x xs ih =>
    rw [List.map_cons, List.count_cons, List.count_cons,
      ih (fun y hy => hl y (List.mem_cons_of_mem x hy))]
    by_cases hxp : x = i
    · rw [hxp]
      simp
    · have hgi : g x ≠ g i := fun hc => hxp (hinj x i (hl x (by simp)) hi hc)
      rw [beq_eq_false_iff_ne.mpr hgi, beq_eq_false_iff_ne.mpr hxp]

theorem matchCount_image {β : Type} [LinearOrder β] {g : Nat → β}
    (hinj : ∀ i j, i ≤ 6 → j ≤ 6 → g i = g j → i = j)
    {ms : List (Match2v2 Nat)} {i : Nat}
    (hms : ∀ m ∈ ms, MGood m) (hi : i ≤ 6) :
    matchCount (ms.map (matchImage g)) (g i) = matchCount ms i := by
  unfold matchCount
  calc (playerSlots (ms.map (matchImage g))).count (g i)
      = ((playerSlots ms).map g).count (g i) :=
        List.Perm.count_eq (playerSlots_perm g ms) _
    _ = (playerSlots ms).count i := count_g hinj (playerSlots_good hms) hi

theorem allPairs_map {β : Type} [LinearOrder β] (g : Nat → β) (l : List Nat) :
    allPairs (l.map g) = (allPairs l).map (pairImage g) := by
  unfold allPairs
  rw [comb2_map, List.map_map, List.map_map]
  apply List.map_congr_left
  intro p _
  show mkPair (g p.1) (g p.2) = pairImage g (mkPair p.1 p.2)
  rw [pairImage_mkPair]

theorem allPairs_good {l : List Nat} (hl : ∀ x ∈ l, x ≤ 6) :
    ∀ p ∈ allPairs l, PGood p := by
  intro p hp
  unfold allPairs at hp
  obtain ⟨q, hq, rfl⟩ := List.mem_map.mp hp
  obtain ⟨h1, h2⟩ := comb2_mem_comps hq
  refine ⟨mkPair_le _ _, ?_⟩
  have ha : q.1 ≤ 6 := hl _ h1
  have hb : q.2 ≤ 6 := hl _ h2
  rcases mkPair_mem_right q.1 q.2 with h | h <;> rw [h] <;> omega

theorem scoreAddedMatch_image {β : Type} [LinearOrder β] {g : Nat → β}
    (hinj : ∀ i j, i ≤ 6 → j ≤ 6 → g i = g j → i = j)
    {players : List Nat} {base : List (Match2v2 Nat)} {add : Match2v2 Nat}
    (hpl : ∀ x ∈ players, x ≤ 6) (hbase : ∀ m ∈ base, MGood m)
    (hadd : MGood add) :
    scoreAddedMatch (players.map g) (base.map (matchImage g)) (matchImage g add) =
      scoreAddedMatch players base add := by
  have hwith : ∀ m ∈ base ++ [add], MGood m := by
    intro m hm
    rcases List.mem_append.mp hm with h1 | h1
    · exact hbase m h1
    · rcases List.mem_cons.mp h1 with rfl | h2
      · exact hadd
      · exact absurd h2 (List.not_mem_nil m)
  unfold scoreAddedMatch
  dsimp only
  rw [show base.map (matchImage g) ++ [matchImage g add] =
    (base ++ [add]).map (matchImage g) by rw [List.map_append]; rfl]
  rw [show (comb2 (players.map g)).map (fun p => mkPair p.1 p.2) =
    ((comb2 players).map (fun p => mkPair p.1 p.2)).map (pairImage g) from
    allPairs_map g players]
  have hTm : (((comb2 players).map (fun p => mkPair p.1 p.2)).map (pairImage g)).map
      (fun p => teammateCount ((base ++ [add]).map (matchImage g)) p) =
      ((comb2 players).map (fun p => mkPair p.1 p.2)).map
        (fun p => teammateCount (base ++ [add]) p) := by
    rw [List.map_map]
    apply List.map_congr_left
    intro p hp
    show teammateCount ((base ++ [add]).map (matchImage g)) (pairImage g p) = _
    exact teammateCount_image hinj hwith (allPairs_good hpl p hp)
  have hOp : (((comb2 players).map (fun p => mkPair p.1 p.2)).map (pairImage g)).map
      (fun p => opponentCount ((base ++ [add]).map (matchImage g)) p) =
      ((comb2 players).map (fun p => mkPair p.1 p.2)).map
        (fun p => opponentCount (base ++ [add]) p) := by
    rw [List.map_map]
    apply List.map_congr_left
    intro p hp
    show opponentCount ((base ++ [add]).map (matchImage g)) (pairImage g p) = _
    exact opponentCount_image hinj hwith (allPairs_good hpl p hp)
  have hFil : (((comb2 players).map (fun p => mkPair p.1 p.2)).map (pairImage g)).filter
      (fun p => teammateCount ((base ++ [add]).map (matchImage g)) p == 2) =
      (((comb2 players).map (fun p => mkPair p.1 p.2)).filter
        (fun p => teammateCount (base ++ [add]) p == 2)).map (pairImage g) := by
    apply filter_map_congr
    intro p hp
    show (teammateCount ((base ++ [add]).map (matchImage g)) (pairImage g p) == 2) = _
    rw [teammateCount_image hinj hwith (allPairs_good hpl p hp)]
  rw [hTm, hOp, hFil, List.length_map]

theorem minByScore_image {β : Type} [LinearOrder β] {g : Nat → β}
    (hinj : ∀ i j, i ≤ 6 → j ≤ 6 → g i = g j → i = j)
    {players : List Nat} {base : List (Match2v2 Nat)}
    (hpl : ∀ x ∈ players, x ≤ 6) (hbase : ∀ m ∈ base, MGood m) :
    ∀ (cands : List (Match2v2 Nat)) (best : Match2v2 Nat), MGood best →
      (∀ c ∈ cands, MGood c) →
      minByScore (players.map g) (base.map (matchImage g)) (matchImage g best)
          (cands.map (matchImage g)) =
        matchImage g (minByScore players base best cands) := by
  intro cands
  induction cands with
  | nil =>
    intro best _ _
    rfl
  | cons c cs ih =>
    intro best hbest hcs
    rw [List.map_cons]
    unfold minByScore
    rw [scoreAddedMatch_image hinj hpl hbase (hcs c (List.mem_cons_self c cs)),
      scoreAddedMatch_image hinj hpl hbase hbest]
    by_cases hlt : scoreLt (scoreAddedMatch players base c)
      (scoreAddedMatch players base best)
    · rw [if_pos hlt, if_pos hlt]
      exact ih c (hcs c (List.mem_cons_self c cs))
        (fun x hx => hcs x (List.mem_cons_of_mem c hx))
    · rw [if_neg hlt, if_neg hlt]
      exact ih best hbest (fun x hx => hcs x (List.mem_cons_of_mem c hx))

theorem candidateSplitsOf4_map {β : Type} [LinearOrder β] (g : Nat → β)
    (ps : List Nat) :
    candidateSplitsOf4 (ps.map g) = (candidateSplitsOf4 ps).map (matchImage g) := by
  match ps with
  | [] => rfl
  | [a] => rfl
  | [a, b] => rfl
  | [a, b, c] => rfl
  | [a, b, c, d] =>
    show [(mkPair (g a) (g b), mkPair (g c) (g d)),
          (mkPair (g a) (g c), mkPair (g b) (g d)),
          (mkPair (g a) (g d), mkPair (g b) (g c))] =
      [matchImage g (mkPair a b, mkPair c d), matchImage g (mkPair a c, mkPair b d),
       matchImage g (mkPair a d, mkPair b c)]
    unfold matchImage
    dsimp only
    rw [pairImage_mkPair, pairImage_mkPair, pairImage_mkPair, pairImage_mkPair,
      pairImage_mkPair, pairImage_mkPair]
  | a :: b :: c :: d :: e :: tl => rfl

theorem candidateSplitsOf4_good {ps : List Nat} (hps : ∀ x ∈ ps, x ≤ 6) :
    ∀ m ∈ candidateSplitsOf4 ps, MGood m := by
  intro m hm
  unfold candidateSplitsOf4 at hm
  split at hm
  · rename_i a b c d
    have ha : a ≤ 6 := hps a (by simp)
    have hb : b ≤ 6 := hps b (by simp)
    have hc : c ≤ 6 := hps c (by simp)
    have hd : d ≤ 6 := hps d (by simp)
    have hP : ∀ x y : Nat, x ≤ 6 → y ≤ 6 → PGood (mkPair x y) := by
      intro x y hx hy
      refine ⟨mkPair_le _ _, ?_⟩
      rcases mkPair_mem_right x y with h | h <;> rw [h] <;> omega
    rcases List.mem_cons.mp hm with rfl | h1
    · exact ⟨hP a b ha hb, hP c d hc hd⟩
    · rcases List.mem_cons.mp h1 with rfl | h2
      · exact ⟨hP a c ha hc, hP b d hb hd⟩
      · rcases List.mem_cons.mp h2 with rfl | h3
        · exact ⟨hP a d ha hd, hP b c hb hc⟩
        · exact absurd h3 (List.not_mem_nil m)
  · exact absurd hm (List.not_mem_nil m)

theorem add9_image {β : Type} [LinearOrder β] {g : Nat → β}
    (hinj : ∀ i j, i ≤ 6 → j ≤ 6 → g i = g j → i = j)
    {labels : List Nat} {m8 : List (Match2v2 Nat)}
    (hlab : ∀ x ∈ labels, x ≤ 6) (hm8 : ∀ m ∈ m8, MGood m) :
    add_9th_match_balanced (labels.map g) (m8.map (matchImage g)) =
      (add_9th_match_balanced labels m8).map (List.map (matchImage g)) := by
  have hmc : ∀ x ∈ labels, matchCount (m8.map (matchImage g)) (g x) = matchCount m8 x :=
    fun x hx => matchCount_image hinj hm8 (hlab x hx)
  unfold add_9th_match_balanced
  dsimp only
  have hVals : (labels.map g).map (fun p => matchCount (m8.map (matchImage g)) p) =
      labels.map (fun p => matchCount m8 p) := by
    rw [List.map_map]
    apply List.map_congr_left
    intro x hx
    exact hmc x hx
  rw [hVals]
  have hLows : (labels.map g).filter (fun p => matchCount (m8.map (matchImage g)) p ==
      listMinD (labels.map fun p => matchCount m8 p) 0) =
      (labels.filter (fun p => matchCount m8 p ==
        listMinD (labels.map fun p => matchCount m8 p) 0)).map g := by
    apply filter_map_congr
    intro x hx
    show (matchCount (m8.map (matchImage g)) (g x) ==
      listMinD (labels.map fun p => matchCount m8 p) 0) = _
    rw [hmc x hx]
  rw [hLows, List.length_map]
  by_cases hcond : (labels.filter (fun p => matchCount m8 p ==
      listMinD (labels.map fun p => matchCount m8 p) 0)).length = 4 ∧
      sortNatList (labels.map fun p => matchCount m8 p) = [5, 5, 5, 5, 6, 6]
  · rw [if_pos hcond, if_pos hcond, candidateSplitsOf4_map]
    have hlowmem : ∀ x ∈ labels.filter (fun p => matchCount m8 p ==
        listMinD (labels.map fun p => matchCount m8 p) 0), x ≤ 6 :=
      fun x hx => hlab x (List.mem_of_mem_filter hx)
    cases hsplit : candidateSplitsOf4 (labels.filter (fun p => matchCount m8 p ==
        listMinD (labels.map fun p => matchCount m8 p) 0)) with
    | nil => rfl
    | cons c cs =>
      have hgood := candidateSplitsOf4_good hlowmem
      rw [hsplit] at hgood
      rw [List.map_cons]
      show Except.ok (m8.map (matchImage g) ++
          [minByScore (labels.map g) (m8.map (matchImage g)) (matchImage g c)
            (cs.map (matchImage g))]) = _
      rw [minByScore_image hinj hlab hm8 cs c (hgood c (List.mem_cons_self c cs))
        (fun x hx => hgood x (List.mem_cons_of_mem c hx))]
      show _ = Except.ok ((m8 ++ [minByScore labels m8 c cs]).map (matchImage g))
      rw [List.map_append]
      rfl
  · rw [if_neg hcond, if_neg hcond]
    rfl

theorem roundRobinPairings_good {l : List Nat} (hl : ∀ v ∈ l, v ≤ 6) :
    ∀ r ∈ roundRobinPairings 6 l, ∀ p ∈ r, PGood p := by
  unfold roundRobinPairings
  dsimp only
  by_cases h : l.length % 2 = 1
  · rw [if_pos h]
    refine roundsAux_good _ _ ?_
    intro v hv
    rcases List.mem_append.mp hv with h2 | h2
    · exact hl v h2
    · rcases List.mem_cons.mp h2 with rfl | h3
      · exact le_refl 6
      · exact absurd h3 (List.not_mem_nil v)
  · rw [if_neg h]
    exact roundsAux_good _ _ hl

theorem schedule2v2_image {β : Type} [LinearOrder β] {g : Nat → β}
    (hinj : ∀ i j, i ≤ 6 → j ≤ 6 → g i = g j → i = j)
    (l : List Nat) (hlen : l.length = 6) (hl : ∀ v ∈ l, v ≤ 6) :
    schedule2v2 (g 6) (l.map g) = (schedule2v2 6 l).map (List.map (matchImage g)) := by
  unfold schedule2v2
  dsimp only
  rw [List.length_map]
  rw [if_neg (show ¬ l.length < 4 by omega), if_neg (show ¬ l.length < 4 by omega),
    if_neg (show ¬ 6 < l.length by omega), if_neg (show ¬ 6 < l.length by omega)]
  rw [roundRobinPairings_image hinj l (by omega) hl, collectRounds_image g]
  cases hc : collectRounds l.length (roundRobinPairings 6 l) with
  | error e => rfl
  | ok acc =>
    obtain ⟨ms, lefts⟩ := acc
    dsimp only [Except.map]
    rw [if_pos hlen, if_pos hlen]
    have hP : ∀ p ∈ lefts, PGood p :=
      (collectRounds_good (roundRobinPairings_good hl) hc).2
    have hMs : ∀ m ∈ ms, MGood m :=
      (collectRounds_good (roundRobinPairings_good hl) hc).1
    have hassemble : ∀ ex : List (Match2v2 Nat), (∀ m ∈ ex, MGood m) →
        (if (ms.map (matchImage g) ++ ex.map (matchImage g)).length = 8
          then add_9th_match_balanced (l.map g)
            (ms.map (matchImage g) ++ ex.map (matchImage g))
          else Except.error (SchedErr.unexpectedMatchCount
            (ms.map (matchImage g) ++ ex.map (matchImage g)).length)) =
        (if (ms ++ ex).length = 8 then add_9th_match_balanced l (ms ++ ex)
          else Except.error (SchedErr.unexpectedMatchCount
            (ms ++ ex).length)).map (List.map (matchImage g)) := by
      intro ex hex
      rw [← List.map_append, List.length_map]
      by_cases h8 : (ms ++ ex).length = 8
      · rw [if_pos h8, if_pos h8]
        apply add9_image hinj hl
        intro m hm
        rcases List.mem_append.mp hm with h1 | h1
        · exact hMs m h1
        · exact hex m h1
      · rw [if_neg h8, if_neg h8]
        rfl
    rw [List.length_map]
    have hpe : pairLeftovers (2 * lefts.length + 2) (lefts.map (pairImage g)) [] =
        ((pairLeftovers (2 * lefts.length + 2) lefts []).1.map (pairImage g),
         (pairLeftovers (2 * lefts.length + 2) lefts []).2.map (matchImage g)) :=
      pairLeftovers_image hinj _ lefts [] hP
    rw [hpe]
    dsimp only
    have hextraP : ∀ m ∈ (pairLeftovers (2 * lefts.length + 2) lefts []).2, MGood m :=
      pairLeftovers_extra_good hP (fun m hm => absurd hm (List.not_mem_nil m))
    cases hpe1 : (pairLeftovers (2 * lefts.length + 2) lefts []).1 with
    | nil =>
      exact hassemble _ hextraP
    | cons last restp =>
      rw [List.map_cons]
      dsimp only
      have hlastmem : last ∈ lefts := by
        refine pairLeftovers_pending_sub (2 * lefts.length + 2) lefts [] last ?_
        rw [hpe1]
        exact List.mem_cons_self _ _
      have hlast : PGood last := hP last hlastmem
      have hl1 : last.1 ≤ 6 := by
        obtain ⟨h1, h2⟩ := hlast
        omega
      have hl2 : last.2 ≤ 6 := hlast.2
      have hfil : (l.map g).filter
          (fun x => !(x == (pairImage g last).1 || x == (pairImage g last).2)) =
          (l.filter (fun x => !(x == last.1 || x == last.2))).map g := by
        apply filter_map_congr
        intro x hx
        have hx6 : x ≤ 6 := hl x hx
        rcases pairImage_cases g last with he | he <;> rw [he]
        · show (!(g x == g last.1 || g x == g last.2)) = (!(x == last.1 || x == last.2))
          rw [beq_g hinj hx6 hl1, beq_g hinj hx6 hl2]
        · show (!(g x == g last.2 || g x == g last.1)) = (!(x == last.1 || x == last.2))
          rw [beq_g hinj hx6 hl2, beq_g hinj hx6 hl1, Bool.or_comm]
      rw [hfil]
      cases hrem : l.filter (fun x => !(x == last.1 || x == last.2)) with
      | nil =>
        exact hassemble _ hextraP
      | cons r0 rtl =>
        cases rtl with
        | nil =>
          rw [List.map_cons]
          exact hassemble _ hextraP
        | cons r1 rtl2 =>
          rw [List.map_cons, List.map_cons]
          dsimp only
          have hr0 : r0 ∈ l := by
            have : r0 ∈ l.filter (fun x => !(x == last.1 || x == last.2)) := by
              rw [hrem]
              exact List.mem_cons_self _ _
            exact List.mem_of_mem_filter this
          have hr1 : r1 ∈ l := by
            have : r1 ∈ l.filter (fun x => !(x == last.1 || x == last.2)) := by
              rw [hrem]
              exact List.mem_cons_of_mem r0 (List.mem_cons_self _ _)
            exact List.mem_of_mem_filter this
          have hfuse : (pairLeftovers (2 * lefts.length + 2) lefts []).2.map
              (matchImage g) ++ [(pairImage g last, mkPair (g r0) (g r1))] =
              ((pairLeftovers (2 * lefts.length + 2) lefts []).2 ++
                [(last, mkPair r0 r1)]).map (matchImage g) := by
            rw [List.map_append]
            show _ ++ [(pairImage g last, mkPair (g r0) (g r1))] =
              _ ++ [(pairImage g last, pairImage g (mkPair r0 r1))]
            rw [pairImage_mkPair]
          rw [hfuse]
          refine hassemble _ ?_
          intro m hm
          rcases List.mem_append.mp hm with h1 | h1
          · exact hextraP m h1
          · rcases List.mem_cons.mp h1 with rfl | h2
            · refine ⟨hlast, mkPair_le _ _, ?_⟩
              have ha : r0 ≤ 6 := hl r0 hr0
              have hb : r1 ≤ 6 := hl r1 hr1
              rcases mkPair_mem_right r0 r1 with h | h <;> rw [h] <;> omega
            · exact absurd h2 (List.not_mem_nil m)

theorem canon2v2_eq : schedule2v2 6 [0, 1, 2, 3, 4, 5] = .ok canon2v2 := rfl

theorem canon2v2_facts :
    canon2v2.length = 9 ∧
    (∀ i ∈ List.range 6,
      (canon2v2.filter (fun m => decide (i ∈ playersInMatch m))).length = 6) ∧
    (∀ i ∈ List.range 6, ∀ j ∈ List.range 6, i ≠ j →
      1 ≤ teammateCount canon2v2 (mkPair i j)) ∧
    (∀ m ∈ canon2v2, MGood m ∧ pairDisjoint m.1 m.2 = true) := by
  refine ⟨rfl, by decide, by decide, by simp only [MGood, PGood]; decide⟩

theorem teammateCount_irrel {γ : Type} (i1 i2 : DecidableEq γ)
    (ms : List (Match2v2 γ)) (p : γ × γ) :
    @teammateCount γ i1 ms p = @teammateCount γ i2 ms p := by
  rw [Subsingleton.elim i1 i2]

theorem getD_inj_six {ls : List String} (hnd : ls.Nodup) (hlen : ls.length = 6)
    (hbye : ∀ x ∈ ls, x ≠ "__BYE__") :
    ∀ i j, i ≤ 6 → j ≤ 6 →
      ls.getD i "__BYE__" = ls.getD j "__BYE__" → i = j := by
  intro i j hi hj h
  by_cases hi6 : i = 6 <;> by_cases hj6 : j = 6
  · rw [hi6, hj6]
  · exfalso
    have hj5 : j < ls.length := by omega
    rw [List.getD_eq_default ls _ (by omega), List.getD_eq_getElem ls _ hj5] at h
    exact hbye (ls[j]) (List.getElem_mem hj5) h.symm
  · exfalso
    have hi5 : i < ls.length := by omega
    rw [List.getD_eq_getElem ls _ hi5, List.getD_eq_default ls _ (by omega)] at h
    exact hbye (ls[i]) (List.getElem_mem hi5) h
  · have hi5 : i < ls.length := by omega
    have hj5 : j < ls.length := by omega
    rw [List.getD_eq_getElem ls _ hi5, List.getD_eq_getElem ls _ hj5] at h
    exact (List.Nodup.getElem_inj_iff hnd).mp h

theorem mem_playersInMatch_image {β : Type} [LinearOrder β] {g : Nat → β}
    (hinj : ∀ i j, i ≤ 6 → j ≤ 6 → g i = g j → i = j)
    {m : Match2v2 Nat} (hm : MGood m) {i : Nat} (hi : i ≤ 6) :
    g i ∈ playersInMatch (matchImage g m) ↔ i ∈ playersInMatch m := by
  rw [(playersInMatch_perm g m).mem_iff]
  constructor
  · intro h
    obtain ⟨y, hy, hgy⟩ := List.mem_map.mp h
    have hy6 : y ≤ 6 := playersInMatch_good hm y hy
    rw [← hinj y i hy6 hi hgy]
    exact hy
  · intro h
    exact List.mem_map.mpr ⟨i, h, rfl⟩

/-- Claim C1 (amended: the six distinct labels must also avoid the reserved
bye sentinel `"__BYE__"`): for every list of 6 distinct labels, none of which
is the bye sentinel, `schedule_2v2_labels` returns exactly 9 matches, every
label appears in exactly 6 of them, every one of the 15 unordered label pairs
is a same-side partnership at least once, and the two sides of every match
are disjoint. -/
theorem schedule_2v2_six_players (ls : List String) (hnd : ls.Nodup)
    (hlen : ls.length = 6) (hbye : ∀ x ∈ ls, x ≠ "__BYE__") :
    ∃ ms, schedule_2v2_labels ls = .ok ms ∧ ms.length = 9 ∧
      (∀ x ∈ ls, (ms.filter (fun m => decide (x ∈ playersInMatch m))).length = 6) ∧
      (∀ a ∈ ls, ∀ b ∈ ls, a ≠ b → 1 ≤ teammateCount ms (mkPair a b)) ∧
      (∀ m ∈ ms, pairDisjoint m.1 m.2 = true) := by
  have hinj : ∀ i j, i ≤ 6 → j ≤ 6 →
      ls.getD i "__BYE__" = ls.getD j "__BYE__" → i = j :=
    getD_inj_six hnd hlen hbye
  rcases ls with _ | ⟨a, ls⟩
  · exact absurd hlen (by decide)
  rcases ls with _ | ⟨b, ls⟩
  · simp only [List.length_cons, List.length_nil] at hlen
    omega
  rcases ls with _ | ⟨c, ls⟩
  · simp only [List.length_cons, List.length_nil] at hlen
    omega
  rcases ls with _ | ⟨d, ls⟩
  · simp only [List.length_cons, List.length_nil] at hlen
    omega
  rcases ls with _ | ⟨e, ls⟩
  · simp only [List.length_cons, List.length_nil] at hlen
    omega
  rcases ls with _ | ⟨f, ls⟩
  · simp only [List.length_cons, List.length_nil] at hlen
    omega
  rcases ls with _ | ⟨x0, tl⟩
  case cons.cons.cons.cons.cons.cons.cons =>
    simp only [List.length_cons] at hlen
    omega
  have hMG : ∀ m ∈ canon2v2, MGood m := fun m hm => (canon2v2_facts.2.2.2 m hm).1
  have himg := @schedule2v2_image String _
    (fun i2 => List.getD [a, b, c, d, e, f] i2 "__BYE__") hinj
    [0, 1, 2, 3, 4, 5] rfl (by decide)
  have hrun : schedule_2v2_labels [a, b, c, d, e, f] =
      .ok (canon2v2.map (matchImage
        (fun i2 => List.getD [a, b, c, d, e, f] i2 "__BYE__"))) := by
    refine himg.trans ?_
    rw [canon2v2_eq]
    rfl
  have hidx : ∀ x ∈ ([a, b, c, d, e, f] : List String), ∃ i, i ≤ 5 ∧
      x = List.getD [a, b, c, d, e, f] i "__BYE__" := by
    intro x hx
    simp only [List.mem_cons, List.not_mem_nil, or_false] at hx
    rcases hx with rfl | rfl | rfl | rfl | rfl | rfl
    · exact ⟨0, by omega, rfl⟩
    · exact ⟨1, by omega, rfl⟩
    · exact ⟨2, by omega, rfl⟩
    · exact ⟨3, by omega, rfl⟩
    · exact ⟨4, by omega, rfl⟩
    · exact ⟨5, by omega, rfl⟩
  refine ⟨canon2v2.map (matchImage
    (fun i2 => List.getD [a, b, c, d, e, f] i2 "__BYE__")), hrun, ?_, ?_, ?_, ?_⟩
  · rw [List.length_map]
    exact canon2v2_facts.1
  · intro x hx
    obtain ⟨i, hi, rfl⟩ := hidx x hx
    have hfil : (canon2v2.map (matchImage
        (fun i2 => List.getD [a, b, c, d, e, f] i2 "__BYE__"))).filter
        (fun m => decide (List.getD [a, b, c, d, e, f] i "__BYE__" ∈
          playersInMatch m)) =
        (canon2v2.filter (fun m => decide (i ∈ playersInMatch m))).map
          (matchImage (fun i2 => List.getD [a, b, c, d, e, f] i2 "__BYE__")) := by
      apply filter_map_congr
      intro m hm
      exact decide_eq_decide.mpr
        (mem_playersInMatch_image hinj (hMG m hm) (by omega))
    rw [hfil, List.length_map]
    exact canon2v2_facts.2.1 i (List.mem_range.mpr (by omega))
  · intro p hp q hq hne
    obtain ⟨i, hi, rfl⟩ := hidx p hp
    obtain ⟨j, hj, rfl⟩ := hidx q hq
    have hij : i ≠ j := fun hc => hne (by rw [hc])
    have hPG : PGood (mkPair i j) := ⟨mkPair_le i j, by
      rcases mkPair_mem_right i j with h | h <;> rw [h] <;> omega⟩
    have h1 := teammateCount_image hinj hMG hPG
    have heq : teammateCount (canon2v2.map (matchImage
        (fun i2 => List.getD [a, b, c, d, e, f] i2 "__BYE__")))
        (pairImage (fun i2 => List.getD [a, b, c, d, e, f] i2 "__BYE__")
          (mkPair i j)) =
        teammateCount canon2v2 (mkPair i j) :=
      (teammateCount_irrel _ _ _ _).trans h1
    rw [show mkPair (List.getD [a, b, c, d, e, f] i "__BYE__")
        (List.getD [a, b, c, d, e, f] j "__BYE__") =
        pairImage (fun i2 => List.getD [a, b, c, d, e, f] i2 "__BYE__")
          (mkPair i j) from (pairImage_mkPair
          (fun i2 => List.getD [a, b, c, d, e, f] i2 "__BYE__") i j).symm, heq]
    exact canon2v2_facts.2.2.1 i (List.mem_range.mpr (by omega)) j
      (List.mem_range.mpr (by omega)) hij
  · intro m hm
    obtain ⟨m0, hm0, rfl⟩ := List.mem_map.mp hm
    have h1 := pairDisjoint_image hinj (hMG m0 hm0).1 (hMG m0 hm0).2
    exact (pairDisjoint_irrel _ _ _ _).trans
      (h1.trans ((canon2v2_facts.2.2.2 m0 hm0).2))

theorem schedule_2v2_six_players_witness :
    ∃ ms, schedule_2v2_labels ["A", "B", "C", "D", "E", "F"] = .ok ms ∧
      ms.length = 9 ∧
      (∀ x ∈ (["A", "B", "C", "D", "E", "F"] : List String),
        (ms.filter (fun m => decide (x ∈ playersInMatch m))).length = 6) ∧
      (∀ a ∈ (["A", "B", "C", "D", "E", "F"] : List String),
        ∀ b ∈ (["A", "B", "C", "D", "E", "F"] : List String),
        a ≠ b → 1 ≤ teammateCount ms (mkPair a b)) ∧
      (∀ m ∈ ms, pairDisjoint m.1 m.2 = true) :=
  schedule_2v2_six_players ["A", "B", "C", "D", "E", "F"] (by decide) rfl (by decide)

theorem schedule_2v2_bye_label_cex :
    (["__BYE__", "B", "C", "D", "E", "F"] : List String).Nodup ∧
    (["__BYE__", "B", "C", "D", "E", "F"] : List String).length = 6 ∧
    ∀ ms, schedule_2v2_labels ["__BYE__", "B", "C", "D", "E", "F"] ≠ .ok ms := by
  refine ⟨by decide, rfl, ?_⟩
  intro ms h
  rw [show schedule_2v2_labels ["__BYE__", "B", "C", "D", "E", "F"] =
    .error (.unexpectedRoundSize 2) from by with_unfolding_all rfl] at h
  exact Except.noConfusion h
